import Mathlib

/-!
# fpga-monitoring: host-side reference code

A shallow embedding of the host programs' CPU reference paths
(`matrix_mul`, `sobel_filter`, `asian_option`, `XSBench`, `mirror`, `libhook`)
together with the properties they satisfy.

Conventions of the embedding

* A C array reached through a pointer is a total function from the element
  index to the stored value; a store is `Function.update`. Where the code
  computes the index as an `int` expression (`matrix_mul`, `sobel_filter`), the
  function is defined on `Int`: it is the memory around the pointer, by signed
  element offset.
* Such `int` index expressions and the `int` products passed as sizes are
  wrapped to 32 bits (`wrapInt32`). A loop counter that is compared with its
  bound before every step, and a sum of counters that cannot leave the range
  of `int`, is a natural number.
* `unsigned int` arithmetic is arithmetic modulo `2^32`, written out explicitly.
-/

namespace FpgaMonitoring

/-! ## Control structure -/

/-- The loop `for (n = 0; n < count; n++) s = body n s`. -/
def forLoop {σ : Type} (body : Nat → σ → σ) : Nat → σ → σ
  | 0, s => s
  | n + 1, s => body n (forLoop body n s)

/-! ## Machine integers -/

/-- The value that a 32-bit `int` holds when the exact value of an `int` expression is `x`: the
representative of `x` modulo `2^32` in `[-2^31, 2^31)` (two's complement). A value in that range
is kept; a sum or product beyond it wraps around, as it does in the compiled code. Wrapping
every step of an expression made of sums and products gives the same value as wrapping its
exact value once. -/
def wrapInt32 (x : Int) : Int := (x + 2147483648) % 4294967296 - 2147483648

/-! ## matrix_mul/src/matrix_mul.cpp -/

section MatrixMul

variable {α : Type}

/-- The innermost loop of `matrix_multiply`:
`DATA_TYPE acc = 0; for (k = 0; k < col_a; k++) acc += data_a[i*col_a + k] * data_b[k*col_b + j];`
(`DATA_TYPE` comes from `common_defines.h`, so its arithmetic is a parameter). An array is the
memory around its pointer, by signed element offset; the index expressions are `int`
expressions, so they wrap. -/
def matrix_multiply_acc [Zero α] [Add α] [Mul α] (data_a data_b : Int → α)
    (col_a col_b : Int) (i j : Nat) : α :=
  forLoop (fun k acc =>
      acc + data_a (wrapInt32 ((i : Int) * col_a + (k : Int)))
        * data_b (wrapInt32 ((k : Int) * col_b + (j : Int))))
    col_a.toNat 0

/-- The function `matrix_multiply(data_a, data_b, data_c, row_a, col_a, col_b)` with its `int`
parameters; the result is the memory around `data_c` after the call. The loops
`for (int i = 0; i < row_a; i++)` do not run for a bound that is zero or negative. -/
def matrix_multiply [Zero α] [Add α] [Mul α] (data_a data_b data_c : Int → α)
    (row_a col_a col_b : Int) : Int → α :=
  forLoop (fun i c =>
    forLoop (fun j c =>
      Function.update c (wrapInt32 ((i : Int) * col_b + (j : Int)))
        (matrix_multiply_acc data_a data_b col_a col_b i j))
      col_b.toNat c)
    row_a.toNat data_c

/-- The mathematical entry `(i, j)` of the product: the sum over `k` in `[0, col_a)` of
`data_a[i*col_a + k] * data_b[k*col_b + j]`, accumulated from `0` from left to right, with the
exact indices. -/
def dotProduct [Zero α] [Add α] [Mul α] (data_a data_b : Int → α)
    (col_a col_b : Int) (i j : Nat) : α :=
  (List.range col_a.toNat).foldl
    (fun acc (k : Nat) => acc + data_a ((i : Int) * col_a + (k : Int))
      * data_b ((k : Int) * col_b + (j : Int))) 0

/-- The function `compare_result(data_acc, data_host, size)` with its `cl_uint` counter. The
state of the loop is the flag `result` together with the locations reported by
`PRINT_ERROR("Data Mismatch ...")`. -/
def compare_result [BEq α] (data_acc data_host : Int → α) (size : Nat) : Bool × List Nat :=
  forLoop (fun i st =>
      if data_acc (i : Int) != data_host (i : Int) then (false, st.2 ++ [i]) else st)
    size (true, [])

/-- The function `fill_buffer(buffer, size)`: `buffer[i] = i` for `i < size`. -/
def fill_buffer [NatCast α] (buffer : Int → α) (size : Nat) : Int → α :=
  forLoop (fun i b => Function.update b (i : Int) (i : α)) size buffer

end MatrixMul

/-- How a host program ends: `main` returns a value, or a failed check stops the process. -/
inductive Exit
  | returned (code : Int)
  | aborted
  deriving DecidableEq, Repr

/-- What a run of a host program does, as far as it can be seen from outside. -/
inductive Event
  | print (msg : String)
  | api (name : String) (arg : Nat)
  | checkError (status : Int) (msg : String)
  deriving DecidableEq, Repr

/-- The status `CL_SUCCESS` of the OpenCL API. -/
def CL_SUCCESS : Int := 0

/-- The conversion of a `cl_int` to the `cl_uint` variable `status` of `main`. -/
def toUInt32 (x : Int) : Nat := (x % 2 ^ 32).toNat

/-- The conversion of an `unsigned int` to `int` (two's complement). -/
def toInt32 (x : Nat) : Int :=
  if x % 2 ^ 32 < 2 ^ 31 then ((x % 2 ^ 32 : Nat) : Int) else ((x % 2 ^ 32 : Nat) : Int) - 2 ^ 32

/-- Modelled from the spec: `checkError` of `aocl_utils.h`, which is not part of the sources:
"every vendor API call result is checked via a helper that prints a message and aborts the
process on failure". The result is `true` when the process goes on. -/
def checkErrorPasses (status : Int) : Bool := status == CL_SUCCESS

/-- The function `write_device_buffer`, given the statuses of `clCreateBuffer` and of
`clEnqueueWriteBuffer`: the events, and `none` when a `checkError` stopped the process, else the
value returned. -/
def write_device_buffer (create write : Int) (info : String) : List Event × Option Bool :=
  let t1 := [Event.api "clCreateBuffer" 0,
             Event.checkError create ("Could not create buffer " ++ info)]
  if !checkErrorPasses create then (t1, none) else
  let t2 := t1 ++ [Event.api "clEnqueueWriteBuffer" 0,
                   Event.checkError write ("Could not write buffer " ++ info)]
  if !checkErrorPasses write then (t2, none) else
  (t2, some (write == CL_SUCCESS))

/-- The function `create_or_read_device_buffer`, given the status of the one API call it makes. -/
def create_or_read_device_buffer (status : Int) (info : String) (create_not_write : Bool) :
    List Event × Option Bool :=
  if create_not_write then
    let t := [Event.api "clCreateBuffer" 0,
              Event.checkError status ("Could not create buffer " ++ info)]
    if !checkErrorPasses status then (t, none) else (t, some (status == CL_SUCCESS))
  else
    let t := [Event.api "clEnqueueReadBuffer" 0,
              Event.checkError status ("Could not write buffer " ++ info)]
    if !checkErrorPasses status then (t, none) else (t, some (status == CL_SUCCESS))

/-- Everything `main` of `matrix_mul` receives from outside: the command line (`m`, `n`, `p` are
the `cl_uint` values that `cmd_line_opt.get<cl_uint>` returns for the options of these names),
the outcome of the set-up helpers (`none` when a check inside stopped the process), the status of
every vendor call, the memory around the freshly allocated buffers and the memory around `data_C`
after the read-back. -/
structure MatMulEnv (α : Type) where
  help : Bool
  m : Nat
  n : Nat
  p : Nat
  init_opencl : Option Bool
  create_kernel : Option Bool
  createA : Int
  writeA : Int
  createB : Int
  writeB : Int
  createC : Int
  setKernelArg : Nat → Int
  enqueueTask : Int
  readC : Int
  data_A0 : Int → α
  data_B0 : Int → α
  data_D0 : Int → α
  data_C : Int → α

/-- The variable `cl_int row_a` of `main` after `row_a = cmd_line_opt.get<cl_uint>("m")`: the
`cl_uint` value converted to `cl_int`. -/
def MatMulEnv.row_a {α : Type} (env : MatMulEnv α) : Int := wrapInt32 (env.m : Int)

/-- The variable `cl_int col_a` of `main` after `col_a = cmd_line_opt.get<cl_uint>("n")`. -/
def MatMulEnv.col_a {α : Type} (env : MatMulEnv α) : Int := wrapInt32 (env.n : Int)

/-- The variable `cl_int col_b` of `main` after `col_b = cmd_line_opt.get<cl_uint>("p")`. -/
def MatMulEnv.col_b {α : Type} (env : MatMulEnv α) : Int := wrapInt32 (env.p : Int)

/-- An `int` product such as `row_a*col_b` passed for a parameter `cl_uint size`: the product
of two `cl_int` values, wrapped as an `int` and converted to `cl_uint`. -/
def cl_uint_product (a b : Int) : Nat := toUInt32 (wrapInt32 (a * b))

/-- The state of `main` of `matrix_mul` when it ends. -/
structure MatMulRun where
  trace : List Event
  /-- the value of `status` right after the six `clSetKernelArg` calls (`0` if not reached) -/
  argStatus : Nat
  /-- the final value of `status` -/
  status : Nat
  exit : Exit
  deriving DecidableEq, Repr

/-- The function `main` of `matrix_mul.cpp` (built without `EMULATOR`, debug points and watch
points). `status` is the `cl_uint` variable of `main`; the numbers returned are `__LINE__`. The
buffers are taken to be as large as the accesses need (the sizes passed to `alignedMalloc` are
not part of the embedding). -/
def matrix_mul_main {α : Type} [NatCast α] [Zero α] [Add α] [Mul α] [BEq α]
    (env : MatMulEnv α) : MatMulRun :=
  if env.help then ⟨[Event.print "help"], 0, 0, Exit.returned 48⟩ else
  -- fill_buffer(data_A,row_a*col_a); fill_buffer(data_B,col_a*col_b);
  let data_A := fill_buffer env.data_A0 (cl_uint_product env.row_a env.col_a)
  let data_B := fill_buffer env.data_B0 (cl_uint_product env.col_a env.col_b)
  let t0 := [Event.print "-INFO- : Operation", Event.print "-INFO- : AOCX FILE NAME"]
  match env.init_opencl with
  | none => ⟨t0, 0, 0, Exit.aborted⟩
  | some false => ⟨t0, 0, 0, Exit.returned 73⟩
  | some true =>
  match env.create_kernel with
  | none => ⟨t0, 0, 0, Exit.aborted⟩
  | some false => ⟨t0, 0, 0, Exit.returned 79⟩
  | some true =>
  let wa := write_device_buffer env.createA env.writeA "Buffer A"
  let t1 := t0 ++ wa.1
  match wa.2 with
  | none => ⟨t1, 0, 0, Exit.aborted⟩
  | some false => ⟨t1, 0, 0, Exit.returned 96⟩
  | some true =>
  let wb := write_device_buffer env.createB env.writeB "Buffer B"
  let t2 := t1 ++ wb.1
  match wb.2 with
  | none => ⟨t2, 0, 0, Exit.aborted⟩
  | some false => ⟨t2, 0, 0, Exit.returned 97⟩
  | some true =>
  let cc := create_or_read_device_buffer env.createC "Buffer C" true
  let t3 := t2 ++ cc.1
  match cc.2 with
  | none => ⟨t3, 0, 0, Exit.aborted⟩
  | some false => ⟨t3, 0, 0, Exit.returned 101⟩
  | some true =>
  let t4 := t3 ++ [Event.api "clFinish" 0, Event.print "-INFO- : Copied buffer to memory"]
  -- status = clSetKernelArg(kernel,0,..); status |= clSetKernelArg(kernel,1,..); ...
  let argStatus := toUInt32 (env.setKernelArg 0)
  let argStatus := argStatus ||| toUInt32 (env.setKernelArg 1)
  let argStatus := argStatus ||| toUInt32 (env.setKernelArg 2)
  let argStatus := argStatus ||| toUInt32 (env.setKernelArg 3)
  let argStatus := argStatus ||| toUInt32 (env.setKernelArg 4)
  let argStatus := argStatus ||| toUInt32 (env.setKernelArg 5)
  let t5 := t4 ++ [Event.api "clSetKernelArg" 0, Event.api "clSetKernelArg" 1,
                   Event.api "clSetKernelArg" 2, Event.api "clSetKernelArg" 3,
                   Event.api "clSetKernelArg" 4, Event.api "clSetKernelArg" 5,
                   Event.print "-INFO- : Completed setting the Args"]
  -- for (repeat_count = 0; repeat_count < 1; repeat_count++)
  -- status = clEnqueueTask(queue,kernel,0,NULL,&event): the value above is overwritten
  let status := toUInt32 env.enqueueTask
  let t6 := t5 ++ [Event.api "clEnqueueTask" 0,
                   Event.checkError (toInt32 status) "Could not enqueue Kernel matrix_multiply"]
  if !checkErrorPasses (toInt32 status) then ⟨t6, argStatus, status, Exit.aborted⟩ else
  let t7 := t6 ++ [Event.api "clFinish" 0, Event.print "-INFO- : Reading The Timers"]
  let rc := create_or_read_device_buffer env.readC "Buffer C" false
  let t8 := t7 ++ rc.1
  match rc.2 with
  | none => ⟨t8, argStatus, status, Exit.aborted⟩
  | some false => ⟨t8, argStatus, status, Exit.returned 148⟩
  | some true =>
  let t9 := t8 ++ [Event.api "clFinish" 0]
  let data_D := matrix_multiply data_A data_B env.data_D0 env.row_a env.col_a env.col_b
  if !(compare_result env.data_C data_D (cl_uint_product env.row_a env.col_b)).1 then
    ⟨t9 ++ [Event.print "-ERROR- : Compare Failed"], argStatus, status, Exit.returned 155⟩
  else
    ⟨t9 ++ [Event.print "-INFO- : Result from Accelerator is correct"], argStatus, status,
      Exit.returned 0⟩

/-- The environment of a run of `matrix_mul -m 2 -n 2 -p 2` in which every vendor call succeeds
and the accelerator returns the right product. -/
def goodMatMulEnv : MatMulEnv Int where
  help := false
  m := 2
  n := 2
  p := 2
  init_opencl := some true
  create_kernel := some true
  createA := 0
  writeA := 0
  createB := 0
  writeB := 0
  createC := 0
  setKernelArg := fun _ => 0
  enqueueTask := 0
  readC := 0
  data_A0 := fun _ => 0
  data_B0 := fun _ => 0
  data_D0 := fun _ => 0
  data_C := fun p => if p = 0 then 2 else if p = 1 then 3 else if p = 2 then 6 else 11

/-- The run `goodMatMulEnv`, except that `clSetKernelArg(kernel, 0, ...)` fails with
`CL_INVALID_KERNEL` (-48). -/
def badArgMatMulEnv : MatMulEnv Int :=
  { goodMatMulEnv with setKernelArg := fun i => if i = 0 then -48 else 0 }

/-- The environment of a run of `matrix_mul -m 65536 -n 1 -p 65536` in which every vendor call
succeeds and the accelerator returns, at every position, the serial product plus one. -/
def wrapMatMulEnv : MatMulEnv Int :=
  { goodMatMulEnv with
    m := 65536
    n := 1
    p := 65536
    data_C := fun q =>
      matrix_multiply (fill_buffer (fun _ => 0) 65536) (fill_buffer (fun _ => 0) 65536)
        (fun _ => 0) 65536 1 65536 q + 1 }

/-- An event `checkError(status, ...)` with a status other than `CL_SUCCESS`. -/
def Event.isFailedCheck : Event → Bool
  | Event.checkError status _ => !checkErrorPasses status
  | _ => false

/-! ## sobel_filter/host/src/kernel.cpp -/

/-- The table `static const int Gx[3][3] = {{-1,-2,-1},{0,0,0},{1,2,1}}`. -/
def Gx : Nat → Nat → Int
  | 0, 0 => -1
  | 0, 1 => -2
  | 0, 2 => -1
  | 2, 0 => 1
  | 2, 1 => 2
  | 2, 2 => 1
  | _, _ => 0

/-- The table `static const int Gy[3][3] = {{-1,0,1},{-2,0,2},{-1,0,1}}`. -/
def Gy : Nat → Nat → Int
  | 0, 0 => -1
  | 0, 2 => 1
  | 1, 0 => -2
  | 1, 2 => 2
  | 2, 0 => -1
  | 2, 2 => 1
  | _, _ => 0

/-- The `unsigned int luma` that `sobel_cpu` computes from a pixel:
`b = pixel & 0xff; g = (pixel >> 8) & 0xff; r = (pixel >> 16) & 0xff;`
`luma = r * 66 + g * 129 + b * 25; luma = (luma + 128) >> 8; luma += 16;`. -/
def sobel_luma (pixel : Nat) : Nat :=
  let b := pixel &&& 0xff
  let g := (pixel >>> 8) &&& 0xff
  let r := (pixel >>> 16) &&& 0xff
  let luma := (r * 66 + g * 129 + b * 25) % 2 ^ 32
  let luma := ((luma + 128) % 2 ^ 32) >>> 8
  (luma + 16) % 2 ^ 32

/-- The statement `x_dir += luma * G[i][j]` with `int x_dir`, `unsigned int luma` and
`int G[i][j]`: the product and the sum are computed in `unsigned int` and the result is converted
back to `int`. -/
def sobel_accumulate (dir : Int) (luma : Nat) (g : Int) : Int :=
  toInt32 ((toUInt32 dir + (luma * toUInt32 g) % 2 ^ 32) % 2 ^ 32)

/-- The value of the `int` expression `count + i * COLS + j + k` that selects the pixel of the
tap `(i, j)` of the window of `count + k`. `COLS` comes from `defines.h`. The sum is an `int`
sum, so it wraps when it leaves the range of `int`. -/
def sobel_index (COLS count k i j : Nat) : Int :=
  wrapInt32 ((count : Int) + (i : Int) * (COLS : Int) + (j : Int) + (k : Int))

/-- The body of the two inner loops of `sobel_cpu` for the tap `(i, j)` of the window of
`count + k`; the state is `(x_dir, y_dir)`. `frame_in` is the memory around the pointer
`frame_in`, by signed element offset: the frame is the part at the offsets `0 .. iterations-1`. -/
def sobel_tap (COLS : Nat) (frame_in : Int → Nat) (iterations : Int) (count k i j : Nat)
    (st : Int × Int) : Int × Int :=
  if sobel_index COLS count k i j < iterations then
    let luma := sobel_luma (frame_in (sobel_index COLS count k i j))
    (sobel_accumulate st.1 luma (Gx i j), sobel_accumulate st.2 luma (Gy i j))
  else
    (st.1 + 16 * Gx i j, st.2 + 16 * Gy i j)

/-- The pair `(x_dir, y_dir)` after the loops `for (i < 3) for (j < 3)`. -/
def sobel_window (COLS : Nat) (frame_in : Int → Nat) (iterations : Int) (count k : Nat) :
    Int × Int :=
  forLoop (fun i st => forLoop (fun j st => sobel_tap COLS frame_in iterations count k i j st) 3 st)
    3 (0, 0)

/-- The value stored for the window of `count + k`: `temp = abs(x_dir) + abs(y_dir)`, compared
with the `unsigned int threshold` after conversion to `unsigned int`. -/
def sobel_pixel (COLS : Nat) (frame_in : Int → Nat) (iterations : Int) (threshold : Nat)
    (count k : Nat) : Nat :=
  let w := sobel_window COLS frame_in iterations count k
  let temp : Int := ((w.1.natAbs + w.2.natAbs : Nat) : Int)
  if toUInt32 temp > threshold then 0xffffff else 0

/-- The body of the loop over `count`: the loop `for (k = 0; k < VECTORIZE_NUM; k++)`. The sum
`count + k` stays in the range of `int`, because `count` is a multiple of 16 below an `int`. -/
def sobel_block (COLS : Nat) (frame_in : Int → Nat) (iterations : Int) (threshold : Nat)
    (count : Nat) (frame_out : Nat → Nat) : Nat → Nat :=
  forLoop (fun k out =>
      if ((count + k : Nat) : Int) < iterations then
        Function.update out (count + k) (sobel_pixel COLS frame_in iterations threshold count k)
      else out)
    16 frame_out

/-- The function `sobel_cpu(frame_in, frame_out, iterations, threshold)`; the result is the
contents of `frame_out` after the call. The loop
`for (count = 0; count < iterations; count += VECTORIZE_NUM)` runs for `count = 0, 16, 32, ...`,
that is `(iterations + 15) / 16` times when `iterations > 0` and not at all otherwise. Its
iterations write different cells and read `frame_in` only, so the order in which OpenMP runs
them does not matter. The counter `count` stays in the range of `int` up to the last chunk; the
increment after the last chunk fits as well when `iterations <= 2^31 - 16`. -/
def sobel_cpu (COLS : Nat) (frame_in : Int → Nat) (frame_out : Nat → Nat) (iterations : Int)
    (threshold : Nat) : Nat → Nat :=
  forLoop (fun c out => sobel_block COLS frame_in iterations threshold (16 * c) out)
    ((iterations.toNat + 15) / 16) frame_out

/-- The luma `L(p)` of the claim: `((66*r + 129*g + 25*b + 128) >> 8) + 16` for the pixel
`frame_in[p]` (`b` = bits 0-7, `g` = bits 8-15, `r` = bits 16-23) when `p < iterations`, and `16`
when `p >= iterations`. -/
def lumaAt (frame_in : Int → Nat) (iterations : Int) (p : Nat) : Int :=
  if (p : Int) < iterations then
    let b := frame_in (p : Int) % 256
    let g := frame_in (p : Int) / 256 % 256
    let r := frame_in (p : Int) / 65536 % 256
    (((66 * r + 129 * g + 25 * b + 128) / 256 + 16 : Nat) : Int)
  else 16

/-- The exact signed sum `X = sum over i, j in {0,1,2} of G[i][j] * L(idx + i*COLS + j)`. -/
def gradient (G : Nat → Nat → Int) (COLS : Nat) (frame_in : Int → Nat) (iterations : Int)
    (idx : Nat) : Int :=
  ∑ i in Finset.range 3, ∑ j in Finset.range 3,
    G i j * lumaAt frame_in iterations (idx + i * COLS + j)

/-- The luma that the tap `(i, j)` of the window of `count + k` enters in the two sums: the luma
of the pixel read, or `16` when the guard fails. -/
def sobel_tap_luma (COLS : Nat) (frame_in : Int → Nat) (iterations : Int) (count k i j : Nat) :
    Int :=
  if sobel_index COLS count k i j < iterations then
    (sobel_luma (frame_in (sobel_index COLS count k i j)) : Int)
  else 16

/-- A frame of 24 pixels, 4 to a row, whose right half is white. -/
def stepFrame (p : Int) : Nat := if p % 4 < 2 then 0 else 0xffffff

/-- The loop over `count` of `sobel_cpu` with its 16-pixel chunks run one after the other in the
order given by `order`, a list of chunk numbers (chunk `c` is `count = 16 * c`). -/
def sobel_cpu_in_order (COLS : Nat) (frame_in : Int → Nat) (frame_out : Nat → Nat)
    (iterations : Int) (threshold : Nat) (order : List Nat) : Nat → Nat :=
  order.foldl (fun out c => sobel_block COLS frame_in iterations threshold (16 * c) out) frame_out

/-- A frame of 9 pixels, 3 to a row, black above the anti-diagonal and white on and below it:
pixels 5, 7 and 8 are white. -/
def cornerFrame (p : Int) : Nat := if p = 5 ∨ p = 7 ∨ p = 8 then 0xffffff else 0

/-- Memory in which every pixel of the frame is black and the words before the frame, at the
negative offsets, are white. -/
def outsideWhite (p : Int) : Nat := if p < 0 then 0xffffff else 0

/-- The contents of `frame_out` together with a record of the accesses made so far: the offsets
at which `frame_in` was read and the indices at which `frame_out` was written, oldest first. -/
structure SobelAccess where
  frame_out : Nat → Nat
  reads : List Int
  writes : List Nat

/-- The body of the two inner loops of `sobel_cpu` with the record of reads: the only read of
`frame_in` is `frame_in[count + i * COLS + j + k]`, made when the `int` value of
`count + i * COLS + j + k` is below `iterations`. -/
def sobel_tap_traced (COLS : Nat) (frame_in : Int → Nat) (iterations : Int) (count k i j : Nat)
    (st : (Int × Int) × List Int) : (Int × Int) × List Int :=
  if sobel_index COLS count k i j < iterations then
    let luma := sobel_luma (frame_in (sobel_index COLS count k i j))
    ((sobel_accumulate st.1.1 luma (Gx i j), sobel_accumulate st.1.2 luma (Gy i j)),
      st.2 ++ [sobel_index COLS count k i j])
  else
    ((st.1.1 + 16 * Gx i j, st.1.2 + 16 * Gy i j), st.2)

/-- The loops `for (i < 3) for (j < 3)` with the record of reads. -/
def sobel_window_traced (COLS : Nat) (frame_in : Int → Nat) (iterations : Int) (count k : Nat)
    (reads : List Int) : (Int × Int) × List Int :=
  forLoop (fun i st =>
      forLoop (fun j st => sobel_tap_traced COLS frame_in iterations count k i j st) 3 st)
    3 ((0, 0), reads)

/-- The body of the loop over `k` with the record of accesses: the only write to `frame_out`
is `frame_out[count + k]`, made when `count + k < iterations`. -/
def sobel_round_traced (COLS : Nat) (frame_in : Int → Nat) (iterations : Int) (threshold : Nat)
    (count k : Nat) (s : SobelAccess) : SobelAccess :=
  let w := sobel_window_traced COLS frame_in iterations count k s.reads
  let temp : Int := ((w.1.1.natAbs + w.1.2.natAbs : Nat) : Int)
  if ((count + k : Nat) : Int) < iterations then
    { frame_out := Function.update s.frame_out (count + k)
        (if toUInt32 temp > threshold then 0xffffff else 0),
      reads := w.2,
      writes := s.writes ++ [count + k] }
  else { frame_out := s.frame_out, reads := w.2, writes := s.writes }

/-- The loop `for (k = 0; k < VECTORIZE_NUM; k++)` with the record of accesses. -/
def sobel_block_traced (COLS : Nat) (frame_in : Int → Nat) (iterations : Int) (threshold : Nat)
    (count : Nat) (s : SobelAccess) : SobelAccess :=
  forLoop (fun k s => sobel_round_traced COLS frame_in iterations threshold count k s) 16 s

/-- The function `sobel_cpu` with the record of its accesses to `frame_in` and `frame_out`. -/
def sobel_cpu_traced (COLS : Nat) (frame_in : Int → Nat) (frame_out : Nat → Nat)
    (iterations : Int) (threshold : Nat) : SobelAccess :=
  forLoop (fun c s => sobel_block_traced COLS frame_in iterations threshold (16 * c) s)
    ((iterations.toNat + 15) / 16) { frame_out := frame_out, reads := [], writes := [] }

/-! ## asian_option/host/src/kernel_cpu.cpp -/

/-- The constant `MT_M`. -/
def MT_M : Nat := 397

/-- The constant `MT_N`. -/
def MT_N : Nat := 624

/-- The constant `MATRIX_A`. -/
def MATRIX_A : Nat := 0x9908b0df

/-- The constant `UPPER_MASK`. -/
def UPPER_MASK : Nat := 0x80000000

/-- The constant `LOWER_MASK`. -/
def LOWER_MASK : Nat := 0x7fffffff

/-- The constant `VECTOR`. -/
def VECTOR : Nat := 64

/-- The data members `mt_base_` and `mt` of `struct mersenne_twister` (the array `U` holds the
floating-point images of the words and is not part of the embedding). -/
structure mersenne_twister where
  mt_base_ : Nat
  mt : Nat → Nat

/-- The variables of the constructor's loop over `n`. -/
structure SeedLoop where
  ival : Nat → Nat
  ival_base : Nat
  state : Nat
  mt : Nat → Nat

/-- The update `state = (1812433253U * (state ^ (state >> 30)) + n) & 0xffffffffUL`, in
`unsigned int` arithmetic. -/
def seed_step (state n : Nat) : Nat :=
  (((1812433253 * (state ^^^ (state >>> 30))) % 2 ^ 32 + n) % 2 ^ 32) &&& 0xffffffff

/-- The write-back of the constructor, run when `n % VECTOR == 47`:
`int mt_base = (n / VECTOR) * VECTOR - shift;`
`for (i < VECTOR) if (mt_base + i >= 0) mt[mt_base + i] = ival[(ival_base + i) % VECTOR];`
with `shift = (MT_N / VECTOR + 1) * VECTOR - MT_N`. -/
def seed_writeback (n : Nat) (s : SeedLoop) : Nat → Nat :=
  let shift : Int := ((MT_N / VECTOR + 1) * VECTOR : Nat) - (MT_N : Int)
  let mt_base : Int := ((n / VECTOR * VECTOR : Nat) : Int) - shift
  forLoop (fun i mt =>
      if mt_base + (i : Int) ≥ 0 then
        Function.update mt (mt_base + (i : Int)).toNat
          (s.ival (((s.ival_base + i) % 2 ^ 32) % VECTOR))
      else mt)
    VECTOR s.mt

/-- The body of the constructor's loop `for (int n = 0; n < MT_N; n++)`. -/
def seed_body (n : Nat) (s : SeedLoop) : SeedLoop :=
  let ival := Function.update s.ival (s.ival_base % VECTOR) s.state
  let ival_base := (s.ival_base + 1) % 2 ^ 32
  let state := seed_step s.state n
  let s1 : SeedLoop := { ival := ival, ival_base := ival_base, state := state, mt := s.mt }
  if n % VECTOR = 47 then { s1 with mt := seed_writeback n s1 } else s1

/-- The constructor `mersenne_twister(unsigned int seed)`. The arrays `ival` and `mt` start with
whatever the memory holds, `ival0` and `mt0`. -/
def mersenne_twister_ctor (seed : Nat) (ival0 mt0 : Nat → Nat) : mersenne_twister :=
  let ival := forLoop (fun i iv => Function.update iv i seed) VECTOR ival0
  let s := forLoop seed_body MT_N
    { ival := ival, ival_base := 0, state := seed, mt := mt0 }
  { mt_base_ := 0, mt := s.mt }

/-- The index used by `MT_(i)`, that is `(mt_base_ + (i)) % MT_N` with the sum in
`unsigned int`. -/
def MT_ (m : mersenne_twister) (i : Nat) : Nat := ((m.mt_base_ + i) % 2 ^ 32) % MT_N

/-- The body of the first loop of `next()`:
`y[i] = (MT_(i) & UPPER_MASK) | (MT_(i+1) & LOWER_MASK);`
`y[i] = MT_(i+MT_M) ^ (y[i] >> 1) ^ (y[i] & 0x1UL ? MATRIX_A : 0x0UL);`. -/
def next_twist (m : mersenne_twister) (i : Nat) : Nat :=
  let y := ((m.mt (MT_ m i) &&& UPPER_MASK) ||| (m.mt (MT_ m (i + 1)) &&& LOWER_MASK)) % 2 ^ 32
  (m.mt (MT_ m (i + MT_M)) ^^^ (y >>> 1) ^^^ (if y &&& 1 ≠ 0 then MATRIX_A else 0)) % 2 ^ 32

/-- The four tempering statements of the second loop of `next()`, on an `unsigned int`. -/
def temper (y : Nat) : Nat :=
  let y := (y ^^^ (y >>> 11)) % 2 ^ 32
  let y := (y ^^^ (((y <<< 7) % 2 ^ 32) &&& 0x9d2c5680)) % 2 ^ 32
  let y := (y ^^^ (((y <<< 15) % 2 ^ 32) &&& 0xefc60000)) % 2 ^ 32
  (y ^^^ (y >>> 18)) % 2 ^ 32

/-- The function `next()`: the object afterwards, and the array `y` of the 32-bit words that are
converted to `U[0..63]`. The array `y` is written in full before it is read, so its initial
contents are taken to be zero. -/
def next (m : mersenne_twister) : mersenne_twister × (Nat → Nat) :=
  let y := forLoop (fun i y => Function.update y i (next_twist m i)) VECTOR (fun _ => 0)
  let st := forLoop (fun i (st : (Nat → Nat) × (Nat → Nat)) =>
      (Function.update st.1 (MT_ m i) (st.2 i), Function.update st.2 i (temper (st.2 i))))
    VECTOR (m.mt, y)
  ({ mt_base_ := (m.mt_base_ + VECTOR) % 2 ^ 32, mt := st.1 }, st.2)

/-- The object after `k` calls of `next()`. -/
def after_calls (m : mersenne_twister) : Nat → mersenne_twister
  | 0 => m
  | k + 1 => (next (after_calls m k)).1

/-- The word that call number `k` of `next()` (counted from `0`) converts to `U[i]`. -/
def next_word (m : mersenne_twister) (k i : Nat) : Nat := (next (after_calls m k)).2 i

/-- The textbook MT19937 sequence grown from the 624 words `x`: after `n` steps the table holds
`x_0 .. x_{n+623}`, with
`x_{j+624} = x_{j+397} XOR (y_j >> 1) XOR (0x9908b0df if y_j is odd, else 0)` and
`y_j = (x_j AND 0x80000000) OR (x_{j+1} AND 0x7fffffff)`. -/
def mt19937_table (x : Nat → Nat) : Nat → (Nat → Nat)
  | 0 => x
  | n + 1 =>
    let t := mt19937_table x n
    let y := (t n &&& 0x80000000) ||| (t (n + 1) &&& 0x7fffffff)
    Function.update t (n + 624)
      (t (n + 397) ^^^ (y >>> 1) ^^^ (if y % 2 = 1 then 0x9908b0df else 0))

/-- The word `x_j` of the textbook MT19937 sequence grown from `x_0 .. x_623`. -/
def mt19937 (x : Nat → Nat) (j : Nat) : Nat := mt19937_table x (j + 1 - 624) j

/-- The standard tempering of MT19937 on a 32-bit word:
`y ^= y >> 11; y ^= (y << 7) & 0x9d2c5680; y ^= (y << 15) & 0xefc60000; y ^= y >> 18`. -/
def mt19937_temper (y : Nat) : Nat :=
  let y := y ^^^ (y >>> 11)
  let y := y ^^^ ((y <<< 7) &&& 0x9d2c5680)
  let y := y ^^^ ((y <<< 15) &&& 0xefc60000)
  y ^^^ (y >>> 18)

/-- The textbook MT19937 seeding: `mt[0] = seed` and
`mt[i] = (1812433253 * (mt[i-1] XOR (mt[i-1] >> 30)) + i) mod 2^32`. -/
def mt19937_seed (seed : Nat) : Nat → Nat
  | 0 => seed
  | i + 1 =>
    (1812433253 * (mt19937_seed seed i ^^^ (mt19937_seed seed i >>> 30)) + (i + 1)) % 2 ^ 32

/-- The recurrence the constructor iterates: `s_0 = seed` and
`s_{n+1} = (1812433253 * (s_n XOR (s_n >> 30)) + n) mod 2^32`. -/
def seed_sequence (seed : Nat) : Nat → Nat
  | 0 => seed
  | n + 1 =>
    (1812433253 * (seed_sequence seed n ^^^ (seed_sequence seed n >>> 30)) + n) % 2 ^ 32

/-- The invariant of the constructor's loop after `n` iterations. -/
def SeedInv (seed n : Nat) (s : SeedLoop) : Prop :=
  s.state = seed_sequence seed n ∧ s.ival_base = n
    ∧ (∀ m, m < n → n ≤ m + 64 → s.ival (m % 64) = seed_sequence seed m)
    ∧ (∀ i, i + 16 < 64 * ((n + 16) / 64) → s.mt i = seed_sequence seed i)

/-- The circular-buffer invariant of `next()` before call number `k`: `mt_base_` is `64 * k` and
slot `(64*k + t) % 624` holds the word `x_{64k+t}` of the textbook sequence grown from `x`. -/
def NextInv (x : Nat → Nat) (k : Nat) (m : mersenne_twister) : Prop :=
  m.mt_base_ = 64 * k ∧ ∀ t, t < 624 → m.mt ((64 * k + t) % 624) = mt19937 x (64 * k + t)

/-- The textbook generation step as a function of the three words it reads:
`x_{j+624} = mt19937_twist x_j x_{j+1} x_{j+397}`. -/
def mt19937_twist (xj xj1 xj397 : Nat) : Nat :=
  xj397 ^^^ (((xj &&& 0x80000000) ||| (xj1 &&& 0x7fffffff)) >>> 1)
    ^^^ (if ((xj &&& 0x80000000) ||| (xj1 &&& 0x7fffffff)) % 2 = 1 then 0x9908b0df else 0)

/-! ## XSBench/src/main_cachebs_grid_ori_double16.cpp -/

/-- A line of output of `run_simulation_v2`: the call of `print_results` with the hash it is
given, a fixed text, or the line `"vhash_verify: %ld, vhash: %ld\n"` with its two values. -/
inductive XSLine
  | print_results (vhash : Nat)
  | text (s : String)
  | hashes (vhash_verify vhash : Nat)
  deriving DecidableEq, Repr

/-- The end of `run_simulation_v2` built with `VERIFICATION`: `device_vhash` is the value read
back into `*vhash`, and `cpu_vhash` is the value that `run_event_based_simulation` (not part of
the sources) leaves in `vhash_verify`. The result is the final `*vhash` and what is printed. -/
def run_simulation_v2_verify (device_vhash cpu_vhash : Nat) : Nat × List XSLine :=
  -- *vhash = *vhash % 1000000;
  let vhash := device_vhash % 1000000
  let out := [XSLine.print_results vhash, XSLine.text "\nVerifying\n"]
  -- vhash_verify = vhash_verify % 1000000;
  let vhash_verify := cpu_vhash % 1000000
  if vhash == vhash_verify then
    (vhash, out ++ [XSLine.text "Verification PASS.\n"])
  else
    (vhash, out ++ [XSLine.text "Verification FAIL.\n", XSLine.hashes vhash_verify vhash])

/-- The conversion of a `bool` to the `int` that `main` returns. -/
def boolToInt : Bool → Int
  | true => 1
  | false => 0

/-- What `init()` of XSBench and of mirror meets: the result of `setCwdToExeDir()`, whether
`findPlatform` finds a platform, and whether every `checkError` in `init()` passes. -/
structure InitEnv where
  setCwdToExeDir : Bool
  platformFound : Bool
  vendorOk : Bool
  deriving DecidableEq, Repr

/-- The function `init()` of XSBench and of mirror: `none` when a `checkError` stopped the
process, else the value returned. -/
def host_init (e : InitEnv) : Option Bool :=
  if !e.setCwdToExeDir then some false
  else if !e.platformFound then some false
  else if !e.vendorOk then none
  else some true

/-- The exit of `main` of XSBench: `if(!init()) return false; ... run_simulation_v2(...);`
`cleanup(); return 0;`. `runOk` says that no `checkError` of `run_simulation_v2` stopped the
process. -/
def xsbench_main (e : InitEnv) (runOk : Bool) : Exit :=
  match host_init e with
  | none => Exit.aborted
  | some false => Exit.returned (boolToInt false)
  | some true => if !runOk then Exit.aborted else Exit.returned 0

/-- The exit of `main` of mirror: `if (!init()) return false; ...`
`if (!(h_outData)) { printf("ERROR: Couldn't create host buffers\n"); return false; }`
`test(N, M); cleanup(); return 0;`. -/
def mirror_main (e : InitEnv) (h_outData_allocated runOk : Bool) : Exit :=
  match host_init e with
  | none => Exit.aborted
  | some false => Exit.returned (boolToInt false)
  | some true =>
    if !h_outData_allocated then Exit.returned (boolToInt false)
    else if !runOk then Exit.aborted
    else Exit.returned 0

/-- The exit of `main` of asian_option (built with `USE_SVM_API == 0`):
`if(!setCwdToExeDir()) return false; ... if(platform == NULL) return -1; ... return 0;`. -/
def asian_option_main (setCwdToExeDir platformFound vendorOk : Bool) : Exit :=
  if !setCwdToExeDir then Exit.returned (boolToInt false)
  else if !platformFound then Exit.returned (-1)
  else if !vendorOk then Exit.aborted
  else Exit.returned 0

/-! ## mirror/host/src/main.cpp -/

/-- The loop `for (int i; i < N; i++) if (out_copy[i] != h_outData[i]) { ...; break; }` of
`test`, started at `i` with `N - i` iterations left: `true` when it prints
"Verification Failed". -/
def mirror_scan (out_copy h_outData : Nat → Int) : Nat → Nat → Bool
  | 0, _ => false
  | left + 1, i =>
    if out_copy i != h_outData i then true
    else mirror_scan out_copy h_outData left (i + 1)

/-- The contents of `out_copy` when `test(N, M)` verifies: `out_copy[i] = (int)i` for `i < N`,
then `for (int i = 1; i < M; i++) out_copy[2*M - i] = out_copy[i];`. -/
def mirror_out_copy (N M : Nat) (out_copy0 : Nat → Int) : Nat → Int :=
  let out_copy := forLoop (fun i oc => Function.update oc i (toInt32 i)) N out_copy0
  forLoop (fun n oc => Function.update oc (2 * M - (n + 1)) (oc (n + 1))) (M - 1) out_copy

/-- What `test(N, M)` prints from "Verifying" on. `h_outData` is the buffer read back from the
device, `out_copy0` the memory behind `out_copy` before the call, and `i0` the indeterminate
value of the uninitialised `int i` of the verification loop. -/
def mirror_test (N M i0 : Nat) (h_outData out_copy0 : Nat → Int) : List String :=
  let failed := mirror_scan (mirror_out_copy N M out_copy0) h_outData (N - i0) i0
  ["\nVerifying\n"] ++ (if failed then ["Verification Failed\n"] else [])
    ++ ["Verification Succeeded\n"]

/-! ## libhook/hook.c -/

/-- The variables of the hook library and the library behind it: whether the static pointer
`aocl_mmd_open_real` has been set, the global `aclnalla_pcie0_handle`, what was printed, the device
names passed to the real `aocl_mmd_open` so far, and the state of the real library. -/
structure HookState (σ : Type) where
  resolved : Bool
  aclnalla_pcie0_handle : Int
  stdout : List String
  calls : List String
  world : σ

/-- The wrapper `aocl_mmd_open(name)` of `hook.c`; `real` is the `aocl_mmd_open` that
`dlsym(RTLD_NEXT, "aocl_mmd_open")` finds. -/
def aocl_mmd_open {σ : Type} (real : String → σ → Int × σ) (name : String) (s : HookState σ) :
    Int × HookState σ :=
  let s := if !s.resolved then { s with resolved := true } else s
  if "aclnalla_pcie0" == name then
    let r := real name s.world
    let s := { s with world := r.2, calls := s.calls ++ [name], aclnalla_pcie0_handle := r.1 }
    let s := { s with stdout := s.stdout ++
      ["kaicheng: aclnalla_pcie0_handle = " ++ toString s.aclnalla_pcie0_handle ++ ".\n"] }
    (s.aclnalla_pcie0_handle, s)
  else
    let r := real name s.world
    (r.1, { s with world := r.2, calls := s.calls ++ [name] })

/-- The array length `N` of `main` of mirror after the command line is read:
`long N = (1 << 28); //16M` and `if(options.has("n")) N = options.get<long>("n");`.
`n_option` is the value of the flag `-n` when it is given. -/
def mirror_array_length (n_option : Option Int) : Int :=
  match n_option with
  | some n => n
  | none => ((1 <<< 28 : Nat) : Int)

/-- The multiple of `2^e` nearest to `y`, the even multiple when `y` lies half-way between two:
IEEE 754 round-to-nearest-even at the granularity `2^e`. -/
def roundToEven (y e : Nat) : Nat :=
  let q := y / 2 ^ e
  let r := y % 2 ^ e
  if 2 * r < 2 ^ e then q * 2 ^ e
  else if 2 ^ e < 2 * r then (q + 1) * 2 ^ e
  else if q % 2 = 0 then q * 2 ^ e
  else (q + 1) * 2 ^ e

/-- The value of `(float)y` for an `unsigned int y`: a single-precision number has 24
significant bits, so a `y` with `2^(23+e) <= y < 2^(24+e)` is rounded to a multiple of `2^e`
(round-to-nearest-even, the default rounding mode) and a `y < 2^24` is kept. The value is a
natural number, at most `2^32`. -/
def float_of_uint32 (y : Nat) : Nat := roundToEven y (Nat.log2 y - 23)

/-- The constant `CLAMP_ZERO`, `0x1.0p-126f`. -/
def CLAMP_ZERO : ℚ := 1 / 2 ^ 126

/-- The constant `CLAMP_ONE`, `0x1.fffffep-1f`, that is `(2 - 2^-23) / 2`. -/
def CLAMP_ONE : ℚ := (2 - 1 / 2 ^ 23) / 2

/-- The value `U[i]` that `next()` computes from the tempered word `y[i]`:
`U[i] = (float)y[i] / 4294967296.0f; if (U[i] == 0.0f) U[i] = CLAMP_ZERO;`
`if (U[i] == 1.0f) U[i] = CLAMP_ONE;`. The division by `2^32` of a single-precision number of
this size is exact. -/
def uniform (y : Nat) : ℚ :=
  let U : ℚ := (float_of_uint32 y : ℚ) / 4294967296
  let U : ℚ := if U = 0 then CLAMP_ZERO else U
  if U = 1 then CLAMP_ONE else U

/-! ## asian_option/host/src/main.cpp -/

/-- The macro `N` of `main.cpp`, the number of time steps per simulation. -/
def N_TIME_STEPS : Nat := 256

/-- The macro `NUM_THREADS`. -/
def NUM_THREADS : Nat := 8192

/-- The numbers that one call `launch_asian_option_computation(i, nr_sims, N, ...)` of `main`
hands to the kernels: `total_rnds`, argument 0 of `mersenne_twister_generate`, and the `int`
parameters `m` and `n`, arguments 0 and 1 of `black_scholes`. -/
structure LaunchArgs where
  total_rnds : Nat
  m : Int
  n : Int
  deriving DecidableEq, Repr

/-- The arguments set by `launch_asian_option_computation` when `main` calls it with the global
`cl_ulong nr_sims`: the parameter `int m` receives `nr_sims` converted to `int`, `int n`
receives `N`, and
`const cl_ulong total_rnds = (nr_sims*(cl_ulong)N*(cl_ulong)NUM_THREADS);` is computed from the
global in 64-bit unsigned arithmetic. -/
def launch_asian_option_computation (nr_sims : Nat) : LaunchArgs :=
  let m : Int := toInt32 nr_sims
  let n : Int := (N_TIME_STEPS : Int)
  let total_rnds := ((nr_sims * N_TIME_STEPS) % 2 ^ 64 * NUM_THREADS) % 2 ^ 64
  { total_rnds := total_rnds, m := m, n := n }

/-! ## Floating-point code of asian_option -/

/-- The floating-point arithmetic of the platform. The embedding does not interpret it: `F`
stands for `float`, `D` for `double`, and every operation the code applies to them is a field.
In `kernel_cpu.cpp` the calls `sqrt`, `log`, `cos`, `sin` and `exp` are those of `<cmath>` on
`double`: a `float` argument is converted to `double`, and the result becomes a `float` again
where it is assigned to one. -/
structure FloatOps (F D : Type) where
  /-- the `float` nearest to a rational constant or to an exactly known value -/
  ofRat : ℚ → F
  /-- the conversion `(float) n` of an `int` -/
  ofInt : Int → F
  neg : F → F
  add : F → F → F
  sub : F → F → F
  mul : F → F → F
  div : F → F → F
  /-- the function `exp` on `float`, as `main.cpp` calls it -/
  exp : F → F
  /-- the comparison `a > b` -/
  gt : F → F → Bool
  /-- the conversion of a `float` to `double` -/
  toDouble : F → D
  /-- the conversion of a `double` to `float` -/
  toFloat : D → F
  /-- the conversion of an unsigned integer to `double` -/
  ofNatD : Nat → D
  zeroD : D
  addD : D → D → D
  mulD : D → D → D
  divD : D → D → D
  expD : D → D
  logD : D → D
  sqrtD : D → D
  cosD : D → D
  sinD : D → D

/-- Exact rational arithmetic in the place of `float` and `double`, with the library functions
replaced by the identity: it serves to run the control structure of the code on concrete
inputs, for properties that do not depend on the values of those functions. -/
def rationalOps : FloatOps ℚ ℚ where
  ofRat := fun q => q
  ofInt := fun n => (n : ℚ)
  neg := fun a => -a
  add := fun a b => a + b
  sub := fun a b => a - b
  mul := fun a b => a * b
  div := fun a b => a / b
  exp := fun a => a
  gt := fun a b => decide (b < a)
  toDouble := fun a => a
  toFloat := fun a => a
  ofNatD := fun n => (n : ℚ)
  zeroD := 0
  addD := fun a b => a + b
  mulD := fun a b => a * b
  divD := fun a b => a / b
  expD := fun a => a
  logD := fun a => a
  sqrtD := fun a => a
  cosD := fun a => a
  sinD := fun a => a

section Float

variable {F D : Type}

/-- The function `box_muller(a, b)`:
`float radius = sqrt(-2.0f * log(a)); float angle = 2.0f*b; angle *= pi;`
`result.x = radius*cos(angle); result.y = radius*sin(angle);` with
`static const float pi = 3.14159265;`. The library functions work on `double`, so
`-2.0f * log(a)` and `radius*cos(angle)` are `double` products. -/
def box_muller (ops : FloatOps F D) (a b : F) : F × F :=
  let radius := ops.toFloat
    (ops.sqrtD (ops.mulD (ops.toDouble (ops.ofRat (-2))) (ops.logD (ops.toDouble a))))
  let angle := ops.mul (ops.ofRat 2) b
  let angle := ops.mul angle (ops.ofRat 3.14159265)
  (ops.toFloat (ops.mulD (ops.toDouble radius) (ops.cosD (ops.toDouble angle))),
   ops.toFloat (ops.mulD (ops.toDouble radius) (ops.sinD (ops.toDouble angle))))

/-- The variables `S` and `arithmetic_average` of one path of `kernel_cpu`. -/
structure PathState (F : Type) where
  S : F
  arithmetic_average : F

/-- The array `Z` after the loop
`for (i < VECTOR_DIV2) { z = box_muller(U[2*i], U[2*i+1]); Z[2*i] = z.x; Z[2*i+1] = z.y; }`. -/
def path_gaussians (ops : FloatOps F D) (U : Nat → F) : Nat → F :=
  forLoop (fun i Z =>
      let z := box_muller ops (U (2 * i)) (U (2 * i + 1))
      Function.update (Function.update Z (2 * i) z.1) (2 * i + 1) z.2)
    32 (fun _ => ops.ofRat 0)

/-- The body `gauss_rnd = Z[i]; S *= drift * exp(vol * gauss_rnd); arithmetic_average += S;` of
the loop over the 64 time steps of a chunk. The product `vol * gauss_rnd` is a `float`
product, `exp` is the `double` function, and `S *= ...` multiplies in `double` and stores a
`float`. -/
def path_step (ops : FloatOps F D) (drift vol gauss_rnd : F) (st : PathState F) : PathState F :=
  let S := ops.toFloat (ops.mulD (ops.toDouble st.S)
    (ops.mulD (ops.toDouble drift) (ops.expD (ops.toDouble (ops.mul vol gauss_rnd)))))
  { S := S
    arithmetic_average := ops.add st.arithmetic_average S }

/-- The body of the loop `for (t_i = 0; t_i < n/VECTOR; t_i++)`: one call of `rng.next()`, the
32 calls of `box_muller`, and the 64 time steps. -/
def path_chunk (ops : FloatOps F D) (drift vol : F) (s : mersenne_twister × PathState F) :
    mersenne_twister × PathState F :=
  let r := next s.1
  let U : Nat → F := fun i => ops.ofRat (uniform (r.2 i))
  let Z := path_gaussians ops U
  (r.1, forLoop (fun i st => path_step ops drift vol (Z i) st) VECTOR s.2)

/-- One path of `kernel_cpu` up to the end of the loop over `t_i`: `S = S_0`,
`arithmetic_average = 0.0f`, then `n/VECTOR` chunks. -/
def simulate_path (ops : FloatOps F D) (n : Nat) (drift vol S_0 : F) (rng : mersenne_twister) :
    mersenne_twister × PathState F :=
  forLoop (fun _ s => path_chunk ops drift vol s) (n / VECTOR)
    (rng, { S := S_0, arithmetic_average := ops.ofRat 0 })

/-- The end of a path: `arithmetic_average /= (float) n; call_value = arithmetic_average - K;`. -/
def path_call_value (ops : FloatOps F D) (n : Nat) (K : F) (st : PathState F) : F :=
  ops.sub (ops.div st.arithmetic_average (ops.ofInt (n : Int))) K

/-- The function `kernel_cpu(nthreads, m, n, drift, vol, S_0, K)` run by a team of one OpenMP
thread (thread number 0, so one generator `rng(777 + 0)` serves every `tid`). `sum0` is the
indeterminate value of the uninitialised `double sum`; the clause `reduction(+:sum)` gives the
thread a private `sum` that starts at `0` and adds it to the original `sum` at the end of the
parallel region. `ival0` and `mt0` are the memory behind the generator. -/
def kernel_cpu (ops : FloatOps F D) (sum0 : D) (ival0 mt0 : Nat → Nat) (nthreads m n : Nat)
    (drift vol S_0 K : F) : D :=
  let rng := mersenne_twister_ctor (777 + 0) ival0 mt0
  let r := forLoop (fun _ s =>
      forLoop (fun _ (s : mersenne_twister × D) =>
          let p := simulate_path ops n drift vol S_0 s.1
          let call_value := path_call_value ops n K p.2
          (p.1, if ops.gt call_value (ops.ofRat 0)
                then ops.addD s.2 (ops.toDouble call_value) else s.2))
        m s)
    nthreads (rng, ops.zeroD)
  ops.addD sum0 r.2

/-- The function `get_result(device_id)` built with `USE_SVM_API == 0`. `X_before` is the value
of `X[device_id]` when the function is entered, `S` the sum that the read of
`kernel_result[device_id]` delivers, and `read_done_at_load` says whether the read, which is
enqueued with `CL_FALSE` (non-blocking), has already completed when the next statement
`double fpga_sum = X[device_id];` is executed; `monitor_and_finish` waits for it afterwards.
`status` is the status of `clEnqueueReadBuffer`. The result is the value returned and the final
`X[device_id]`, or `none` when `checkError` stops the process. -/
def get_result (ops : FloatOps F D) (nr_sims : Nat) (status : Int) (X_before S : D)
    (read_done_at_load : Bool) : Option (D × D) :=
  if !checkErrorPasses status then none else
  let fpga_sum := if read_done_at_load then S else X_before
  let X_after := S
  -- double num_sims = (double)nr_sims*(double)NUM_THREADS;
  let num_sims := ops.mulD (ops.ofNatD nr_sims) (ops.ofNatD NUM_THREADS)
  -- double avg_price = fpga_sum / num_sims;
  let avg_price := ops.divD fpga_sum num_sims
  -- return exp(-RISK_FREE_RATE*TIME_HORIZON)*avg_price;
  some (ops.mulD (ops.toDouble (ops.exp (ops.mul (ops.neg (ops.ofRat 0.08)) (ops.ofRat 1.0))))
      avg_price,
    X_after)

end Float

/-! # Properties

## Lemmas on loops -/

theorem forLoop_eq_foldl {σ : Type} (body : Nat → σ → σ) (n : Nat) (s : σ) :
    forLoop body n s = (List.range n).foldl (fun s k => body k s) s := by
  induction n with
  | zero => rfl
  | succ n ih => simp [forLoop, List.range_succ, List.foldl_append, ih]

/-- Two loop bodies that agree below `n` give the same loop. -/
theorem forLoop_congr {σ : Type} (f g : Nat → σ → σ) (n : Nat) (s : σ)
    (h : ∀ k, k < n → ∀ t, f k t = g k t) : forLoop f n s = forLoop g n s := by
  induction n with
  | zero => rfl
  | succ n ih =>
    simp only [forLoop]
    rw [ih (fun k hk => h k (Nat.lt_succ_of_lt hk)), h n (Nat.lt_succ_self n)]

theorem wrapInt32_eq (x : Int) (h0 : -2147483648 ≤ x) (h1 : x < 2147483648) :
    wrapInt32 x = x := by
  unfold wrapInt32
  omega

theorem wrapInt32_range (x : Int) : -2147483648 ≤ wrapInt32 x ∧ wrapInt32 x < 2147483648 := by
  unfold wrapInt32
  omega

section MatrixMulProofs

variable {α : Type} [Zero α] [Add α] [Mul α]

/-- While the indices fit in `int`, the inner loop over `k` is the exact sum. -/
theorem matrix_multiply_acc_eq (data_a data_b : Int → α) (col_a col_b : Int) (i j : Nat)
    (ha : ((i : Int) + 1) * col_a ≤ 2147483648) (hb : col_a * col_b ≤ 2147483648)
    (hj : (j : Int) < col_b) :
    matrix_multiply_acc data_a data_b col_a col_b i j
      = dotProduct data_a data_b col_a col_b i j := by
  unfold matrix_multiply_acc dotProduct
  rw [← forLoop_eq_foldl (fun (k : Nat) acc => acc + data_a ((i : Int) * col_a + (k : Int))
      * data_b ((k : Int) * col_b + (j : Int)))]
  apply forLoop_congr
  intro k hk t
  have hk' : (k : Int) < col_a := by omega
  have h1 : (i : Int) * col_a + k < 2147483648 := by nlinarith
  have hca : 0 ≤ col_a := by omega
  have h1' : 0 ≤ (i : Int) * col_a + k := by positivity
  have h2 : (k : Int) * col_b + j < 2147483648 := by nlinarith
  have h2' : 0 ≤ (k : Int) * col_b + j := by
    have : 0 ≤ col_b := by omega
    positivity
  rw [wrapInt32_eq _ (by omega) h1, wrapInt32_eq _ (by omega) h2]

/-- While the indices fit in `int`, the loop over `j` of row `i` writes the cells
`i*col_b + j`, `j < n`, and nothing else. -/
theorem matrix_multiply_row (data_a data_b c : Int → α) (col_a col_b : Int) (i n : Nat)
    (p : Int) (h0 : 0 ≤ col_b) (hn : (i : Int) * col_b + n ≤ 2147483648) :
    forLoop (fun j c =>
        Function.update c (wrapInt32 ((i : Int) * col_b + (j : Int)))
          (matrix_multiply_acc data_a data_b col_a col_b i j))
      n c p
    = if (i : Int) * col_b ≤ p ∧ p < (i : Int) * col_b + n then
        matrix_multiply_acc data_a data_b col_a col_b i (p - (i : Int) * col_b).toNat
      else c p := by
  have hi : 0 ≤ (i : Int) * col_b := by positivity
  induction n with
  | zero =>
    rw [if_neg (by omega)]
    rfl
  | succ n ih =>
    simp only [forLoop]
    rw [wrapInt32_eq _ (by omega) (by push_cast at hn; omega)]
    by_cases hp : p = (i : Int) * col_b + n
    · subst hp
      rw [Function.update_same, if_pos ⟨by omega, by push_cast; omega⟩]
      congr 1
      omega
    · rw [Function.update_noteq hp, ih (by push_cast at hn; omega)]
      by_cases h1 : (i : Int) * col_b ≤ p ∧ p < (i : Int) * col_b + n
      · rw [if_pos h1, if_pos ⟨h1.1, by push_cast; omega⟩]
      · rw [if_neg h1, if_neg (by push_cast; omega)]

/-- While the indices fit in `int`, after `m` rows the cells of the first `m` rows hold their
sums and every other cell is untouched. -/
theorem matrix_multiply_rows (data_a data_b c : Int → α) (col_a col_b : Int) (m i j : Nat)
    (hm : (m : Int) * col_b ≤ 2147483648) (hj : (j : Int) < col_b) :
    forLoop (fun i c =>
      forLoop (fun j c =>
        Function.update c (wrapInt32 ((i : Int) * col_b + (j : Int)))
          (matrix_multiply_acc data_a data_b col_a col_b i j))
        col_b.toNat c) m c ((i : Int) * col_b + j)
    = if i < m then matrix_multiply_acc data_a data_b col_a col_b i j
      else c ((i : Int) * col_b + j) := by
  have h0 : 0 ≤ col_b := by omega
  have hcb : ((col_b.toNat : Nat) : Int) = col_b := Int.toNat_of_nonneg h0
  induction m with
  | zero => simp [forLoop]
  | succ m ih =>
    simp only [forLoop]
    have hm' : ((m : Int) + 1) * col_b ≤ 2147483648 := by push_cast at hm; exact hm
    have hmm : (m : Int) * col_b ≤ 2147483648 := by nlinarith
    rw [matrix_multiply_row data_a data_b _ col_a col_b m col_b.toNat _ h0
      (by rw [hcb]; nlinarith)]
    rw [hcb]
    by_cases him : i = m
    · subst him
      rw [if_pos ⟨by omega, by omega⟩, if_pos (by omega)]
      congr 1
      omega
    · have h1 : ¬ ((m : Int) * col_b ≤ (i : Int) * col_b + j
          ∧ (i : Int) * col_b + j < (m : Int) * col_b + col_b) := by
        rintro ⟨ha, hb⟩
        rcases Nat.lt_or_gt_of_ne him with h | h
        · have h' : (i : Int) + 1 ≤ m := by exact_mod_cast h
          have : ((i : Int) + 1) * col_b ≤ (m : Int) * col_b :=
            mul_le_mul_of_nonneg_right h' h0
          nlinarith
        · have h' : (m : Int) + 1 ≤ i := by exact_mod_cast h
          have : ((m : Int) + 1) * col_b ≤ (i : Int) * col_b :=
            mul_le_mul_of_nonneg_right h' h0
          nlinarith
      rw [if_neg h1, ih hmm]
      by_cases h2 : i < m
      · rw [if_pos h2, if_pos (by omega)]
      · rw [if_neg h2, if_neg (by omega)]

/-- Whatever the sizes, `matrix_multiply` writes only at offsets that an `int` can hold. -/
theorem matrix_multiply_frame (data_a data_b data_c : Int → α) (row_a col_a col_b : Int)
    (p : Int) (hp : p < -2147483648 ∨ 2147483648 ≤ p) :
    matrix_multiply data_a data_b data_c row_a col_a col_b p = data_c p := by
  unfold matrix_multiply
  have inner : ∀ (i n : Nat) (c : Int → α),
      forLoop (fun j c =>
        Function.update c (wrapInt32 ((i : Int) * col_b + (j : Int)))
          (matrix_multiply_acc data_a data_b col_a col_b i j)) n c p = c p := by
    intro i n c
    induction n with
    | zero => rfl
    | succ n ih =>
      simp only [forLoop]
      have hr := wrapInt32_range ((i : Int) * col_b + (n : Int))
      rw [Function.update_noteq (by omega), ih]
  generalize row_a.toNat = m
  induction m with
  | zero => rfl
  | succ m ih =>
    simp only [forLoop]
    rw [inner, ih]

/-- The flag of `compare_result` is `true` exactly when no position below `size` differs. -/
theorem compare_result_flag {α : Type} [BEq α] (data_acc data_host : Int → α) (size : Nat) :
    (compare_result data_acc data_host size).1 = true
      ↔ ∀ i : Nat, i < size → (data_acc (i : Int) != data_host (i : Int)) = false := by
  unfold compare_result
  induction size with
  | zero => simp [forLoop]
  | succ n ih =>
    simp only [forLoop]
    by_cases hne : (data_acc (n : Int) != data_host (n : Int)) = true
    · rw [if_pos hne]
      constructor
      · intro h; cases h
      · intro h
        have := h n (Nat.lt_succ_self n)
        rw [hne] at this
        cases this
    · rw [if_neg hne, ih]
      constructor
      · intro h i hi
        rcases Nat.lt_succ_iff_lt_or_eq.mp hi with h1 | h1
        · exact h i h1
        · subst h1
          simpa using hne
      · intro h i hi
        exact h i (Nat.lt_succ_of_lt hi)

/-- The helper `write_device_buffer` prints nothing itself. -/
theorem write_device_buffer_no_print (create write : Int) (info msg : String) :
    Event.print msg ∉ (write_device_buffer create write info).1 := by
  unfold write_device_buffer
  split_ifs <;> simp

/-- The helper `create_or_read_device_buffer` prints nothing itself. -/
theorem create_or_read_device_buffer_no_print (status : Int) (info msg : String) (b : Bool) :
    Event.print msg ∉ (create_or_read_device_buffer status info b).1 := by
  unfold create_or_read_device_buffer
  split_ifs <;> simp

/-- When `main` of `matrix_mul` prints the success message or returns `0`, the comparison of the
accelerator buffer with the serial product succeeded. -/
theorem matrix_mul_main_success {α : Type} [NatCast α] [Zero α] [Add α] [Mul α] [BEq α]
    (env : MatMulEnv α)
    (h : (matrix_mul_main env).exit = Exit.returned 0
      ∨ Event.print "-INFO- : Result from Accelerator is correct" ∈ (matrix_mul_main env).trace) :
    (compare_result env.data_C
        (matrix_multiply (fill_buffer env.data_A0 (cl_uint_product env.row_a env.col_a))
          (fill_buffer env.data_B0 (cl_uint_product env.col_a env.col_b))
          env.data_D0 env.row_a env.col_a env.col_b)
        (cl_uint_product env.row_a env.col_b)).1 = true := by
  unfold matrix_mul_main at h
  by_contra hc
  simp only [Bool.not_eq_true] at hc
  simp only [hc] at h
  repeat' split at h
  all_goals
    simp_all [write_device_buffer_no_print, create_or_read_device_buffer_no_print]

end MatrixMulProofs

/-! ## Properties of `matrix_mul` -/

/-- C1, with the bound it needs: for `row_a`, `col_a`, `col_b >= 0` whose products
`row_a*col_a`, `col_a*col_b` and `row_a*col_b` fit in `int`, after `matrix_multiply` returns,
for every `i < row_a` and `j < col_b` the entry `data_c[i*col_b + j]` is the sum over `k` in
`[0, col_a)` of `data_a[i*col_a + k] * data_b[k*col_b + j]`, accumulated from `0` in the
arithmetic of `DATA_TYPE`, whatever `data_c` held before; with `col_a = 0` the entry is `0`. -/
theorem matrix_multiply_entry {α : Type} [Zero α] [Add α] [Mul α]
    (data_a data_b data_c : Int → α) (row_a col_a col_b : Int) (i j : Nat)
    (h0 : 0 ≤ col_a) (ha : row_a * col_a < 2147483648) (hb : col_a * col_b < 2147483648)
    (hc : row_a * col_b < 2147483648) (hi : (i : Int) < row_a) (hj : (j : Int) < col_b) :
    matrix_multiply data_a data_b data_c row_a col_a col_b ((i : Int) * col_b + (j : Int))
        = dotProduct data_a data_b col_a col_b i j
      ∧ (col_a = 0 →
          matrix_multiply data_a data_b data_c row_a col_a col_b ((i : Int) * col_b + (j : Int))
            = 0) := by
  have hra : ((row_a.toNat : Nat) : Int) = row_a := Int.toNat_of_nonneg (by omega)
  have key : matrix_multiply data_a data_b data_c row_a col_a col_b
      ((i : Int) * col_b + (j : Int)) = dotProduct data_a data_b col_a col_b i j := by
    unfold matrix_multiply
    rw [matrix_multiply_rows data_a data_b data_c col_a col_b row_a.toNat i j
      (by rw [hra]; omega) hj, if_pos (by omega)]
    apply matrix_multiply_acc_eq _ _ _ _ _ _ _ (by omega) hj
    have : ((i : Int) + 1) * col_a ≤ row_a * col_a :=
      mul_le_mul_of_nonneg_right (by omega) h0
    omega
  refine ⟨key, ?_⟩
  intro hz
  rw [key, hz]
  rfl

/-- A 2x3 by 3x2 product over the integers: entry `(1, 0)` is `4*7 + 5*9 + 6*11 = 139`. -/
theorem matrix_multiply_entry_witness :
    matrix_multiply (fun n => n + 1) (fun n => n + 7) (fun _ => (99 : Int)) 2 3 2
        ((1 : Nat) * 2 + (0 : Nat)) = 139 := by
  have h := (matrix_multiply_entry (fun n => n + 1) (fun n => n + 7) (fun _ => (99 : Int))
    2 3 2 1 0 (by decide) (by decide) (by decide) (by decide) (by decide) (by decide)).1
  rw [h]
  decide

/-- C1 fails as stated: with `row_a = 2`, `col_a = 0`, `col_b = 2^30 + 1` the index
`i*col_b + j` of the entry `i = 1`, `j = 2^30` is `2^31 + 1`, which no `int` holds; the code
writes at the wrapped offset, and `data_c[2^31 + 1]` keeps its old value `7` where the sum
is `0`. -/
theorem matrix_multiply_entry_counterexample :
    matrix_multiply (fun _ => (1 : Int)) (fun _ => 1) (fun _ => 7) 2 0 1073741825
        (((1 : Nat) : Int) * 1073741825 + ((1073741824 : Nat) : Int)) = 7
      ∧ dotProduct (fun _ => (1 : Int)) (fun _ => 1) 0 1073741825 1 1073741824 = 0
      ∧ ((1 : Nat) : Int) < 2 ∧ ((1073741824 : Nat) : Int) < 1073741825 := by
  refine ⟨?_, by decide, by decide, by decide⟩
  exact matrix_multiply_frame _ _ _ _ _ _ _ (Or.inr (by decide))

/-- C2, with the bound it needs: `compare_result(data_acc, data_host, size)` returns `true`
if and only if `data_acc[i] == data_host[i]` for every `i` in `[0, size)` (so `size = 0` gives
`true`); hence `main` of `matrix_mul` prints "Result from Accelerator is correct" and returns
`0` only when `data_C` equals the serial product `data_D` at every position below the value of
`row_a*col_b` that `main` passes as the `cl_uint` size; when the product `row_a*col_b` is not
negative and fits in `int`, that value is the product, and these are the `row_a*col_b`
positions. -/
theorem compare_result_exact {α : Type} [NatCast α] [Zero α] [Add α] [Mul α] [BEq α]
    (data_acc data_host : Int → α) (size : Nat) (env : MatMulEnv α) :
    ((compare_result data_acc data_host size).1 = true
        ↔ ∀ i : Nat, i < size → (data_acc (i : Int) == data_host (i : Int)) = true)
      ∧ (compare_result data_acc data_host 0).1 = true
      ∧ (((matrix_mul_main env).exit = Exit.returned 0
            ∨ Event.print "-INFO- : Result from Accelerator is correct"
                ∈ (matrix_mul_main env).trace) →
          ∀ p : Nat, p < cl_uint_product env.row_a env.col_b →
            (env.data_C (p : Int) ==
              matrix_multiply (fill_buffer env.data_A0 (cl_uint_product env.row_a env.col_a))
                (fill_buffer env.data_B0 (cl_uint_product env.col_a env.col_b))
                env.data_D0 env.row_a env.col_a env.col_b (p : Int)) = true)
      ∧ (0 ≤ env.row_a * env.col_b → env.row_a * env.col_b < 2147483648 →
          ((cl_uint_product env.row_a env.col_b : Nat) : Int) = env.row_a * env.col_b)
      ∧ (((matrix_mul_main env).exit = Exit.returned 0
            ∨ Event.print "-INFO- : Result from Accelerator is correct"
                ∈ (matrix_mul_main env).trace) →
          0 ≤ env.row_a * env.col_b → env.row_a * env.col_b < 2147483648 →
          ∀ p : Nat, (p : Int) < env.row_a * env.col_b →
            (env.data_C (p : Int) ==
              matrix_multiply (fill_buffer env.data_A0 (cl_uint_product env.row_a env.col_a))
                (fill_buffer env.data_B0 (cl_uint_product env.col_a env.col_b))
                env.data_D0 env.row_a env.col_a env.col_b (p : Int)) = true) := by
  have hbne : ∀ a b : α, (a != b) = false ↔ (a == b) = true := by
    intro a b
    unfold bne
    cases (a == b) <;> simp
  have hsize : 0 ≤ env.row_a * env.col_b → env.row_a * env.col_b < 2147483648 →
      ((cl_uint_product env.row_a env.col_b : Nat) : Int) = env.row_a * env.col_b := by
    intro h0 h1
    unfold cl_uint_product toUInt32
    rw [wrapInt32_eq _ (by omega) h1]
    omega
  have hmain : ((matrix_mul_main env).exit = Exit.returned 0
        ∨ Event.print "-INFO- : Result from Accelerator is correct"
            ∈ (matrix_mul_main env).trace) →
      ∀ p : Nat, p < cl_uint_product env.row_a env.col_b →
        (env.data_C (p : Int) ==
          matrix_multiply (fill_buffer env.data_A0 (cl_uint_product env.row_a env.col_a))
            (fill_buffer env.data_B0 (cl_uint_product env.col_a env.col_b))
            env.data_D0 env.row_a env.col_a env.col_b (p : Int)) = true := by
    intro h p hp
    exact (hbne _ _).mp ((compare_result_flag _ _ _).mp (matrix_mul_main_success env h) p hp)
  refine ⟨?_, ?_, hmain, hsize, ?_⟩
  · rw [compare_result_flag]
    exact forall_congr' (fun i => imp_congr_right (fun _ => hbne _ _))
  · exact (compare_result_flag data_acc data_host 0).mpr (fun i hi => absurd hi (Nat.not_lt_zero i))
  · intro h h0 h1 p hp
    apply hmain h p
    have := hsize h0 h1
    omega

/-- The run `goodMatMulEnv` returns `0`; there the product `row_a*col_b = 4` fits in `int`, and
`data_C` agrees with the serial product at the four positions. -/
theorem compare_result_exact_witness :
    (matrix_mul_main goodMatMulEnv).exit = Exit.returned 0
      ∧ goodMatMulEnv.row_a * goodMatMulEnv.col_b = 4
      ∧ ∀ p : Nat, (p : Int) < goodMatMulEnv.row_a * goodMatMulEnv.col_b →
          (goodMatMulEnv.data_C (p : Int) ==
            matrix_multiply
              (fill_buffer goodMatMulEnv.data_A0
                (cl_uint_product goodMatMulEnv.row_a goodMatMulEnv.col_a))
              (fill_buffer goodMatMulEnv.data_B0
                (cl_uint_product goodMatMulEnv.col_a goodMatMulEnv.col_b))
              goodMatMulEnv.data_D0 goodMatMulEnv.row_a goodMatMulEnv.col_a goodMatMulEnv.col_b
              (p : Int)) = true :=
  ⟨by decide, by decide,
   (compare_result_exact (fun _ => (0 : Int)) (fun _ => 0) 0 goodMatMulEnv).2.2.2.2
     (Or.inl (by decide)) (by decide) (by decide)⟩

/-- C2 fails as stated: in the run `wrapMatMulEnv` (`row_a = col_b = 65536`) the `int` product
`row_a*col_b` is `2^32`, which wraps to `0`, so `compare_result` compares nothing: `main` prints
"Result from Accelerator is correct" and returns `0` although `data_C` differs from the serial
product `data_D` at position `0`, one of the `row_a*col_b` positions. -/
theorem compare_result_exact_counterexample :
    (matrix_mul_main wrapMatMulEnv).exit = Exit.returned 0
      ∧ Event.print "-INFO- : Result from Accelerator is correct"
          ∈ (matrix_mul_main wrapMatMulEnv).trace
      ∧ wrapMatMulEnv.row_a * wrapMatMulEnv.col_b = 4294967296
      ∧ cl_uint_product wrapMatMulEnv.row_a wrapMatMulEnv.col_b = 0
      ∧ (wrapMatMulEnv.data_C 0 ==
          matrix_multiply
            (fill_buffer wrapMatMulEnv.data_A0
              (cl_uint_product wrapMatMulEnv.row_a wrapMatMulEnv.col_a))
            (fill_buffer wrapMatMulEnv.data_B0
              (cl_uint_product wrapMatMulEnv.col_a wrapMatMulEnv.col_b))
            wrapMatMulEnv.data_D0 wrapMatMulEnv.row_a wrapMatMulEnv.col_a wrapMatMulEnv.col_b
            0) = false := by
  refine ⟨by decide, by decide, by decide, by decide, ?_⟩
  have e : ∀ x : Int, (x + 1 == x) = false := by
    intro x
    simp
  exact e _

/-- C8 (the code does not do this): in the run `badArgMatMulEnv` the first `clSetKernelArg`
fails, `status` holds the failure afterwards, and yet no `checkError` sees a failing status, the
kernel is launched with `clEnqueueTask` and `main` returns `0`; in general the trace and the exit
of `main` do not depend on what `clSetKernelArg` returns. -/
theorem matrix_mul_main_setarg_unchecked :
    (matrix_mul_main badArgMatMulEnv).argStatus = 4294967248
      ∧ (matrix_mul_main badArgMatMulEnv).trace.all (fun e => !e.isFailedCheck) = true
      ∧ Event.api "clEnqueueTask" 0 ∈ (matrix_mul_main badArgMatMulEnv).trace
      ∧ (matrix_mul_main badArgMatMulEnv).exit = Exit.returned 0
      ∧ ∀ (env : MatMulEnv Int) (f : Nat → Int),
          (matrix_mul_main { env with setKernelArg := f }).trace = (matrix_mul_main env).trace
          ∧ (matrix_mul_main { env with setKernelArg := f }).exit = (matrix_mul_main env).exit := by
  refine ⟨by decide, by decide, by decide, by decide, ?_⟩
  intro env f
  rcases env with ⟨help, ra, ca, cb, io, ck, cA, wA, cB, wB, cC, sk, eT, rC, dA, dB, dD, dC⟩
  unfold matrix_mul_main MatMulEnv.row_a MatMulEnv.col_a MatMulEnv.col_b
  dsimp only
  generalize (compare_result dC _ _).1 = b2
  cases help <;> try exact ⟨rfl, rfl⟩
  rcases io with _ | _ | _ <;> try exact ⟨rfl, rfl⟩
  rcases ck with _ | _ | _ <;> try exact ⟨rfl, rfl⟩
  generalize write_device_buffer cA wA "Buffer A" = r1
  rcases r1 with ⟨t1, _ | _ | _⟩ <;> try exact ⟨rfl, rfl⟩
  generalize write_device_buffer cB wB "Buffer B" = r2
  rcases r2 with ⟨t2, _ | _ | _⟩ <;> try exact ⟨rfl, rfl⟩
  generalize create_or_read_device_buffer cC "Buffer C" true = r3
  rcases r3 with ⟨t3, _ | _ | _⟩ <;> try exact ⟨rfl, rfl⟩
  generalize checkErrorPasses (toInt32 (toUInt32 eT)) = b1
  cases b1 <;> try exact ⟨rfl, rfl⟩
  generalize create_or_read_device_buffer rC "Buffer C" false = r4
  rcases r4 with ⟨t4, _ | _ | _⟩ <;> cases b2 <;> exact ⟨rfl, rfl⟩


theorem sobel_luma_eq (pixel : Nat) :
    sobel_luma pixel
      = (66 * (pixel / 65536 % 256) + 129 * (pixel / 256 % 256) + 25 * (pixel % 256) + 128) / 256
          + 16 := by
  unfold sobel_luma
  have h255 : (0xff : Nat) = 2 ^ 8 - 1 := rfl
  simp only [h255, Nat.and_pow_two_sub_one_eq_mod, Nat.shiftRight_eq_div_pow]
  norm_num
  have hr : pixel / 65536 % 256 < 256 := Nat.mod_lt _ (by decide)
  have hg : pixel / 256 % 256 < 256 := Nat.mod_lt _ (by decide)
  have hb : pixel % 256 < 256 := Nat.mod_lt _ (by decide)
  generalize pixel / 65536 % 256 = r at hr ⊢
  generalize pixel / 256 % 256 = g at hg ⊢
  generalize pixel % 256 = b at hb ⊢
  have h1 : (r * 66 + g * 129 + b * 25 + 128) % 4294967296 = r * 66 + g * 129 + b * 25 + 128 :=
    Nat.mod_eq_of_lt (by omega)
  rw [h1]
  have h2 : (r * 66 + g * 129 + b * 25 + 128) / 256 ≤ 219 := by omega
  rw [Nat.mod_eq_of_lt (by omega)]
  omega

theorem sobel_luma_bounds (pixel : Nat) : 16 ≤ sobel_luma pixel ∧ sobel_luma pixel ≤ 235 := by
  rw [sobel_luma_eq]
  omega

theorem sobel_accumulate_eq (dir : Int) (luma : Nat) (g : Int)
    (hd : -10000 ≤ dir ∧ dir ≤ 10000) (hl : luma ≤ 255) (hg : -2 ≤ g ∧ g ≤ 2) :
    sobel_accumulate dir luma g = dir + g * luma := by
  unfold sobel_accumulate toInt32 toUInt32
  obtain ⟨hg1, hg2⟩ := hg
  have e1 : ((-2 : Int) % 2 ^ 32).toNat = 4294967294 := by decide
  have e2 : ((-1 : Int) % 2 ^ 32).toNat = 4294967295 := by decide
  have e3 : ((0 : Int) % 2 ^ 32).toNat = 0 := by decide
  have e4 : ((1 : Int) % 2 ^ 32).toNat = 1 := by decide
  have e5 : ((2 : Int) % 2 ^ 32).toNat = 2 := by decide
  interval_cases g <;> simp only [e1, e2, e3, e4, e5] <;> split_ifs <;> omega


theorem forLoop_three {σ : Type} (body : Nat → σ → σ) (s : σ) :
    forLoop body 3 s = body 2 (body 1 (body 0 s)) := rfl

theorem lumaAt_eq (frame_in : Int → Nat) (iterations : Int) (p : Nat) :
    lumaAt frame_in iterations p
      = if (p : Int) < iterations then (sobel_luma (frame_in (p : Int)) : Int) else 16 := by
  unfold lumaAt
  rw [sobel_luma_eq]

theorem lumaAt_bounds (frame_in : Int → Nat) (iterations : Int) (p : Nat) :
    16 ≤ lumaAt frame_in iterations p ∧ lumaAt frame_in iterations p ≤ 235 := by
  rw [lumaAt_eq]
  have h := sobel_luma_bounds (frame_in (p : Int))
  split_ifs <;> omega

theorem sobel_tap_luma_bounds (COLS : Nat) (frame_in : Int → Nat) (iterations : Int)
    (count k i j : Nat) :
    16 ≤ sobel_tap_luma COLS frame_in iterations count k i j
      ∧ sobel_tap_luma COLS frame_in iterations count k i j ≤ 235 := by
  unfold sobel_tap_luma
  have h := sobel_luma_bounds (frame_in (sobel_index COLS count k i j))
  split_ifs <;> omega

theorem Gx_bounds (i j : Nat) : -2 ≤ Gx i j ∧ Gx i j ≤ 2 := by
  unfold Gx
  split <;> omega

theorem Gy_bounds (i j : Nat) : -2 ≤ Gy i j ∧ Gy i j ≤ 2 := by
  unfold Gy
  split <;> omega

/-- One tap of the window adds `G[i][j]` times the luma it uses, exactly, and the sums stay
small. -/
theorem sobel_tap_spec (COLS : Nat) (frame_in : Int → Nat) (iterations : Int)
    (count k i j : Nat) (st : Int × Int) (B : Int) (hB : 0 ≤ B ∧ B ≤ 9000)
    (h1 : -B ≤ st.1 ∧ st.1 ≤ B) (h2 : -B ≤ st.2 ∧ st.2 ≤ B) :
    sobel_tap COLS frame_in iterations count k i j st
        = (st.1 + Gx i j * sobel_tap_luma COLS frame_in iterations count k i j,
           st.2 + Gy i j * sobel_tap_luma COLS frame_in iterations count k i j)
      ∧ (-(B + 470) ≤ (sobel_tap COLS frame_in iterations count k i j st).1
          ∧ (sobel_tap COLS frame_in iterations count k i j st).1 ≤ B + 470)
      ∧ (-(B + 470) ≤ (sobel_tap COLS frame_in iterations count k i j st).2
          ∧ (sobel_tap COLS frame_in iterations count k i j st).2 ≤ B + 470) := by
  have hL := sobel_tap_luma_bounds COLS frame_in iterations count k i j
  have hx := Gx_bounds i j
  have hy := Gy_bounds i j
  have key : sobel_tap COLS frame_in iterations count k i j st
        = (st.1 + Gx i j * sobel_tap_luma COLS frame_in iterations count k i j,
           st.2 + Gy i j * sobel_tap_luma COLS frame_in iterations count k i j) := by
    unfold sobel_tap sobel_tap_luma
    have hl := sobel_luma_bounds (frame_in (sobel_index COLS count k i j))
    by_cases hc : sobel_index COLS count k i j < iterations
    · rw [if_pos hc, if_pos hc]
      show (sobel_accumulate st.1 (sobel_luma (frame_in (sobel_index COLS count k i j))) (Gx i j),
          sobel_accumulate st.2 (sobel_luma (frame_in (sobel_index COLS count k i j))) (Gy i j))
        = _
      rw [sobel_accumulate_eq st.1 _ (Gx i j) (by omega) (by omega) hx,
        sobel_accumulate_eq st.2 _ (Gy i j) (by omega) (by omega) hy]
    · rw [if_neg hc, if_neg hc]
      simp only [mul_comm]
  rw [key]
  refine ⟨rfl, ?_, ?_⟩
  · generalize sobel_tap_luma COLS frame_in iterations count k i j = L at hL
    obtain ⟨hx1, hx2⟩ := hx
    generalize Gx i j = g at hx1 hx2
    interval_cases g <;> simp only [] <;> omega
  · generalize sobel_tap_luma COLS frame_in iterations count k i j = L at hL
    obtain ⟨hy1, hy2⟩ := hy
    generalize Gy i j = g at hy1 hy2
    interval_cases g <;> simp only [] <;> omega

/-- The window sums are the exact signed sums of the lumas the taps use, and they are small. -/
theorem sobel_window_sums (COLS : Nat) (frame_in : Int → Nat) (iterations : Int)
    (count k : Nat) :
    sobel_window COLS frame_in iterations count k
        = (∑ i in Finset.range 3, ∑ j in Finset.range 3,
              Gx i j * sobel_tap_luma COLS frame_in iterations count k i j,
           ∑ i in Finset.range 3, ∑ j in Finset.range 3,
              Gy i j * sobel_tap_luma COLS frame_in iterations count k i j)
      ∧ (-4230 ≤ (sobel_window COLS frame_in iterations count k).1
          ∧ (sobel_window COLS frame_in iterations count k).1 ≤ 4230)
      ∧ (-4230 ≤ (sobel_window COLS frame_in iterations count k).2
          ∧ (sobel_window COLS frame_in iterations count k).2 ≤ 4230) := by
  unfold sobel_window
  simp only [forLoop_three]
  have t0 := sobel_tap_spec COLS frame_in iterations count k 0 0 (0, 0) 0 (by omega)
    (by simp) (by simp)
  have t1 := sobel_tap_spec COLS frame_in iterations count k 0 1 _ _ (by omega) t0.2.1 t0.2.2
  have t2 := sobel_tap_spec COLS frame_in iterations count k 0 2 _ _ (by omega) t1.2.1 t1.2.2
  have t3 := sobel_tap_spec COLS frame_in iterations count k 1 0 _ _ (by omega) t2.2.1 t2.2.2
  have t4 := sobel_tap_spec COLS frame_in iterations count k 1 1 _ _ (by omega) t3.2.1 t3.2.2
  have t5 := sobel_tap_spec COLS frame_in iterations count k 1 2 _ _ (by omega) t4.2.1 t4.2.2
  have t6 := sobel_tap_spec COLS frame_in iterations count k 2 0 _ _ (by omega) t5.2.1 t5.2.2
  have t7 := sobel_tap_spec COLS frame_in iterations count k 2 1 _ _ (by omega) t6.2.1 t6.2.2
  have t8 := sobel_tap_spec COLS frame_in iterations count k 2 2 _ _ (by omega) t7.2.1 t7.2.2
  refine ⟨?_, ?_, ?_⟩
  · rw [t8.1, t7.1, t6.1, t5.1, t4.1, t3.1, t2.1, t1.1, t0.1]
    simp only [Finset.sum_range_succ, Finset.sum_range_zero]
    ext <;> simp <;> ring
  · have := t8.2.1
    constructor <;> omega
  · have := t8.2.2
    constructor <;> omega

/-- The two window sums written out over the nine lumas the taps use. -/
theorem sobel_window_expand (COLS : Nat) (frame_in : Int → Nat) (iterations : Int)
    (count k : Nat) :
    (sobel_window COLS frame_in iterations count k).1
        = -sobel_tap_luma COLS frame_in iterations count k 0 0
          - 2 * sobel_tap_luma COLS frame_in iterations count k 0 1
          - sobel_tap_luma COLS frame_in iterations count k 0 2
          + sobel_tap_luma COLS frame_in iterations count k 2 0
          + 2 * sobel_tap_luma COLS frame_in iterations count k 2 1
          + sobel_tap_luma COLS frame_in iterations count k 2 2
      ∧ (sobel_window COLS frame_in iterations count k).2
        = -sobel_tap_luma COLS frame_in iterations count k 0 0
          + sobel_tap_luma COLS frame_in iterations count k 0 2
          - 2 * sobel_tap_luma COLS frame_in iterations count k 1 0
          + 2 * sobel_tap_luma COLS frame_in iterations count k 1 2
          - sobel_tap_luma COLS frame_in iterations count k 2 0
          + sobel_tap_luma COLS frame_in iterations count k 2 2 := by
  rw [(sobel_window_sums COLS frame_in iterations count k).1]
  simp only [Finset.sum_range_succ, Finset.sum_range_zero, Gx, Gy]
  constructor <;> ring

/-- The edge magnitude of every window is at most `1314 = 6 * 219`. -/
theorem sobel_window_abs_le (COLS : Nat) (frame_in : Int → Nat) (iterations : Int)
    (count k : Nat) :
    |(sobel_window COLS frame_in iterations count k).1|
        + |(sobel_window COLS frame_in iterations count k).2| ≤ 1314 := by
  obtain ⟨ex, ey⟩ := sobel_window_expand COLS frame_in iterations count k
  rw [ex, ey]
  have h00 := sobel_tap_luma_bounds COLS frame_in iterations count k 0 0
  have h01 := sobel_tap_luma_bounds COLS frame_in iterations count k 0 1
  have h02 := sobel_tap_luma_bounds COLS frame_in iterations count k 0 2
  have h10 := sobel_tap_luma_bounds COLS frame_in iterations count k 1 0
  have h12 := sobel_tap_luma_bounds COLS frame_in iterations count k 1 2
  have h20 := sobel_tap_luma_bounds COLS frame_in iterations count k 2 0
  have h21 := sobel_tap_luma_bounds COLS frame_in iterations count k 2 1
  have h22 := sobel_tap_luma_bounds COLS frame_in iterations count k 2 2
  clear ex ey
  generalize sobel_tap_luma COLS frame_in iterations count k 0 0 = a00 at *
  generalize sobel_tap_luma COLS frame_in iterations count k 0 1 = a01 at *
  generalize sobel_tap_luma COLS frame_in iterations count k 0 2 = a02 at *
  generalize sobel_tap_luma COLS frame_in iterations count k 1 0 = a10 at *
  generalize sobel_tap_luma COLS frame_in iterations count k 1 2 = a12 at *
  generalize sobel_tap_luma COLS frame_in iterations count k 2 0 = a20 at *
  generalize sobel_tap_luma COLS frame_in iterations count k 2 1 = a21 at *
  generalize sobel_tap_luma COLS frame_in iterations count k 2 2 = a22 at *
  rcases abs_cases (-a00 - 2 * a01 - a02 + a20 + 2 * a21 + a22) with ⟨e1, -⟩ | ⟨e1, -⟩ <;>
    rcases abs_cases (-a00 + a02 - 2 * a10 + 2 * a12 - a20 + a22) with ⟨e2, -⟩ | ⟨e2, -⟩ <;>
    rw [e1, e2] <;> omega

theorem toUInt32_of_small (n : Nat) (h : n < 2 ^ 32) : toUInt32 (n : Int) = n := by
  unfold toUInt32
  omega

/-- The value `sobel_cpu` stores for a window, in terms of the window sums. -/
theorem sobel_pixel_eq_window (COLS : Nat) (frame_in : Int → Nat) (iterations : Int)
    (threshold count k : Nat) :
    sobel_pixel COLS frame_in iterations threshold count k
      = if (threshold : Int) < |(sobel_window COLS frame_in iterations count k).1|
            + |(sobel_window COLS frame_in iterations count k).2| then 0xffffff else 0 := by
  unfold sobel_pixel
  obtain ⟨-, hb1, hb2⟩ := sobel_window_sums COLS frame_in iterations count k
  simp only []
  rw [toUInt32_of_small _ (by omega)]
  generalize sobel_window COLS frame_in iterations count k = w at hb1 hb2 ⊢
  have e : (threshold : Int) < |w.1| + |w.2| ↔ w.1.natAbs + w.2.natAbs > threshold := by
    rw [← Int.natCast_natAbs, ← Int.natCast_natAbs]
    omega
  simp only [e]

/-- While the sum stays in the range of `int`, the index of a tap is the exact sum. -/
theorem sobel_index_eq (COLS count k i j : Nat) (hi : i < 3) (hj : j < 3)
    (h : (count : Int) + k + 2 * COLS + 2 < 2147483648) :
    sobel_index COLS count k i j = ((count + k + i * COLS + j : Nat) : Int) := by
  unfold sobel_index
  have hc : (i : Int) * COLS ≤ 2 * COLS := by
    have : (i : Int) ≤ 2 := by omega
    exact mul_le_mul_of_nonneg_right this (by positivity)
  have h0 : (0 : Int) ≤ (i : Int) * COLS := by positivity
  rw [wrapInt32_eq _ (by omega) (by omega)]
  push_cast
  ring

/-- While the sums stay in the range of `int`, the luma a tap uses is the luma `L` of the
claim. -/
theorem sobel_tap_luma_eq (COLS : Nat) (frame_in : Int → Nat) (iterations : Int)
    (count k i j : Nat) (hi : i < 3) (hj : j < 3)
    (h : (count : Int) + k + 2 * COLS + 2 < 2147483648) :
    sobel_tap_luma COLS frame_in iterations count k i j
      = lumaAt frame_in iterations (count + k + i * COLS + j) := by
  unfold sobel_tap_luma
  rw [sobel_index_eq COLS count k i j hi hj h, lumaAt_eq]

/-- While the sums stay in the range of `int`, the window sums are the exact signed gradients. -/
theorem sobel_window_eq (COLS : Nat) (frame_in : Int → Nat) (iterations : Int) (count k : Nat)
    (h : (count : Int) + k + 2 * COLS + 2 < 2147483648) :
    sobel_window COLS frame_in iterations count k
        = (gradient Gx COLS frame_in iterations (count + k),
           gradient Gy COLS frame_in iterations (count + k)) := by
  rw [(sobel_window_sums COLS frame_in iterations count k).1]
  unfold gradient
  simp only [Finset.sum_range_succ, Finset.sum_range_zero]
  rw [sobel_tap_luma_eq COLS frame_in iterations count k 0 0 (by omega) (by omega) h,
    sobel_tap_luma_eq COLS frame_in iterations count k 0 1 (by omega) (by omega) h,
    sobel_tap_luma_eq COLS frame_in iterations count k 0 2 (by omega) (by omega) h,
    sobel_tap_luma_eq COLS frame_in iterations count k 1 0 (by omega) (by omega) h,
    sobel_tap_luma_eq COLS frame_in iterations count k 1 1 (by omega) (by omega) h,
    sobel_tap_luma_eq COLS frame_in iterations count k 1 2 (by omega) (by omega) h,
    sobel_tap_luma_eq COLS frame_in iterations count k 2 0 (by omega) (by omega) h,
    sobel_tap_luma_eq COLS frame_in iterations count k 2 1 (by omega) (by omega) h,
    sobel_tap_luma_eq COLS frame_in iterations count k 2 2 (by omega) (by omega) h]

/-- While the sums stay in the range of `int`, the value `sobel_cpu` stores for a window, in
terms of the exact gradients. -/
theorem sobel_pixel_eq (COLS : Nat) (frame_in : Int → Nat) (iterations : Int)
    (threshold count k : Nat) (h : (count : Int) + k + 2 * COLS + 2 < 2147483648) :
    sobel_pixel COLS frame_in iterations threshold count k
      = if (threshold : Int) < |gradient Gx COLS frame_in iterations (count + k)|
            + |gradient Gy COLS frame_in iterations (count + k)| then 0xffffff else 0 := by
  rw [sobel_pixel_eq_window, sobel_window_eq COLS frame_in iterations count k h]

/-- The block starting at `count` stores the pixels `count + k`, `k < n`, that lie below
`iterations`, and nothing else. -/
theorem sobel_block_apply (COLS : Nat) (frame_in : Int → Nat) (iterations : Int)
    (threshold count : Nat) (out : Nat → Nat) (n p : Nat) :
    forLoop (fun k out =>
        if ((count + k : Nat) : Int) < iterations then
          Function.update out (count + k)
            (sobel_pixel COLS frame_in iterations threshold count k)
        else out) n out p
      = if count ≤ p ∧ p < count + n ∧ (p : Int) < iterations then
          sobel_pixel COLS frame_in iterations threshold count (p - count)
        else out p := by
  induction n with
  | zero =>
    rw [if_neg (by omega)]
    rfl
  | succ n ih =>
    simp only [forLoop]
    by_cases hc : ((count + n : Nat) : Int) < iterations
    · rw [if_pos hc]
      by_cases hp : p = count + n
      · subst hp
        rw [Function.update_same, if_pos ⟨by omega, by omega, hc⟩]
        congr 1
        omega
      · rw [Function.update_noteq hp, ih]
        by_cases h1 : count ≤ p ∧ p < count + n ∧ (p : Int) < iterations
        · rw [if_pos h1, if_pos ⟨h1.1, by omega, h1.2.2⟩]
        · rw [if_neg h1, if_neg (by omega)]
    · rw [if_neg hc, ih]
      by_cases h1 : count ≤ p ∧ p < count + n ∧ (p : Int) < iterations
      · rw [if_pos h1, if_pos ⟨h1.1, by omega, h1.2.2⟩]
      · rw [if_neg h1, if_neg (by omega)]

/-- After `m` blocks, the pixels below `16 * m` and below `iterations` are stored, and nothing
else has changed. -/
theorem sobel_blocks_apply (COLS : Nat) (frame_in : Int → Nat) (iterations : Int)
    (threshold : Nat) (out : Nat → Nat) (m p : Nat) :
    forLoop (fun c out => sobel_block COLS frame_in iterations threshold (16 * c) out) m out p
      = if p < 16 * m ∧ (p : Int) < iterations then
          sobel_pixel COLS frame_in iterations threshold (16 * (p / 16)) (p % 16)
        else out p := by
  induction m with
  | zero =>
    rw [if_neg (by omega)]
    rfl
  | succ m ih =>
    simp only [forLoop]
    rw [show sobel_block COLS frame_in iterations threshold (16 * m)
          (forLoop (fun c out => sobel_block COLS frame_in iterations threshold (16 * c) out)
            m out) p
        = _ from sobel_block_apply COLS frame_in iterations threshold (16 * m) _ 16 p, ih]
    by_cases h1 : 16 * m ≤ p ∧ p < 16 * m + 16 ∧ (p : Int) < iterations
    · rw [if_pos h1, if_pos ⟨by omega, h1.2.2⟩]
      have e1 : 16 * (p / 16) = 16 * m := by omega
      have e2 : p % 16 = p - 16 * m := by omega
      rw [e1, e2]
    · rw [if_neg h1]
      by_cases h2 : p < 16 * m ∧ (p : Int) < iterations
      · rw [if_pos h2, if_pos ⟨by omega, h2.2⟩]
      · rw [if_neg h2, if_neg (by omega)]

/-- C3, with the bound it needs: for every `iterations` with
`iterations + 2*COLS + 16 <= INT_MAX`, so that no index sum of the call leaves the range of
`int`, and for every `idx` in `[0, iterations)`, `sobel_cpu` sets `frame_out[idx]` to `0xffffff`
if `|X| + |Y| > threshold` and to `0` otherwise, where `X` and `Y` are the exact signed sums of
`Gx[i][j] * L(idx + i*COLS + j)` and `Gy[i][j] * L(idx + i*COLS + j)` over the 3x3 window and
`L` is the luma of the pixel, or `16` at and beyond `iterations`. -/
theorem sobel_cpu_pixel (COLS : Nat) (frame_in : Int → Nat) (frame_out : Nat → Nat)
    (iterations : Int) (threshold idx : Nat)
    (hb : iterations + 2 * (COLS : Int) + 16 < 2147483648) (hidx : (idx : Int) < iterations) :
    sobel_cpu COLS frame_in frame_out iterations threshold idx
      = if (threshold : Int) < |gradient Gx COLS frame_in iterations idx|
            + |gradient Gy COLS frame_in iterations idx| then 0xffffff else 0 := by
  unfold sobel_cpu
  have e : 16 * (idx / 16) + idx % 16 = idx := by omega
  rw [sobel_blocks_apply, if_pos ⟨by omega, hidx⟩,
    sobel_pixel_eq _ _ _ _ _ _ (by omega), e]

/-- On `stepFrame` (24 pixels, `COLS = 4`) the window of pixel 1 straddles the edge: `X = 0`,
`Y = 876`, so it is marked for the threshold 100. -/
theorem sobel_cpu_pixel_witness :
    sobel_cpu 4 stepFrame (fun _ => 7) 24 100 1 = 0xffffff := by
  rw [sobel_cpu_pixel 4 stepFrame (fun _ => 7) 24 100 1 (by decide) (by decide)]
  decide

/-- C3 fails as stated: with `COLS = 8` and `iterations = 2^31 - 16` the window of the last
pixel `idx = 2^31 - 17` has the taps `(2, 1)` and `(2, 2)` at the index sums `2^31` and
`2^31 + 1`, which wrap to `-2^31` and `-2^31 + 1`, pass the guard and read the words before the
frame. With a black frame and white words before it the code stores `0xffffff` for the
threshold 100, where `X = Y = 0` and the claim has `0`. -/
theorem sobel_cpu_pixel_counterexample :
    sobel_index 8 2147483616 15 2 1 = -2147483648
      ∧ sobel_cpu 8 outsideWhite (fun _ => 7) 2147483632 100 2147483631 = 0xffffff
      ∧ gradient Gx 8 outsideWhite 2147483632 2147483631 = 0
      ∧ gradient Gy 8 outsideWhite 2147483632 2147483631 = 0
      ∧ ((2147483631 : Nat) : Int) < 2147483632 := by
  refine ⟨by decide, ?_, by decide, by decide, by decide⟩
  unfold sobel_cpu
  rw [sobel_blocks_apply, if_pos ⟨by decide, by decide⟩]
  have e1 : 16 * (2147483631 / 16) = 2147483616 := by norm_num
  have e2 : 2147483631 % 16 = 15 := by norm_num
  rw [e1, e2]
  decide

/-! ## The constructor of `mersenne_twister` -/

theorem seed_sequence_lt (seed : Nat) (h : seed < 2 ^ 32) (n : Nat) :
    seed_sequence seed n < 2 ^ 32 := by
  cases n with
  | zero => exact h
  | succ n => exact Nat.mod_lt _ (by decide)

theorem seed_step_eq (state n : Nat) :
    seed_step state n = (1812433253 * (state ^^^ (state >>> 30)) + n) % 2 ^ 32 := by
  unfold seed_step
  have h : (0xffffffff : Nat) = 2 ^ 32 - 1 := rfl
  rw [h, Nat.and_pow_two_sub_one_eq_mod, Nat.mod_mod, Nat.mod_add_mod]

/-- What the write-back loop leaves in `mt`. -/
theorem seed_writeback_loop (mt_base : Int) (ival mt : Nat → Nat) (ival_base n p : Nat) :
    forLoop (fun i mt =>
        if mt_base + (i : Int) ≥ 0 then
          Function.update mt (mt_base + (i : Int)).toNat
            (ival (((ival_base + i) % 2 ^ 32) % VECTOR))
        else mt) n mt p
      = if mt_base ≤ (p : Int) ∧ (p : Int) < mt_base + n then
          ival (((ival_base + ((p : Int) - mt_base).toNat) % 2 ^ 32) % VECTOR)
        else mt p := by
  induction n with
  | zero =>
    rw [if_neg (by omega)]
    rfl
  | succ n ih =>
    simp only [forLoop]
    by_cases hc : mt_base + (n : Int) ≥ 0
    · rw [if_pos hc]
      by_cases hp : p = (mt_base + (n : Int)).toNat
      · rw [hp, Function.update_same, if_pos (by omega)]
        congr 3
        omega
      · rw [Function.update_noteq hp, ih]
        by_cases h1 : mt_base ≤ (p : Int) ∧ (p : Int) < mt_base + n
        · rw [if_pos h1, if_pos (by omega)]
        · rw [if_neg h1, if_neg (by omega)]
    · rw [if_neg hc, ih]
      by_cases h1 : mt_base ≤ (p : Int) ∧ (p : Int) < mt_base + n
      · rw [if_pos h1, if_pos (by omega)]
      · rw [if_neg h1, if_neg (by omega)]

theorem seed_body_inv (seed n : Nat) (s : SeedLoop) (hn : n < 624) (h : SeedInv seed n s) :
    SeedInv seed (n + 1) (seed_body n s) := by
  obtain ⟨h1, h2, h3, h4⟩ := h
  have hival : ∀ m, m < n + 1 → n + 1 ≤ m + 64 →
      Function.update s.ival (s.ival_base % VECTOR) s.state (m % 64)
        = seed_sequence seed m := by
    intro m hm1 hm2
    rw [h2, h1]
    by_cases hmn : m = n
    · subst hmn
      exact Function.update_same _ _ _
    · rw [Function.update_noteq (by unfold VECTOR; omega)]
      exact h3 m (by omega) (by omega)
  have hbase : (s.ival_base + 1) % 2 ^ 32 = n + 1 := by
    rw [h2]; exact Nat.mod_eq_of_lt (by omega)
  have hstate : seed_step s.state n = seed_sequence seed (n + 1) := by
    rw [seed_step_eq, h1]; rfl
  unfold seed_body
  by_cases h47 : n % VECTOR = 47
  · simp only [if_pos h47]
    refine ⟨hstate, hbase, hival, ?_⟩
    intro i hi
    unfold seed_writeback
    simp only []
    rw [seed_writeback_loop]
    unfold VECTOR MT_N at *
    split_ifs with hr
    · rw [hbase]
      have e : (n + 1 + ((i : Int) - (((n / 64 * 64 : Nat) : Int)
          - (((624 / 64 + 1) * 64 : Nat) - ((624 : Nat) : Int)))).toNat) % 2 ^ 32 % 64
            = i % 64 := by
        omega
      rw [e]
      exact hival i (by omega) (by omega)
    · exact h4 i (by omega)
  · simp only [if_neg h47]
    refine ⟨hstate, hbase, hival, ?_⟩
    intro i hi
    unfold VECTOR at h47
    exact h4 i (by omega)

theorem seed_loop_inv (seed : Nat) (s0 : SeedLoop) (h0 : SeedInv seed 0 s0) (n : Nat)
    (hn : n ≤ 624) : SeedInv seed n (forLoop seed_body n s0) := by
  induction n with
  | zero => exact h0
  | succ n ih => exact seed_body_inv seed n _ (by omega) (ih (by omega))

/-- The constructor fills `mt[0..623]` with the sequence it iterates, whatever the memory held
before, and sets `mt_base_` to `0`. -/
theorem mersenne_twister_ctor_mt (seed : Nat) (ival0 mt0 : Nat → Nat) (i : Nat) (hi : i < 624) :
    (mersenne_twister_ctor seed ival0 mt0).mt i = seed_sequence seed i
      ∧ (mersenne_twister_ctor seed ival0 mt0).mt_base_ = 0 := by
  unfold mersenne_twister_ctor
  refine ⟨?_, rfl⟩
  have h := seed_loop_inv seed
    { ival := forLoop (fun i iv => Function.update iv i seed) VECTOR ival0, ival_base := 0,
      state := seed, mt := mt0 }
    ⟨rfl, rfl, fun m hm => absurd hm (Nat.not_lt_zero m), fun i hi => by omega⟩ 624 (le_refl _)
  exact h.2.2.2 i (by omega)

/-! ## The textbook sequence -/

theorem shiftRight_le_self (x n : Nat) : x >>> n ≤ x := by
  rw [Nat.shiftRight_eq_div_pow]
  exact Nat.div_le_self _ _

theorem mt19937_table_succ (x : Nat → Nat) (n : Nat) :
    mt19937_table x (n + 1)
      = Function.update (mt19937_table x n) (n + 624)
          (mt19937_table x n (n + 397)
            ^^^ (((mt19937_table x n n &&& 0x80000000)
                  ||| (mt19937_table x n (n + 1) &&& 0x7fffffff)) >>> 1)
            ^^^ (if ((mt19937_table x n n &&& 0x80000000)
                  ||| (mt19937_table x n (n + 1) &&& 0x7fffffff)) % 2 = 1
                then 0x9908b0df else 0)) := rfl

theorem mt19937_table_stable (x : Nat → Nat) (j n : Nat) (h : j + 1 - 624 ≤ n) :
    mt19937_table x n j = mt19937 x j := by
  induction n with
  | zero =>
    unfold mt19937
    have : j + 1 - 624 = 0 := by omega
    rw [this]
  | succ n ih =>
    by_cases hj : j + 1 - 624 = n + 1
    · unfold mt19937
      rw [hj]
    · have h' : j + 1 - 624 ≤ n := by omega
      rw [← ih h', mt19937_table_succ, Function.update_noteq (by omega)]

theorem mt19937_init (x : Nat → Nat) (j : Nat) (h : j < 624) : mt19937 x j = x j := by
  unfold mt19937
  have : j + 1 - 624 = 0 := by omega
  rw [this]
  rfl

theorem mt19937_rec (x : Nat → Nat) (j : Nat) :
    mt19937 x (j + 624)
      = mt19937 x (j + 397)
          ^^^ (((mt19937 x j &&& 0x80000000) ||| (mt19937 x (j + 1) &&& 0x7fffffff)) >>> 1)
          ^^^ (if ((mt19937 x j &&& 0x80000000) ||| (mt19937 x (j + 1) &&& 0x7fffffff)) % 2 = 1
                then 0x9908b0df else 0) := by
  have e : mt19937 x (j + 624) = mt19937_table x (j + 1) (j + 624) := by
    unfold mt19937
    have : j + 624 + 1 - 624 = j + 1 := by omega
    rw [this]
  rw [e, mt19937_table_succ]
  rw [Function.update_same, mt19937_table_stable x j j (by omega),
    mt19937_table_stable x (j + 1) j (by omega), mt19937_table_stable x (j + 397) j (by omega)]

theorem mt19937_lt (x : Nat → Nat) (hx : ∀ i, i < 624 → x i < 2 ^ 32) (j : Nat) :
    mt19937 x j < 2 ^ 32 := by
  induction j using Nat.strong_induction_on with
  | _ j ih =>
    by_cases h : j < 624
    · rw [mt19937_init x j h]
      exact hx j h
    · obtain ⟨i, rfl⟩ : ∃ i, j = i + 624 := ⟨j - 624, by omega⟩
      rw [mt19937_rec]
      apply Nat.xor_lt_two_pow
      · apply Nat.xor_lt_two_pow (ih (i + 397) (by omega))
        apply Nat.lt_of_le_of_lt (shiftRight_le_self _ _)
        apply Nat.or_lt_two_pow
        · exact Nat.and_lt_two_pow _ (by decide : (0x80000000 : Nat) < 2 ^ 32)
        · exact Nat.and_lt_two_pow _ (by decide : (0x7fffffff : Nat) < 2 ^ 32)
      · split_ifs <;> decide

/-! ## The function `next()` -/

theorem temper_eq (y : Nat) (h : y < 2 ^ 32) : temper y = mt19937_temper y := by
  have mask : ∀ a m : Nat, m < 2 ^ 32 → (a % 2 ^ 32) &&& m = a &&& m := by
    intro a m hm
    rw [← Nat.and_pow_two_sub_one_eq_mod, Nat.and_assoc]
    congr 1
    rw [Nat.and_comm, Nat.and_pow_two_sub_one_eq_mod]
    exact Nat.mod_eq_of_lt hm
  unfold temper mt19937_temper
  simp only []
  have h1 : y ^^^ (y >>> 11) < 2 ^ 32 :=
    Nat.xor_lt_two_pow h (Nat.lt_of_le_of_lt (shiftRight_le_self _ _) h)
  rw [Nat.mod_eq_of_lt h1, mask _ _ (by decide)]
  have h2 : (y ^^^ y >>> 11) ^^^ ((y ^^^ y >>> 11) <<< 7 &&& 0x9d2c5680) < 2 ^ 32 :=
    Nat.xor_lt_two_pow h1 (Nat.and_lt_two_pow _ (by decide))
  rw [Nat.mod_eq_of_lt h2, mask _ _ (by decide)]
  generalize (y ^^^ y >>> 11) ^^^ ((y ^^^ y >>> 11) <<< 7 &&& 0x9d2c5680) = z at h2 ⊢
  have h3 : z ^^^ (z <<< 15 &&& 0xefc60000) < 2 ^ 32 :=
    Nat.xor_lt_two_pow h2 (Nat.and_lt_two_pow _ (by decide))
  rw [Nat.mod_eq_of_lt h3]
  generalize z ^^^ (z <<< 15 &&& 0xefc60000) = w at h3 ⊢
  exact Nat.mod_eq_of_lt
    (Nat.xor_lt_two_pow h3 (Nat.lt_of_le_of_lt (shiftRight_le_self _ _) h3))

/-- The first loop of `next()` fills `y[0..n-1]`. -/
theorem next_first_loop (f : Nat → Nat) (y0 : Nat → Nat) (n j : Nat) :
    forLoop (fun i y => Function.update y i (f i)) n y0 j = if j < n then f j else y0 j := by
  induction n with
  | zero => rfl
  | succ n ih =>
    simp only [forLoop]
    by_cases hj : j = n
    · subst hj
      rw [Function.update_same, if_pos (Nat.lt_succ_self j)]
    · rw [Function.update_noteq hj, ih]
      by_cases h1 : j < n
      · rw [if_pos h1, if_pos (by omega)]
      · rw [if_neg h1, if_neg (by omega)]

/-- The second loop of `next()`: the words are tempered in place, and slot `idx i` of `mt`
receives the untempered `y[i]`. -/
theorem next_second_loop (idx : Nat → Nat) (g : Nat → Nat) (mt y : Nat → Nat) (n : Nat)
    (hinj : ∀ i j, i < n → j < n → idx i = idx j → i = j) :
    (∀ j, (forLoop (fun i (st : (Nat → Nat) × (Nat → Nat)) =>
          (Function.update st.1 (idx i) (st.2 i), Function.update st.2 i (g (st.2 i))))
        n (mt, y)).2 j = if j < n then g (y j) else y j)
      ∧ (∀ i, i < n → (forLoop (fun i (st : (Nat → Nat) × (Nat → Nat)) =>
          (Function.update st.1 (idx i) (st.2 i), Function.update st.2 i (g (st.2 i))))
        n (mt, y)).1 (idx i) = y i)
      ∧ (∀ p, (∀ i, i < n → idx i ≠ p) → (forLoop (fun i (st : (Nat → Nat) × (Nat → Nat)) =>
          (Function.update st.1 (idx i) (st.2 i), Function.update st.2 i (g (st.2 i))))
        n (mt, y)).1 p = mt p) := by
  induction n with
  | zero =>
    refine ⟨fun j => rfl, fun i hi => absurd hi (Nat.not_lt_zero i), fun p _ => rfl⟩
  | succ n ih =>
    obtain ⟨ih1, ih2, ih3⟩ := ih (fun i j hi hj => hinj i j (by omega) (by omega))
    simp only [forLoop]
    refine ⟨?_, ?_, ?_⟩
    · intro j
      by_cases hj : j = n
      · subst hj
        rw [Function.update_same, ih1, if_neg (Nat.lt_irrefl j), if_pos (Nat.lt_succ_self j)]
      · rw [Function.update_noteq hj, ih1]
        by_cases h1 : j < n
        · rw [if_pos h1, if_pos (by omega)]
        · rw [if_neg h1, if_neg (by omega)]
    · intro i hi
      by_cases hin : i = n
      · subst hin
        rw [Function.update_same, ih1, if_neg (Nat.lt_irrefl i)]
      · have hne : idx i ≠ idx n := fun h => hin (hinj i n hi (Nat.lt_succ_self n) h)
        rw [Function.update_noteq hne]
        exact ih2 i (by omega)
    · intro p hp
      rw [Function.update_noteq (fun h => hp n (Nat.lt_succ_self n) h.symm)]
      exact ih3 p (fun i hi => hp i (by omega))

/-- Below the wrap of `mt_base_`, `MT_(i)` is slot `(64*k + i) % 624`. -/
theorem MT_eq (x : Nat → Nat) (k : Nat) (m : mersenne_twister) (h : NextInv x k m) (i : Nat)
    (hk : 64 * k + i < 2 ^ 32) : MT_ m i = (64 * k + i) % 624 := by
  unfold MT_ MT_N
  rw [h.1, Nat.mod_eq_of_lt hk]

/-- Below the wrap, the first loop of `next()` computes the next 64 words of the textbook
sequence. -/
theorem next_twist_eq (x : Nat → Nat) (hx : ∀ i, i < 624 → x i < 2 ^ 32) (k : Nat)
    (m : mersenne_twister) (h : NextInv x k m) (i : Nat) (hi : i < 64)
    (hk : 64 * k + 460 < 2 ^ 32) : next_twist m i = mt19937 x (64 * k + i + 624) := by
  unfold next_twist MT_M UPPER_MASK LOWER_MASK MATRIX_A
  rw [MT_eq x k m h i (by omega), MT_eq x k m h (i + 1) (by omega),
    MT_eq x k m h (i + 397) (by omega), h.2 i (by omega), h.2 (i + 1) (by omega),
    h.2 (i + 397) (by omega), mt19937_rec]
  have e1 : 64 * k + (i + 1) = 64 * k + i + 1 := by omega
  have e2 : 64 * k + (i + 397) = 64 * k + i + 397 := by omega
  rw [e1, e2]
  have hy : (mt19937 x (64 * k + i) &&& 0x80000000) ||| (mt19937 x (64 * k + i + 1) &&& 0x7fffffff)
      < 2 ^ 32 :=
    Nat.or_lt_two_pow (Nat.and_lt_two_pow _ (by decide)) (Nat.and_lt_two_pow _ (by decide))
  simp only []
  rw [Nat.mod_eq_of_lt hy, Nat.and_one_is_mod]
  generalize (mt19937 x (64 * k + i) &&& 0x80000000)
    ||| (mt19937 x (64 * k + i + 1) &&& 0x7fffffff) = y at hy ⊢
  have hc : (y % 2 ≠ 0) ↔ (y % 2 = 1) := by omega
  simp only [hc]
  apply Nat.mod_eq_of_lt
  apply Nat.xor_lt_two_pow
  · exact Nat.xor_lt_two_pow (mt19937_lt x hx _)
      (Nat.lt_of_le_of_lt (shiftRight_le_self _ _) hy)
  · split_ifs <;> decide

/-- One call of `next()` below the wrap of `mt_base_`: the invariant is kept and the 64 words
are the tempered next 64 words of the textbook sequence. -/
theorem next_step (x : Nat → Nat) (hx : ∀ i, i < 624 → x i < 2 ^ 32) (k : Nat)
    (m : mersenne_twister) (h : NextInv x k m) (hk : 64 * k + 460 < 2 ^ 32) :
    NextInv x (k + 1) (next m).1
      ∧ ∀ i, i < 64 → (next m).2 i = mt19937_temper (mt19937 x (624 + 64 * k + i)) := by
  have hV : VECTOR = 64 := rfl
  have hinj : ∀ i j, i < VECTOR → j < VECTOR → MT_ m i = MT_ m j → i = j := by
    intro i j hi hj e
    rw [MT_eq x k m h i (by omega), MT_eq x k m h j (by omega)] at e
    omega
  obtain ⟨l1, l2, l3⟩ := next_second_loop (MT_ m) temper m.mt
    (forLoop (fun i y => Function.update y i (next_twist m i)) VECTOR (fun _ => 0)) VECTOR hinj
  have hy : ∀ i, i < 64 →
      forLoop (fun i y => Function.update y i (next_twist m i)) VECTOR (fun _ => 0) i
        = mt19937 x (64 * k + i + 624) := by
    intro i hi
    rw [next_first_loop, if_pos (by omega), next_twist_eq x hx k m h i hi hk]
  unfold next
  simp only []
  refine ⟨⟨?_, ?_⟩, ?_⟩
  · show (m.mt_base_ + VECTOR) % 2 ^ 32 = 64 * (k + 1)
    rw [h.1]
    omega
  · intro t ht
    by_cases hw : 624 ≤ t + 64
    · have e : (64 * (k + 1) + t) % 624 = MT_ m (t + 64 - 624) := by
        rw [MT_eq x k m h _ (by omega)]
        omega
      rw [e]
      have l2' := l2 (t + 64 - 624) (by omega)
      dsimp only at l2' ⊢
      rw [l2', hy _ (by omega)]
      have e2 : 64 * k + (t + 64 - 624) + 624 = 64 * (k + 1) + t := by omega
      rw [e2]
    · have l3' := l3 ((64 * (k + 1) + t) % 624) (by
        intro i hi e
        rw [MT_eq x k m h i (by omega)] at e
        omega)
      dsimp only at l3' ⊢
      rw [l3']
      have e : 64 * (k + 1) + t = 64 * k + (t + 64) := by omega
      rw [e, h.2 (t + 64) (by omega)]
  · intro i hi
    have l1' := l1 i
    have e : 64 * k + i + 624 = 624 + 64 * k + i := by omega
    rw [l1', if_pos (by omega), hy i hi, temper_eq _ (mt19937_lt x hx _), e]

/-- The invariant holds before every call up to the first one at which `mt_base_ + i + 397`
can wrap. -/
theorem after_calls_inv (x : Nat → Nat) (hx : ∀ i, i < 624 → x i < 2 ^ 32)
    (m : mersenne_twister) (h0 : NextInv x 0 m) (k : Nat) (hk : 64 * k + 396 < 2 ^ 32) :
    NextInv x k (after_calls m k) := by
  induction k with
  | zero => exact h0
  | succ k ih =>
    exact (next_step x hx k _ (ih (by omega)) (by omega)).1

theorem mt19937_rec_twist (x : Nat → Nat) (j : Nat) :
    mt19937 x (j + 624)
      = mt19937_twist (mt19937 x j) (mt19937 x (j + 1)) (mt19937 x (j + 397)) :=
  mt19937_rec x j

theorem mt19937_twist_inj (a b c d : Nat) :
    mt19937_twist a b c = mt19937_twist a b d ↔ c = d := by
  unfold mt19937_twist
  rw [Nat.xor_left_inj, Nat.xor_left_inj]

theorem mt19937_twist_lt (a b c : Nat) (hc : c < 2 ^ 32) : mt19937_twist a b c < 2 ^ 32 := by
  unfold mt19937_twist
  have hy : (a &&& 0x80000000) ||| (b &&& 0x7fffffff) < 2 ^ 32 :=
    Nat.or_lt_two_pow (Nat.and_lt_two_pow _ (by decide)) (Nat.and_lt_two_pow _ (by decide))
  apply Nat.xor_lt_two_pow
  · exact Nat.xor_lt_two_pow hc (Nat.lt_of_le_of_lt (shiftRight_le_self _ _) hy)
  · split_ifs <;> decide

/-- The body of the first loop of `next()` in terms of the three words it reads. -/
theorem next_twist_val (m : mersenne_twister) (i : Nat) (hc : m.mt (MT_ m (i + MT_M)) < 2 ^ 32) :
    next_twist m i
      = mt19937_twist (m.mt (MT_ m i)) (m.mt (MT_ m (i + 1))) (m.mt (MT_ m (i + MT_M))) := by
  have hlt := mt19937_twist_lt (m.mt (MT_ m i)) (m.mt (MT_ m (i + 1))) _ hc
  unfold mt19937_twist at hlt ⊢
  unfold next_twist UPPER_MASK LOWER_MASK MATRIX_A
  have hy : (m.mt (MT_ m i) &&& 0x80000000) ||| (m.mt (MT_ m (i + 1)) &&& 0x7fffffff) < 2 ^ 32 :=
    Nat.or_lt_two_pow (Nat.and_lt_two_pow _ (by decide)) (Nat.and_lt_two_pow _ (by decide))
  simp only []
  rw [Nat.mod_eq_of_lt hy, Nat.and_one_is_mod]
  generalize (m.mt (MT_ m i) &&& 0x80000000) ||| (m.mt (MT_ m (i + 1)) &&& 0x7fffffff) = y
    at hy hlt ⊢
  have hcond : (y % 2 ≠ 0) ↔ (y % 2 = 1) := by omega
  simp only [hcond]
  exact Nat.mod_eq_of_lt hlt

/-- The array left by the constructor starts the invariant of `next()`. -/
theorem mersenne_twister_ctor_inv (seed : Nat) (ival0 mt0 : Nat → Nat) :
    NextInv (mersenne_twister_ctor seed ival0 mt0).mt 0 (mersenne_twister_ctor seed ival0 mt0) := by
  refine ⟨(mersenne_twister_ctor_mt seed ival0 mt0 0 (by omega)).2, ?_⟩
  intro t ht
  have e : (64 * 0 + t) % 624 = t := by omega
  have e2 : 64 * 0 + t = t := by omega
  rw [e, e2, mt19937_init _ t ht]

theorem mersenne_twister_ctor_lt (seed : Nat) (hseed : seed < 2 ^ 32) (ival0 mt0 : Nat → Nat)
    (i : Nat) (hi : i < 624) : (mersenne_twister_ctor seed ival0 mt0).mt i < 2 ^ 32 := by
  rw [(mersenne_twister_ctor_mt seed ival0 mt0 i hi).1]
  exact seed_sequence_lt seed hseed i

/-- Up to call number `2^26 - 8` (the last one with `64*k + 460 < 2^32`), the word that call `k`
of `next()` converts to `U[i]` is the standard tempering of `x_{624 + 64*k + i}`, where
`x_0 .. x_623` is the array left by the constructor. -/
theorem next_word_textbook_below_wrap (seed : Nat) (hseed : seed < 2 ^ 32)
    (ival0 mt0 : Nat → Nat) (k i : Nat) (hk : 64 * k + 460 < 2 ^ 32) (hi : i < 64) :
    next_word (mersenne_twister_ctor seed ival0 mt0) k i
      = mt19937_temper (mt19937 (mersenne_twister_ctor seed ival0 mt0).mt (624 + 64 * k + i)) := by
  unfold next_word
  have hx := mersenne_twister_ctor_lt seed hseed ival0 mt0
  have hinv := after_calls_inv _ hx _ (mersenne_twister_ctor_inv seed ival0 mt0) k (by omega)
  exact (next_step _ hx k _ hinv hk).2 i hi

/-! ## Tempering is one-to-one -/

theorem xor_shiftRight_inj (s : Nat) (hs : 0 < s) (y z : Nat)
    (h : y ^^^ (y >>> s) = z ^^^ (z >>> s)) : y = z := by
  have hy : y < 2 ^ (y + z) := Nat.lt_of_lt_of_le (Nat.lt_two_pow y)
    (Nat.pow_le_pow_right (by decide) (Nat.le_add_right y z))
  have hz : z < 2 ^ (y + z) := Nat.lt_of_lt_of_le (Nat.lt_two_pow z)
    (Nat.pow_le_pow_right (by decide) (Nat.le_add_left z y))
  have key : ∀ d i, y + z ≤ i + d → y.testBit i = z.testBit i := by
    intro d
    induction d with
    | zero =>
      intro i hi
      have h1 : y < 2 ^ i := Nat.lt_of_lt_of_le hy (Nat.pow_le_pow_right (by decide) hi)
      have h2 : z < 2 ^ i := Nat.lt_of_lt_of_le hz (Nat.pow_le_pow_right (by decide) hi)
      rw [Nat.testBit_lt_two_pow h1, Nat.testBit_lt_two_pow h2]
    | succ d ih =>
      intro i hi
      have hb := congrArg (fun w => w.testBit i) h
      simp only [Nat.testBit_xor, Nat.testBit_shiftRight] at hb
      have hnext := ih (s + i) (by omega)
      rw [hnext] at hb
      cases hyb : y.testBit i <;> cases hzb : z.testBit i <;> simp_all
  exact Nat.eq_of_testBit_eq (fun i => key (y + z) i (by omega))

theorem xor_shiftLeft_and_inj (s m : Nat) (hs : 0 < s) (y z : Nat)
    (h : y ^^^ ((y <<< s) &&& m) = z ^^^ ((z <<< s) &&& m)) : y = z := by
  apply Nat.eq_of_testBit_eq
  intro i
  induction i using Nat.strong_induction_on with
  | _ i ih =>
    have hb := congrArg (fun w => w.testBit i) h
    simp only [Nat.testBit_xor, Nat.testBit_and, Nat.testBit_shiftLeft] at hb
    by_cases hi : s ≤ i
    · have hprev := ih (i - s) (by omega)
      rw [hprev] at hb
      generalize z.testBit (i - s) = a at hb
      generalize m.testBit i = b at hb
      generalize y.testBit i = c at hb ⊢
      generalize z.testBit i = e at hb ⊢
      revert hb
      cases a <;> cases b <;> cases c <;> cases e <;> simp [hi]
    · have hd : decide (i ≥ s) = false := by simpa using hi
      rw [hd] at hb
      simpa using hb

/-- The standard tempering is one-to-one. -/
theorem mt19937_temper_inj (y z : Nat) (h : mt19937_temper y = mt19937_temper z) : y = z := by
  unfold mt19937_temper at h
  simp only [] at h
  have h4 := xor_shiftRight_inj 18 (by decide) _ _ h
  have h3 := xor_shiftLeft_and_inj 15 _ (by decide) _ _ h4
  have h2 := xor_shiftLeft_and_inj 7 _ (by decide) _ _ h3
  exact xor_shiftRight_inj 11 (by decide) _ _ h2

/-! ## Properties of `mersenne_twister` -/

/-- C4 (the code does not do this): for every seed the constructor leaves
`mt[1] = (1812433253 * (seed XOR (seed >> 30)) + 0) mod 2^32`, where the textbook MT19937 seeding
has `(1812433253 * (seed XOR (seed >> 30)) + 1) mod 2^32`; the two differ for every seed, and for
the seed `0` they are `0` and `1`. -/
theorem mersenne_twister_ctor_not_textbook (seed : Nat) (ival0 mt0 : Nat → Nat) :
    (mersenne_twister_ctor seed ival0 mt0).mt 1
        = (1812433253 * (seed ^^^ (seed >>> 30)) + 0) % 2 ^ 32
      ∧ mt19937_seed seed 1 = (1812433253 * (seed ^^^ (seed >>> 30)) + 1) % 2 ^ 32
      ∧ (mersenne_twister_ctor seed ival0 mt0).mt 1 ≠ mt19937_seed seed 1
      ∧ (mersenne_twister_ctor 0 ival0 mt0).mt 1 = 0
      ∧ mt19937_seed 0 1 = 1 := by
  have h1 : (mersenne_twister_ctor seed ival0 mt0).mt 1
      = (1812433253 * (seed ^^^ (seed >>> 30)) + 0) % 2 ^ 32 :=
    (mersenne_twister_ctor_mt seed ival0 mt0 1 (by omega)).1
  have h2 : mt19937_seed seed 1 = (1812433253 * (seed ^^^ (seed >>> 30)) + 1) % 2 ^ 32 := rfl
  refine ⟨h1, h2, ?_, ?_, by decide⟩
  · rw [h1, h2]
    generalize 1812433253 * (seed ^^^ (seed >>> 30)) = a
    omega
  · rw [(mersenne_twister_ctor_mt 0 ival0 mt0 1 (by omega)).1]
    decide

/-- C5 (the code does not do this for every call): at call number `k = 2^26 - 7 = 67108857`,
where `mt_base_ = 2^32 - 448`, the index `mt_base_ + 51 + 397` of `MT_(i+MT_M)` wraps to `0`, so
for `i = 51` the code twists `x_{2^32-397}` and `x_{2^32-396}` with the word `x_{2^32-256}` held
in slot `0` where the textbook step uses `x_{2^32}` (slot `256`); hence the word converted to
`U[51]` is the standard tempering of `x_{624 + 64*k + 51}` exactly when
`x_{2^32-256} = x_{2^32}`. -/
theorem next_word_wraps (seed : Nat) (hseed : seed < 2 ^ 32) (ival0 mt0 : Nat → Nat) :
    MT_ (after_calls (mersenne_twister_ctor seed ival0 mt0) 67108857) (51 + MT_M) = 0
      ∧ (64 * 67108857 + 51 + MT_M) % MT_N = 256
      ∧ next_word (mersenne_twister_ctor seed ival0 mt0) 67108857 51
          = mt19937_temper (mt19937_twist
              (mt19937 (mersenne_twister_ctor seed ival0 mt0).mt (2 ^ 32 - 397))
              (mt19937 (mersenne_twister_ctor seed ival0 mt0).mt (2 ^ 32 - 396))
              (mt19937 (mersenne_twister_ctor seed ival0 mt0).mt (2 ^ 32 - 256)))
      ∧ mt19937 (mersenne_twister_ctor seed ival0 mt0).mt (624 + 64 * 67108857 + 51)
          = mt19937_twist
              (mt19937 (mersenne_twister_ctor seed ival0 mt0).mt (2 ^ 32 - 397))
              (mt19937 (mersenne_twister_ctor seed ival0 mt0).mt (2 ^ 32 - 396))
              (mt19937 (mersenne_twister_ctor seed ival0 mt0).mt (2 ^ 32))
      ∧ (next_word (mersenne_twister_ctor seed ival0 mt0) 67108857 51
            = mt19937_temper
                (mt19937 (mersenne_twister_ctor seed ival0 mt0).mt (624 + 64 * 67108857 + 51))
          ↔ mt19937 (mersenne_twister_ctor seed ival0 mt0).mt (2 ^ 32 - 256)
            = mt19937 (mersenne_twister_ctor seed ival0 mt0).mt (2 ^ 32)) := by
  unfold next_word
  generalize hm : mersenne_twister_ctor seed ival0 mt0 = m0
  have hx : ∀ i, i < 624 → m0.mt i < 2 ^ 32 := by
    intro i hi
    rw [← hm]
    exact mersenne_twister_ctor_lt seed hseed ival0 mt0 i hi
  have hinv0 : NextInv m0.mt 0 m0 := by
    rw [← hm]
    exact mersenne_twister_ctor_inv seed ival0 mt0
  have hinv := after_calls_inv m0.mt hx m0 hinv0 67108857 (by norm_num)
  generalize after_calls m0 67108857 = m at hinv
  obtain ⟨hb, hs⟩ := hinv
  have hV : VECTOR = 64 := rfl
  have hMT : ∀ i, MT_ m i = ((4294966848 + i) % 2 ^ 32) % 624 := by
    intro i
    unfold MT_ MT_N
    rw [hb]
  have hrec : mt19937 m0.mt (624 + 64 * 67108857 + 51)
      = mt19937_twist (mt19937 m0.mt (2 ^ 32 - 397)) (mt19937 m0.mt (2 ^ 32 - 396))
          (mt19937 m0.mt (2 ^ 32)) := by
    have := mt19937_rec_twist m0.mt (2 ^ 32 - 397)
    norm_num at this ⊢
    exact this
  have hword : (next m).2 51
      = mt19937_temper (mt19937_twist (mt19937 m0.mt (2 ^ 32 - 397))
          (mt19937 m0.mt (2 ^ 32 - 396)) (mt19937 m0.mt (2 ^ 32 - 256))) := by
    have hinj : ∀ i j, i < VECTOR → j < VECTOR → MT_ m i = MT_ m j → i = j := by
      intro i j hi hj e
      rw [hMT, hMT] at e
      omega
    obtain ⟨l1, -, -⟩ := next_second_loop (MT_ m) temper m.mt
      (forLoop (fun i y => Function.update y i (next_twist m i)) VECTOR (fun _ => 0)) VECTOR hinj
    have l1' := l1 51
    have ha : m.mt (MT_ m 51) = mt19937 m0.mt (2 ^ 32 - 397) := by
      have := hs 51 (by omega)
      rw [hMT]
      norm_num at this ⊢
      exact this
    have hb' : m.mt (MT_ m (51 + 1)) = mt19937 m0.mt (2 ^ 32 - 396) := by
      have := hs 52 (by omega)
      rw [hMT]
      norm_num at this ⊢
      exact this
    have hc : m.mt (MT_ m (51 + MT_M)) = mt19937 m0.mt (2 ^ 32 - 256) := by
      have := hs 192 (by omega)
      rw [hMT]
      unfold MT_M
      norm_num at this ⊢
      exact this
    have htw := next_twist_val m 51 (by rw [hc]; exact mt19937_lt m0.mt hx _)
    rw [ha, hb', hc] at htw
    unfold next
    dsimp only
    rw [l1', if_pos (by omega), next_first_loop, if_pos (by omega), htw,
      temper_eq _ (mt19937_twist_lt _ _ _ (mt19937_lt m0.mt hx _))]
  refine ⟨?_, by decide, hword, hrec, ?_⟩
  · rw [hMT]
    decide
  · rw [hword, hrec]
    constructor
    · intro h
      exact (mt19937_twist_inj _ _ _ _).mp (mt19937_temper_inj _ _ h)
    · intro h
      rw [h]

/-- For the seed 777 of `kernel_cpu`: at call `2^26 - 7` the index of `MT_(51 + MT_M)` is `0`,
not `256`. -/
theorem next_word_wraps_witness :
    777 < 2 ^ 32
      ∧ MT_ (after_calls (mersenne_twister_ctor 777 (fun _ => 0) (fun _ => 0)) 67108857)
          (51 + MT_M) = 0 :=
  ⟨by decide, (next_word_wraps 777 (by decide) (fun _ => 0) (fun _ => 0)).1⟩

/-! ## Properties of the verification steps, of the exit codes and of the hook -/

/-- C6: with `VERIFICATION`, `run_simulation_v2` reduces the device hash to
`*vhash % 1000000` (so it is below 1,000,000) and prints "Verification PASS." if and only if
that value equals the CPU reference hash reduced modulo 1,000,000; otherwise it prints
"Verification FAIL.". -/
theorem run_simulation_v2_verify_spec (device_vhash cpu_vhash : Nat) :
    (run_simulation_v2_verify device_vhash cpu_vhash).1 = device_vhash % 1000000
      ∧ (run_simulation_v2_verify device_vhash cpu_vhash).1 < 1000000
      ∧ (XSLine.text "Verification PASS.\n" ∈ (run_simulation_v2_verify device_vhash cpu_vhash).2
          ↔ (run_simulation_v2_verify device_vhash cpu_vhash).1 = cpu_vhash % 1000000)
      ∧ (XSLine.text "Verification FAIL.\n" ∈ (run_simulation_v2_verify device_vhash cpu_vhash).2
          ↔ (run_simulation_v2_verify device_vhash cpu_vhash).1 ≠ cpu_vhash % 1000000) := by
  unfold run_simulation_v2_verify
  by_cases h : device_vhash % 1000000 = cpu_vhash % 1000000
  · simp [h, Nat.mod_lt]
  · simp [h, Nat.mod_lt]

/-- C7 (the code does not do this): `test` prints "Verification Succeeded" in every run; with
`N = 4`, `M = 1` and a read-back buffer of zeros, which differs from `out_copy` at index 1, it
prints "Verification Failed" and then "Verification Succeeded" when the uninitialised `i` starts
at `0`, and only "Verification Succeeded" when it starts at `4`. -/
theorem mirror_test_always_succeeds :
    (∀ (N M i0 : Nat) (h_outData out_copy0 : Nat → Int),
        "Verification Succeeded\n" ∈ mirror_test N M i0 h_outData out_copy0)
      ∧ mirror_out_copy 4 1 (fun _ => 0) 1 ≠ (fun _ => (0 : Int)) 1
      ∧ mirror_test 4 1 0 (fun _ => 0) (fun _ => 0)
          = ["\nVerifying\n", "Verification Failed\n", "Verification Succeeded\n"]
      ∧ mirror_test 4 1 4 (fun _ => 0) (fun _ => 0)
          = ["\nVerifying\n", "Verification Succeeded\n"] := by
  refine ⟨?_, by decide, by decide, by decide⟩
  intro N M i0 h_outData out_copy0
  unfold mirror_test
  simp

/-- C9 (the code does not do this): when `init()` fails in XSBench or in mirror, when the host
buffer of mirror cannot be allocated, and when `setCwdToExeDir()` fails in asian_option, `main`
executes `return false;`, which is exit status `0`, the status of a completed run; `main` of
XSBench and of mirror never return anything but `0`. -/
theorem main_returns_zero_on_failed_init :
    (∀ (e : InitEnv) (runOk : Bool), host_init e = some false →
        xsbench_main e runOk = Exit.returned 0)
      ∧ (∀ (e : InitEnv) (allocated runOk : Bool), host_init e = some false →
        mirror_main e allocated runOk = Exit.returned 0)
      ∧ (∀ (e : InitEnv) (runOk : Bool), host_init e = some true →
        mirror_main e false runOk = Exit.returned 0)
      ∧ (∀ (platformFound vendorOk : Bool),
        asian_option_main false platformFound vendorOk = Exit.returned 0)
      ∧ (∀ (e : InitEnv) (runOk : Bool) (c : Int),
        xsbench_main e runOk = Exit.returned c → c = 0)
      ∧ (∀ (e : InitEnv) (allocated runOk : Bool) (c : Int),
        mirror_main e allocated runOk = Exit.returned c → c = 0)
      ∧ host_init { setCwdToExeDir := true, platformFound := false, vendorOk := true }
          = some false := by
  refine ⟨?_, ?_, ?_, ?_, ?_, ?_, by decide⟩
  · intro e runOk h
    unfold xsbench_main
    rw [h]
    rfl
  · intro e allocated runOk h
    unfold mirror_main
    rw [h]
    rfl
  · intro e runOk h
    unfold mirror_main
    rw [h]
    rfl
  · intro platformFound vendorOk
    rfl
  · intro e runOk c h
    unfold xsbench_main at h
    generalize host_init e = r at h
    rcases r with _ | _ | _ <;> cases runOk <;> simp [boolToInt] at h <;> omega
  · intro e allocated runOk c h
    unfold mirror_main at h
    generalize host_init e = r at h
    rcases r with _ | _ | _ <;> cases allocated <;> cases runOk <;>
      simp [boolToInt] at h <;> omega

/-- The failure of `init()` for want of a platform makes `main` of XSBench return `0`. -/
theorem main_returns_zero_on_failed_init_witness :
    xsbench_main { setCwdToExeDir := true, platformFound := false, vendorOk := true } true
      = Exit.returned 0 :=
  main_returns_zero_on_failed_init.1 _ true (by decide)

/-- C10: for every device name, `aocl_mmd_open(name)` calls the real `aocl_mmd_open` exactly
once, with the same name, and returns exactly the value the real function returned, whether or
not `name` is "aclnalla_pcie0". -/
theorem aocl_mmd_open_transparent {σ : Type} (real : String → σ → Int × σ) (name : String)
    (s : HookState σ) :
    (aocl_mmd_open real name s).1 = (real name s.world).1
      ∧ (aocl_mmd_open real name s).2.world = (real name s.world).2
      ∧ (aocl_mmd_open real name s).2.calls = s.calls ++ [name] := by
  unfold aocl_mmd_open
  by_cases h : ("aclnalla_pcie0" == name) = true
  · simp only [h, if_true]
    split_ifs <;> exact ⟨rfl, rfl, rfl⟩
  · simp only [h]
    split_ifs <;> exact ⟨rfl, rfl, rfl⟩

/-! ## The chunks of `sobel_cpu` in any order -/

/-- Running the chunks listed in `order` stores the pixels of exactly those chunks. -/
theorem sobel_cpu_in_order_apply (COLS : Nat) (frame_in : Int → Nat) (iterations : Int)
    (threshold : Nat) (order : List Nat) (out : Nat → Nat) (p : Nat) :
    sobel_cpu_in_order COLS frame_in out iterations threshold order p
      = if p / 16 ∈ order ∧ (p : Int) < iterations then
          sobel_pixel COLS frame_in iterations threshold (16 * (p / 16)) (p % 16)
        else out p := by
  unfold sobel_cpu_in_order
  induction order generalizing out with
  | nil => simp
  | cons c l ih =>
    rw [List.foldl_cons, ih]
    by_cases hl : p / 16 ∈ l ∧ (p : Int) < iterations
    · rw [if_pos hl, if_pos ⟨List.mem_cons_of_mem _ hl.1, hl.2⟩]
    · rw [if_neg hl]
      have hb := sobel_block_apply COLS frame_in iterations threshold (16 * c) out 16 p
      have hb' : sobel_block COLS frame_in iterations threshold (16 * c) out p
          = if 16 * c ≤ p ∧ p < 16 * c + 16 ∧ (p : Int) < iterations then
              sobel_pixel COLS frame_in iterations threshold (16 * c) (p - 16 * c)
            else out p := hb
      rw [hb']
      by_cases hc : 16 * c ≤ p ∧ p < 16 * c + 16 ∧ (p : Int) < iterations
      · have e1 : p / 16 = c := by omega
        have e2 : p % 16 = p - 16 * c := by omega
        rw [if_pos hc, if_pos ⟨by rw [e1]; exact List.mem_cons_self _ _, hc.2.2⟩, e1, e2]
      · rw [if_neg hc, if_neg]
        rintro ⟨hm, hi⟩
        rcases List.mem_cons.mp hm with h | h
        · exact hc ⟨by omega, by omega, hi⟩
        · exact hl ⟨h, hi⟩

/-- C17: the result of `sobel_cpu` does not depend on the order in which the 16-pixel chunks are
executed: running the chunks `0, 1, ..., (iterations+15)/16 - 1` in any permutation leaves the
same `frame_out` as running them in ascending order. -/
theorem sobel_cpu_order_independent (COLS : Nat) (frame_in : Int → Nat)
    (frame_out : Nat → Nat) (iterations : Int) (threshold : Nat) (order : List Nat)
    (hperm : order.Perm (List.range ((iterations.toNat + 15) / 16))) :
    sobel_cpu_in_order COLS frame_in frame_out iterations threshold order
      = sobel_cpu COLS frame_in frame_out iterations threshold := by
  funext p
  rw [sobel_cpu_in_order_apply]
  unfold sobel_cpu
  rw [sobel_blocks_apply]
  have hmem : p / 16 ∈ order ↔ p < 16 * ((iterations.toNat + 15) / 16) := by
    rw [hperm.mem_iff, List.mem_range]
    omega
  by_cases h : p / 16 ∈ order ∧ (p : Int) < iterations
  · rw [if_pos h, if_pos ⟨hmem.mp h.1, h.2⟩]
  · rw [if_neg h, if_neg]
    rintro ⟨h1, h2⟩
    exact h ⟨hmem.mpr h1, h2⟩

/-- On `stepFrame` with 40 pixels the three chunks run in the order 2, 0, 1 give the result of
`sobel_cpu`. -/
theorem sobel_cpu_order_independent_witness :
    sobel_cpu_in_order 4 stepFrame (fun _ => 7) 40 100 [2, 0, 1]
      = sobel_cpu 4 stepFrame (fun _ => 7) 40 100 :=
  sobel_cpu_order_independent 4 stepFrame (fun _ => 7) 40 100 [2, 0, 1] (by decide)

/-! ## The range of the edge magnitude of `sobel_cpu` -/

/-- The two gradients written out over the nine lumas of the window. -/
theorem gradient_expand (COLS : Nat) (frame_in : Int → Nat) (iterations : Int) (idx : Nat) :
    gradient Gx COLS frame_in iterations idx
        = -lumaAt frame_in iterations (idx + 0 * COLS + 0)
          - 2 * lumaAt frame_in iterations (idx + 0 * COLS + 1)
          - lumaAt frame_in iterations (idx + 0 * COLS + 2)
          + lumaAt frame_in iterations (idx + 2 * COLS + 0)
          + 2 * lumaAt frame_in iterations (idx + 2 * COLS + 1)
          + lumaAt frame_in iterations (idx + 2 * COLS + 2)
      ∧ gradient Gy COLS frame_in iterations idx
        = -lumaAt frame_in iterations (idx + 0 * COLS + 0)
          + lumaAt frame_in iterations (idx + 0 * COLS + 2)
          - 2 * lumaAt frame_in iterations (idx + 1 * COLS + 0)
          + 2 * lumaAt frame_in iterations (idx + 1 * COLS + 2)
          - lumaAt frame_in iterations (idx + 2 * COLS + 0)
          + lumaAt frame_in iterations (idx + 2 * COLS + 2) := by
  unfold gradient
  simp only [Finset.sum_range_succ, Finset.sum_range_zero, Gx, Gy]
  constructor <;> ring

/-- The value stored for a window is `0` as soon as the threshold is at least `1314`. -/
theorem sobel_pixel_saturated (COLS : Nat) (frame_in : Int → Nat) (iterations : Int)
    (threshold count k : Nat) (ht : 1314 ≤ threshold) :
    sobel_pixel COLS frame_in iterations threshold count k = 0 := by
  rw [sobel_pixel_eq_window, if_neg]
  have := sobel_window_abs_le COLS frame_in iterations count k
  omega

/-- The bound `1314` is reached: on `cornerFrame` (`COLS = 3`, 9 pixels) the window of pixel 0
has `x_dir = y_dir = 657`. -/
theorem sobel_window_cornerFrame : sobel_window 3 cornerFrame 9 0 0 = (657, 657) := by
  decide

/-- C23: every luma lies in `[16, 235]`; for every frame, every `COLS` and every window the
edge magnitude `temp = |x_dir| + |y_dir|` lies in `[0, 1314]`; and for every threshold of at
least `1314` every pixel that `sobel_cpu` writes, that is every `idx` in `[0, iterations)`,
is `0`. -/
theorem sobel_cpu_threshold_saturation (COLS : Nat) (frame_in : Int → Nat)
    (frame_out : Nat → Nat) (iterations : Int) (threshold : Nat) :
    (∀ pixel, 16 ≤ sobel_luma pixel ∧ sobel_luma pixel ≤ 235)
      ∧ (∀ count k,
          (0 : Int) ≤ (((sobel_window COLS frame_in iterations count k).1.natAbs
              + (sobel_window COLS frame_in iterations count k).2.natAbs : Nat) : Int)
          ∧ (((sobel_window COLS frame_in iterations count k).1.natAbs
              + (sobel_window COLS frame_in iterations count k).2.natAbs : Nat) : Int) ≤ 1314)
      ∧ (1314 ≤ threshold → ∀ idx : Nat, (idx : Int) < iterations →
          sobel_cpu COLS frame_in frame_out iterations threshold idx = 0) := by
  refine ⟨sobel_luma_bounds, ?_, ?_⟩
  · intro count k
    have h := sobel_window_abs_le COLS frame_in iterations count k
    rw [← Int.natCast_natAbs, ← Int.natCast_natAbs] at h
    omega
  · intro ht idx hidx
    unfold sobel_cpu
    rw [sobel_blocks_apply, if_pos ⟨by omega, hidx⟩]
    exact sobel_pixel_saturated COLS frame_in iterations threshold _ _ ht

/-- On `cornerFrame`, where the magnitude at pixel 0 is the largest possible, the threshold
`1314` already gives `0`. -/
theorem sobel_cpu_threshold_saturation_witness :
    1314 ≤ 1314 ∧ ((0 : Nat) : Int) < 9
      ∧ sobel_cpu 3 cornerFrame (fun _ => 7) 9 1314 0 = 0 :=
  ⟨by decide, by decide,
    (sobel_cpu_threshold_saturation 3 cornerFrame (fun _ => 7) 9 1314).2.2 (by decide) 0
      (by decide)⟩

/-! ## Flat windows -/

/-- C24, with the bound its second part needs: if the nine pixels of the window of `idx` are
below `iterations` (`idx + 2*COLS + 2 < iterations`, with `iterations` an `int`) and have the
same luma, then `x_dir = y_dir = 0` and `sobel_cpu` writes `frame_out[idx] = 0` for every
threshold; and if every pixel of the frame has luma `16`, as in a frame of black pixels, and
`iterations + 2*COLS + 16 <= INT_MAX`, so that no index sum of the call leaves the range of
`int`, then `frame_out[idx] = 0` for every `idx` in `[0, iterations)`, also where the window
reaches beyond `iterations`. -/
theorem sobel_cpu_flat (COLS : Nat) (frame_in : Int → Nat) (frame_out : Nat → Nat)
    (iterations : Int) (threshold : Nat) :
    (iterations < 2147483648 →
        ∀ idx : Nat, ((idx + 2 * COLS + 2 : Nat) : Int) < iterations →
        (∀ i j, i < 3 → j < 3 →
          sobel_luma (frame_in ((idx + i * COLS + j : Nat) : Int))
            = sobel_luma (frame_in (idx : Int))) →
        sobel_window COLS frame_in iterations (16 * (idx / 16)) (idx % 16) = (0, 0)
          ∧ sobel_cpu COLS frame_in frame_out iterations threshold idx = 0)
      ∧ (iterations + 2 * (COLS : Int) + 16 < 2147483648 →
          (∀ p : Nat, (p : Int) < iterations → sobel_luma (frame_in (p : Int)) = 16) →
          ∀ idx : Nat, (idx : Int) < iterations →
            sobel_window COLS frame_in iterations (16 * (idx / 16)) (idx % 16) = (0, 0)
              ∧ sobel_cpu COLS frame_in frame_out iterations threshold idx = 0)
      ∧ sobel_luma 0 = 16 := by
  have key : ∀ idx : Nat, (idx : Int) < iterations →
      (idx : Int) + 2 * (COLS : Int) + 2 < 2147483648 → ∀ L : Int,
      (∀ i j, i < 3 → j < 3 → lumaAt frame_in iterations (idx + i * COLS + j) = L) →
      sobel_window COLS frame_in iterations (16 * (idx / 16)) (idx % 16) = (0, 0)
        ∧ sobel_cpu COLS frame_in frame_out iterations threshold idx = 0 := by
    intro idx hidx hb L hL
    have e : 16 * (idx / 16) + idx % 16 = idx := by omega
    have hb' : ((16 * (idx / 16) : Nat) : Int) + ((idx % 16 : Nat) : Int) + 2 * (COLS : Int) + 2
        < 2147483648 := by
      have : ((16 * (idx / 16) : Nat) : Int) + ((idx % 16 : Nat) : Int) = (idx : Int) := by
        exact_mod_cast e
      omega
    obtain ⟨ex, ey⟩ := gradient_expand COLS frame_in iterations idx
    have gx : gradient Gx COLS frame_in iterations idx = 0 := by
      rw [ex, hL 0 0 (by omega) (by omega), hL 0 1 (by omega) (by omega),
        hL 0 2 (by omega) (by omega), hL 2 0 (by omega) (by omega),
        hL 2 1 (by omega) (by omega), hL 2 2 (by omega) (by omega)]
      ring
    have gy : gradient Gy COLS frame_in iterations idx = 0 := by
      rw [ey, hL 0 0 (by omega) (by omega), hL 0 2 (by omega) (by omega),
        hL 1 0 (by omega) (by omega), hL 1 2 (by omega) (by omega),
        hL 2 0 (by omega) (by omega), hL 2 2 (by omega) (by omega)]
      ring
    constructor
    · rw [sobel_window_eq COLS frame_in iterations _ _ hb', e, gx, gy]
    · unfold sobel_cpu
      rw [sobel_blocks_apply, if_pos ⟨by omega, hidx⟩, sobel_pixel_eq _ _ _ _ _ _ hb', e, gx, gy,
        if_neg]
      simp
  refine ⟨?_, ?_, by decide⟩
  · intro hint idx hin hflat
    have hin' : (idx : Int) + 2 * (COLS : Int) + 2 < iterations := by
      push_cast at hin
      omega
    apply key idx (by omega) (by omega) (sobel_luma (frame_in (idx : Int)))
    intro i j hi hj
    have hc : (i : Int) * COLS ≤ 2 * COLS :=
      mul_le_mul_of_nonneg_right (by omega) (by positivity)
    rw [lumaAt_eq, if_pos (by push_cast; omega), hflat i j hi hj]
  · intro hb hblack idx hidx
    apply key idx hidx (by omega) 16
    intro i j _ _
    rw [lumaAt_eq]
    split_ifs with h
    · rw [hblack _ h]
      rfl
    · rfl

/-- A frame of grey pixels (`COLS = 4`, 24 pixels) at pixel 1, whose window is in range, and a
frame of black pixels at pixel 23, whose window is padded. -/
theorem sobel_cpu_flat_witness :
    (((1 + 2 * 4 + 2 : Nat) : Int) < 24
        ∧ sobel_cpu 4 (fun _ => 0x808080) (fun _ => 7) 24 0 1 = 0)
      ∧ (((23 : Nat) : Int) < 24
        ∧ sobel_cpu 4 (fun _ => 0) (fun _ => 7) 24 0 23 = 0) :=
  ⟨⟨by decide,
      ((sobel_cpu_flat 4 (fun _ => 0x808080) (fun _ => 7) 24 0).1 (by decide) 1 (by decide)
        (fun _ _ _ _ => rfl)).2⟩,
    ⟨by decide,
      ((sobel_cpu_flat 4 (fun _ => 0) (fun _ => 7) 24 0).2.1 (by decide) (fun _ _ => by decide)
        23 (by decide)).2⟩⟩

/-- C24 fails as stated in its second part: with `COLS = 8` and `iterations = 2^31 - 16` every
pixel of the frame `outsideWhite` has luma `16`, and yet the code stores `0xffffff` at the
last pixel `idx = 2^31 - 17` for the threshold 100: the index sums of the taps `(2, 1)` and
`(2, 2)` wrap, pass the guard and read the white words before the frame. -/
theorem sobel_cpu_flat_counterexample :
    (∀ p : Nat, ((p : Int) < 2147483632 → sobel_luma (outsideWhite (p : Int)) = 16))
      ∧ ((2147483631 : Nat) : Int) < 2147483632
      ∧ sobel_cpu 8 outsideWhite (fun _ => 7) 2147483632 100 2147483631 ≠ 0
      ∧ sobel_window 8 outsideWhite 2147483632 2147483616 15 = (657, 219) := by
  refine ⟨?_, by decide, ?_, by decide⟩
  · intro p _
    have h : outsideWhite (p : Int) = 0 := by
      unfold outsideWhite
      rw [if_neg (by omega)]
    rw [h]
    decide
  · unfold sobel_cpu
    rw [sobel_blocks_apply, if_pos ⟨by decide, by decide⟩]
    have e1 : 16 * (2147483631 / 16) = 2147483616 := by norm_num
    have e2 : 2147483631 % 16 = 15 := by norm_num
    rw [e1, e2]
    decide

/-! ## The accesses of `sobel_cpu` -/

theorem forLoop_invariant {σ : Type} (P : σ → Prop) (body : Nat → σ → σ) (n : Nat)
    (h : ∀ i, i < n → ∀ s, P s → P (body i s)) (s : σ) (h0 : P s) : P (forLoop body n s) := by
  induction n with
  | zero => exact h0
  | succ n ih =>
    exact h n (Nat.lt_succ_self n) _ (ih (fun i hi => h i (Nat.lt_succ_of_lt hi)))

/-- The record of reads does not change the window sums. -/
theorem sobel_window_traced_fst (COLS : Nat) (frame_in : Int → Nat) (iterations : Int)
    (count k : Nat) (reads : List Int) :
    (sobel_window_traced COLS frame_in iterations count k reads).1
      = sobel_window COLS frame_in iterations count k := by
  have tap : ∀ i j (st : (Int × Int) × List Int),
      (sobel_tap_traced COLS frame_in iterations count k i j st).1
        = sobel_tap COLS frame_in iterations count k i j st.1 := by
    intro i j st
    unfold sobel_tap_traced sobel_tap
    split_ifs <;> rfl
  unfold sobel_window_traced sobel_window
  simp only [forLoop_three, tap]

/-- While the sums stay in the range of `int`, every read of a window is at an offset in
`[0, iterations)`. -/
theorem sobel_window_traced_reads (COLS : Nat) (frame_in : Int → Nat) (iterations : Int)
    (count k : Nat) (reads : List Int) (hb : (count : Int) + k + 2 * COLS + 2 < 2147483648)
    (h : ∀ p ∈ reads, 0 ≤ p ∧ p < iterations) :
    ∀ p ∈ (sobel_window_traced COLS frame_in iterations count k reads).2,
      0 ≤ p ∧ p < iterations := by
  unfold sobel_window_traced
  apply forLoop_invariant
    (fun st : (Int × Int) × List Int => ∀ p ∈ st.2, 0 ≤ p ∧ p < iterations)
  · intro i hi st hst
    apply forLoop_invariant
      (fun st : (Int × Int) × List Int => ∀ p ∈ st.2, 0 ≤ p ∧ p < iterations)
    · intro j hj st hst p hp
      unfold sobel_tap_traced at hp
      split_ifs at hp with hc
      · rcases List.mem_append.mp hp with hp | hp
        · exact hst p hp
        · rw [List.mem_singleton.mp hp]
          refine ⟨?_, hc⟩
          rw [sobel_index_eq COLS count k i j hi hj hb]
          exact Int.natCast_nonneg _
      · exact hst p hp
    · exact hst
  · exact h

/-- The reads of a window are added at the end of the record. -/
theorem sobel_window_traced_snd (COLS : Nat) (frame_in : Int → Nat) (iterations : Int)
    (count k : Nat) (reads : List Int) :
    (sobel_window_traced COLS frame_in iterations count k reads).2
      = reads ++ (sobel_window_traced COLS frame_in iterations count k []).2 := by
  have tap : ∀ i j (st : (Int × Int) × List Int),
      (sobel_tap_traced COLS frame_in iterations count k i j st).2
        = st.2 ++ (if sobel_index COLS count k i j < iterations
            then [sobel_index COLS count k i j] else []) := by
    intro i j st
    unfold sobel_tap_traced
    split_ifs <;> simp
  unfold sobel_window_traced
  simp only [forLoop_three, tap, List.append_assoc, List.nil_append]

/-- The reads recorded after a round are those of its window. -/
theorem sobel_round_traced_reads (COLS : Nat) (frame_in : Int → Nat) (iterations : Int)
    (threshold count k : Nat) (s : SobelAccess) :
    (sobel_round_traced COLS frame_in iterations threshold count k s).reads
      = (sobel_window_traced COLS frame_in iterations count k s.reads).2 := by
  unfold sobel_round_traced
  split_ifs <;> rfl

/-- The first `n` rounds of a block: the contents of `frame_out` are those of the plain model
and the pixels `count + k`, `k < n`, below `iterations` have been written once more each;
while the sums stay in the range of `int`, every read is at an offset in `[0, iterations)`. -/
theorem sobel_block_traced_apply (COLS : Nat) (frame_in : Int → Nat) (iterations : Int)
    (threshold count : Nat) (s : SobelAccess) (n : Nat) :
    (forLoop (fun k s => sobel_round_traced COLS frame_in iterations threshold count k s)
          n s).frame_out
        = forLoop (fun k out =>
            if ((count + k : Nat) : Int) < iterations then
              Function.update out (count + k)
                (sobel_pixel COLS frame_in iterations threshold count k)
            else out) n s.frame_out
      ∧ (n ≤ 16 → (count : Int) + 15 + 2 * COLS + 2 < 2147483648 →
          (∀ p ∈ s.reads, 0 ≤ p ∧ p < iterations) →
          ∀ p ∈ (forLoop (fun k s =>
            sobel_round_traced COLS frame_in iterations threshold count k s) n s).reads,
          0 ≤ p ∧ p < iterations)
      ∧ (∀ p, (forLoop (fun k s =>
            sobel_round_traced COLS frame_in iterations threshold count k s) n s).writes.count p
          = s.writes.count p
            + if count ≤ p ∧ p < count + n ∧ (p : Int) < iterations then 1 else 0) := by
  induction n with
  | zero =>
    refine ⟨rfl, fun _ _ hr => hr, ?_⟩
    intro p
    rw [if_neg (by omega)]
    rfl
  | succ n ih =>
    obtain ⟨ih1, ih2, ih3⟩ := ih
    simp only [forLoop]
    generalize forLoop (fun k s =>
        sobel_round_traced COLS frame_in iterations threshold count k s) n s = r
      at ih1 ih2 ih3 ⊢
    have hf := sobel_window_traced_fst COLS frame_in iterations count n r.reads
    refine ⟨?_, ?_, ?_⟩
    · unfold sobel_round_traced
      by_cases hc : ((count + n : Nat) : Int) < iterations
      · simp only [if_pos hc]
        rw [hf, ih1]
        rfl
      · simp only [if_neg hc]
        exact ih1
    · intro hn hb hr
      rw [sobel_round_traced_reads]
      exact sobel_window_traced_reads COLS frame_in iterations count n r.reads (by omega)
        (ih2 (by omega) hb hr)
    · intro p
      unfold sobel_round_traced
      by_cases hc : ((count + n : Nat) : Int) < iterations
      · simp only [if_pos hc]
        rw [List.count_append, ih3, List.count_singleton]
        by_cases hp : count + n = p
        · subst hp
          simp only [beq_self_eq_true, if_true]
          rw [if_neg (by omega), if_pos ⟨by omega, by omega, hc⟩]
        · have hb : (count + n == p) = false := by simpa using hp
          rw [hb]
          simp only [Bool.false_eq_true, if_false]
          by_cases h1 : count ≤ p ∧ p < count + n ∧ (p : Int) < iterations
          · rw [if_pos h1, if_pos ⟨h1.1, by omega, h1.2.2⟩]
          · rw [if_neg h1, if_neg (by omega)]
      · simp only [if_neg hc]
        rw [ih3]
        by_cases h1 : count ≤ p ∧ p < count + n ∧ (p : Int) < iterations
        · rw [if_pos h1, if_pos ⟨h1.1, by omega, h1.2.2⟩]
        · rw [if_neg h1, if_neg (by omega)]

/-- The first `m` blocks: the contents of `frame_out` are those of the plain model and the
pixels below `16 * m` and below `iterations` have been written once more each; while the sums
stay in the range of `int`, every read is at an offset in `[0, iterations)`. -/
theorem sobel_blocks_traced_apply (COLS : Nat) (frame_in : Int → Nat) (iterations : Int)
    (threshold : Nat) (s : SobelAccess) (m : Nat) :
    (forLoop (fun c s => sobel_block_traced COLS frame_in iterations threshold (16 * c) s)
          m s).frame_out
        = forLoop (fun c out => sobel_block COLS frame_in iterations threshold (16 * c) out)
            m s.frame_out
      ∧ (((16 * m : Nat) : Int) + 2 * COLS + 1 < 2147483648 →
          (∀ p ∈ s.reads, 0 ≤ p ∧ p < iterations) →
          ∀ p ∈ (forLoop (fun c s =>
            sobel_block_traced COLS frame_in iterations threshold (16 * c) s) m s).reads,
          0 ≤ p ∧ p < iterations)
      ∧ (∀ p, (forLoop (fun c s =>
            sobel_block_traced COLS frame_in iterations threshold (16 * c) s) m s).writes.count p
          = s.writes.count p + if p < 16 * m ∧ (p : Int) < iterations then 1 else 0) := by
  induction m with
  | zero =>
    refine ⟨rfl, fun _ hr => hr, ?_⟩
    intro p
    rw [if_neg (by omega)]
    rfl
  | succ m ih =>
    obtain ⟨ih1, ih2, ih3⟩ := ih
    simp only [forLoop]
    generalize forLoop (fun c s =>
        sobel_block_traced COLS frame_in iterations threshold (16 * c) s) m s = r
      at ih1 ih2 ih3 ⊢
    obtain ⟨b1, b2, b3⟩ :=
      sobel_block_traced_apply COLS frame_in iterations threshold (16 * m) r 16
    refine ⟨?_, ?_, ?_⟩
    · rw [← ih1]
      unfold sobel_block_traced
      rw [b1]
      rfl
    · intro hb hr
      unfold sobel_block_traced
      exact b2 (le_refl 16) (by push_cast at hb ⊢; omega) (ih2 (by push_cast at hb ⊢; omega) hr)
    · intro p
      unfold sobel_block_traced
      rw [b3, ih3]
      by_cases h1 : p < 16 * m ∧ (p : Int) < iterations
      · rw [if_pos h1, if_neg (by omega), if_pos ⟨by omega, h1.2⟩]
      · rw [if_neg h1]
        by_cases h2 : 16 * m ≤ p ∧ p < 16 * m + 16 ∧ (p : Int) < iterations
        · rw [if_pos h2, if_pos ⟨by omega, h2.2.2⟩]
        · rw [if_neg h2, if_neg (by omega)]

/-- The record of reads of a run with at least one chunk ends with the reads of the window of
the last round of the last chunk. -/
theorem sobel_cpu_traced_last (COLS : Nat) (frame_in : Int → Nat) (frame_out : Nat → Nat)
    (iterations : Int) (threshold c : Nat) (h : (iterations.toNat + 15) / 16 = c + 1) :
    ∃ earlier : List Int,
      (sobel_cpu_traced COLS frame_in frame_out iterations threshold).reads
        = earlier ++ (sobel_window_traced COLS frame_in iterations (16 * c) 15 []).2 := by
  unfold sobel_cpu_traced
  rw [h]
  simp only [forLoop]
  generalize forLoop (fun c s =>
      sobel_block_traced COLS frame_in iterations threshold (16 * c) s) c
    { frame_out := frame_out, reads := [], writes := [] } = r
  unfold sobel_block_traced
  have e : forLoop (fun k s => sobel_round_traced COLS frame_in iterations threshold (16 * c) k s)
      16 r = sobel_round_traced COLS frame_in iterations threshold (16 * c) 15
        (forLoop (fun k s => sobel_round_traced COLS frame_in iterations threshold (16 * c) k s)
          15 r) := rfl
  rw [e, sobel_round_traced_reads, sobel_window_traced_snd]
  exact ⟨_, rfl⟩

/-- C22, with the bound it needs: for every `iterations` with
`iterations + 2*COLS + 16 <= INT_MAX`, so that no index sum and no step of the counter of the
call leaves the range of `int`, also one that is not a multiple of 16 or is zero or negative,
`sobel_cpu` reads `frame_in` only at offsets `p` with `0 <= p < iterations`, writes
`frame_out[idx]` exactly once for each `idx` in `[0, iterations)` and at no other index, and
leaves every entry of `frame_out` at an index `>= iterations` as it was. The record of
accesses does not change the contents of `frame_out`. -/
theorem sobel_cpu_accesses (COLS : Nat) (frame_in : Int → Nat) (frame_out : Nat → Nat)
    (iterations : Int) (threshold : Nat) :
    (sobel_cpu_traced COLS frame_in frame_out iterations threshold).frame_out
        = sobel_cpu COLS frame_in frame_out iterations threshold
      ∧ (iterations + 2 * (COLS : Int) + 16 < 2147483648 →
          (∀ p ∈ (sobel_cpu_traced COLS frame_in frame_out iterations threshold).reads,
            0 ≤ p ∧ p < iterations)
          ∧ (∀ idx : Nat,
              (sobel_cpu_traced COLS frame_in frame_out iterations threshold).writes.count idx
                = if (idx : Int) < iterations then 1 else 0)
          ∧ (∀ idx : Nat, iterations ≤ (idx : Int) →
              sobel_cpu COLS frame_in frame_out iterations threshold idx = frame_out idx)) := by
  obtain ⟨h1, h2, h3⟩ := sobel_blocks_traced_apply COLS frame_in iterations threshold
    { frame_out := frame_out, reads := [], writes := [] } ((iterations.toNat + 15) / 16)
  refine ⟨h1, ?_⟩
  intro hb
  refine ⟨?_, ?_, ?_⟩
  · by_cases hpos : 0 < iterations
    · exact h2 (by push_cast; omega) (fun p hp => absurd hp (List.not_mem_nil p))
    · have e : (iterations.toNat + 15) / 16 = 0 := by omega
      unfold sobel_cpu_traced
      rw [e]
      intro p hp
      exact absurd hp (List.not_mem_nil p)
  · intro idx
    unfold sobel_cpu_traced
    rw [h3]
    by_cases hc : (idx : Int) < iterations
    · rw [if_pos ⟨by omega, hc⟩, if_pos hc]
      rfl
    · rw [if_neg (fun h => hc h.2), if_neg hc]
      rfl
  · intro idx hidx
    unfold sobel_cpu
    rw [sobel_blocks_apply, if_neg (by omega)]

/-- With `iterations = 17` and `COLS = 4` the bound holds: every read is at an offset in
`[0, 17)`, and pixel 16, the only one of the second chunk, is written once. -/
theorem sobel_cpu_accesses_witness :
    (17 : Int) + 2 * ((4 : Nat) : Int) + 16 < 2147483648
      ∧ (∀ p ∈ (sobel_cpu_traced 4 stepFrame (fun _ => 7) 17 100).reads, 0 ≤ p ∧ p < 17)
      ∧ (sobel_cpu_traced 4 stepFrame (fun _ => 7) 17 100).writes.count 16 = 1 :=
  ⟨by decide, ((sobel_cpu_accesses 4 stepFrame (fun _ => 7) 17 100).2 (by decide)).1,
    ((sobel_cpu_accesses 4 stepFrame (fun _ => 7) 17 100).2 (by decide)).2.1 16⟩

/-- C22 fails as stated: with `COLS = 8` and `iterations = 2^31 - 16` the last window has the
index sums `2^31` and `2^31 + 1`, which wrap, pass the guard and make the code read
`frame_in[-2^31]` and `frame_in[-2^31 + 1]`, outside `[0, iterations)`. -/
theorem sobel_cpu_accesses_counterexample :
    (-2147483648 : Int) ∈ (sobel_cpu_traced 8 outsideWhite (fun _ => 7) 2147483632 100).reads
      ∧ (sobel_window_traced 8 outsideWhite 2147483632 2147483616 15 []).2
          = [2147483631, -2147483648, -2147483647] := by
  have hw : (sobel_window_traced 8 outsideWhite 2147483632 2147483616 15 []).2
      = [2147483631, -2147483648, -2147483647] := by decide
  refine ⟨?_, hw⟩
  obtain ⟨earlier, h⟩ := sobel_cpu_traced_last 8 outsideWhite (fun _ => 7) 2147483632 100
    134217726 (by decide)
  have e : 16 * 134217726 = 2147483616 := by norm_num
  rw [h, e, hw]
  simp

set_option maxRecDepth 100000 in
/-- With `iterations = 17`, `COLS = 4`: the 17 pixels are written in two blocks, and the reads
of the last window are only those of pixel 16. -/
theorem sobel_cpu_traced_example :
    (sobel_cpu_traced 4 stepFrame (fun _ => 7) 17 100).writes = List.range 17
      ∧ (sobel_cpu_traced 4 stepFrame (fun _ => 7) 17 100).reads.getLast? = some 16
      ∧ (sobel_cpu_traced 4 stepFrame (fun _ => 7) (-3) 100).reads = []
      ∧ (sobel_cpu_traced 4 stepFrame (fun _ => 7) (-3) 100).writes = [] := by
  refine ⟨by decide, by decide, by decide, by decide⟩

/-! ## Further properties of `mersenne_twister` and of mirror -/

/-- The constructor's loop writes no word of `mt` at an index of 624 or more. -/
theorem seed_loop_frame (s0 : SeedLoop) (n : Nat) (hn : n ≤ 624) (i : Nat) (hi : 624 ≤ i) :
    (forLoop seed_body n s0).mt i = s0.mt i := by
  induction n with
  | zero => rfl
  | succ n ih =>
    have ih' := ih (by omega)
    simp only [forLoop]
    unfold seed_body
    by_cases h47 : n % VECTOR = 47
    · simp only [if_pos h47]
      unfold seed_writeback
      simp only []
      rw [seed_writeback_loop]
      unfold VECTOR MT_N at *
      rw [if_neg (by omega)]
      exact ih'
    · simp only [if_neg h47]
      exact ih'

/-- C20: the vectorised seeding loop of the constructor leaves `mt[i] = s_i` for every `i` in
`[0, 624)`, where `s_0 = seed` and `s_{n+1} = (1812433253 * (s_n XOR (s_n >> 30)) + n) mod 2^32`,
whatever `ival` and `mt` held before (no gap, no stale `ival` entry), writes nothing at an index
of 624 or more, and sets `mt_base_ = 0`. -/
theorem mersenne_twister_ctor_scalar (seed : Nat) (ival0 mt0 : Nat → Nat) :
    (∀ i, i < 624 → (mersenne_twister_ctor seed ival0 mt0).mt i = seed_sequence seed i)
      ∧ (∀ i, 624 ≤ i → (mersenne_twister_ctor seed ival0 mt0).mt i = mt0 i)
      ∧ (mersenne_twister_ctor seed ival0 mt0).mt_base_ = 0 := by
  refine ⟨fun i hi => (mersenne_twister_ctor_mt seed ival0 mt0 i hi).1, ?_, rfl⟩
  intro i hi
  unfold mersenne_twister_ctor
  exact seed_loop_frame _ 624 (le_refl _) i hi

/-- For the seed 777 the last state word is `s_623` and the word behind the array is
untouched. -/
theorem mersenne_twister_ctor_scalar_witness :
    (mersenne_twister_ctor 777 (fun _ => 1) (fun _ => 2)).mt 623 = seed_sequence 777 623
      ∧ (mersenne_twister_ctor 777 (fun _ => 1) (fun _ => 2)).mt 624 = 2 :=
  ⟨(mersenne_twister_ctor_scalar 777 (fun _ => 1) (fun _ => 2)).1 623 (by decide),
   (mersenne_twister_ctor_scalar 777 (fun _ => 1) (fun _ => 2)).2.1 624 (by decide)⟩

/-- C19 (the code does not do this): without `-n` the array length of mirror is
`1 << 28 = 268,435,456`, sixteen times the `16M = 16,777,216` of the comment. -/
theorem mirror_array_length_default :
    mirror_array_length none = 268435456
      ∧ mirror_array_length none ≠ 16 * 2 ^ 20
      ∧ mirror_array_length none = 16 * (16 * 2 ^ 20) := by
  decide

/-! ## The verification data of mirror -/

/-- The first loop of `test` writes the ramp `(int)i` into `out_copy[0..N-1]`. -/
theorem mirror_ramp_apply (N : Nat) (out_copy0 : Nat → Int) (j : Nat) :
    forLoop (fun i oc => Function.update oc i (toInt32 i)) N out_copy0 j
      = if j < N then toInt32 j else out_copy0 j := by
  induction N with
  | zero => rfl
  | succ N ih =>
    simp only [forLoop]
    by_cases hj : j = N
    · subst hj
      rw [Function.update_same, if_pos (Nat.lt_succ_self j)]
    · rw [Function.update_noteq hj, ih]
      by_cases h1 : j < N
      · rw [if_pos h1, if_pos (by omega)]
      · rw [if_neg h1, if_neg (by omega)]

/-- After `k` iterations of the mirroring loop (`k < M`) the entries `2*M - k .. 2*M - 1` hold
the entries `k .. 1` of the array the loop started from, and nothing else has changed. -/
theorem mirror_loop_apply (M : Nat) (oc : Nat → Int) (k : Nat) (hk : k < M) (p : Nat) :
    forLoop (fun n oc => Function.update oc (2 * M - (n + 1)) (oc (n + 1))) k oc p
      = if 2 * M - k ≤ p ∧ p < 2 * M then oc (2 * M - p) else oc p := by
  induction k generalizing p with
  | zero =>
    have hc : ¬ (2 * M - 0 ≤ p ∧ p < 2 * M) := by omega
    rw [if_neg hc]
    rfl
  | succ k ih =>
    have hk' : k < M := by omega
    have ihp := ih hk' p
    have ihr := ih hk' (k + 1)
    have hr : ¬ (2 * M - k ≤ k + 1 ∧ k + 1 < 2 * M) := by clear ih ihp ihr; omega
    rw [if_neg hr] at ihr
    simp only [forLoop]
    by_cases hp : p = 2 * M - (k + 1)
    · have hc : 2 * M - (k + 1) ≤ p ∧ p < 2 * M := by clear ih ihp ihr; omega
      have e : 2 * M - (2 * M - (k + 1)) = k + 1 := by clear ih ihp ihr; omega
      rw [if_pos hc, hp, Function.update_same, ihr, e]
    · have hc : (2 * M - (k + 1) ≤ p ∧ p < 2 * M) ↔ (2 * M - k ≤ p ∧ p < 2 * M) := by
        clear ih ihp ihr
        omega
      rw [Function.update_noteq hp, ihp]
      simp only [hc]

/-- The contents of `out_copy` when `test(N, M)` verifies, for `2 * M <= N` or `M <= 1`: the
mirrored ramp of the `int` images of the indices. -/
theorem mirror_out_copy_apply (N M : Nat) (out_copy0 : Nat → Int) (h : 2 * M ≤ N ∨ M ≤ 1)
    (j : Nat) (hj : j < N) :
    mirror_out_copy N M out_copy0 j
      = if M < j ∧ j < 2 * M then toInt32 (2 * M - j) else toInt32 j := by
  unfold mirror_out_copy
  by_cases hM : M ≤ 1
  · have e : M - 1 = 0 := by omega
    rw [e, if_neg (by omega)]
    show forLoop _ N out_copy0 j = _
    rw [mirror_ramp_apply, if_pos hj]
  · have hN : 2 * M ≤ N := by omega
    rw [mirror_loop_apply M _ (M - 1) (by omega) j, mirror_ramp_apply, mirror_ramp_apply,
      if_pos hj]
    by_cases hr : M < j ∧ j < 2 * M
    · rw [if_pos hr, if_pos (by omega), if_pos (by omega)]
    · rw [if_neg hr, if_neg (by omega)]

theorem toInt32_of_small (n : Nat) (h : n < 2 ^ 31) : toInt32 n = n := by
  unfold toInt32
  rw [Nat.mod_eq_of_lt (by omega), if_pos h]

/-- C16, as far as it holds: for every `N <= 2^31` and `M` with `2 <= M` and `2*M <= N`, after
the two loops `out_copy[j] = 2*M - j` for every `j` with `M < j < 2*M` and `out_copy[j] = j` for
every other `j` in `[0, N)`; for `M <= 1` (and `N <= 2^31`) `out_copy` is the unchanged ramp. -/
theorem mirror_out_copy_ramp (N M : Nat) (out_copy0 : Nat → Int) (hN : N ≤ 2 ^ 31)
    (j : Nat) (hj : j < N) :
    (2 ≤ M → 2 * M ≤ N →
        mirror_out_copy N M out_copy0 j
          = if M < j ∧ j < 2 * M then ((2 * M - j : Nat) : Int) else (j : Int))
      ∧ (M ≤ 1 → mirror_out_copy N M out_copy0 j = (j : Int)) := by
  constructor
  · intro hM h2
    rw [mirror_out_copy_apply N M out_copy0 (Or.inl h2) j hj]
    by_cases hr : M < j ∧ j < 2 * M
    · rw [if_pos hr, if_pos hr, toInt32_of_small (2 * M - j) (by omega)]
    · rw [if_neg hr, if_neg hr, toInt32_of_small j (by omega)]
  · intro hM
    rw [mirror_out_copy_apply N M out_copy0 (Or.inr hM) j hj, if_neg (by omega),
      toInt32_of_small j (by omega)]

/-- With `N = 8` and `M = 3` the entry 5 is `2*3 - 5 = 1`. -/
theorem mirror_out_copy_ramp_witness :
    mirror_out_copy 8 3 (fun _ => 0) 5 = 1 := by
  have h := (mirror_out_copy_ramp 8 3 (fun _ => 0) (by decide) 5 (by decide)).1
    (by decide) (by decide)
  rw [h]
  decide

/-- C16 fails as stated: with `N = 2^31 + 1` and `M = 2` the entry `j = 2^31`, which lies
outside the mirrored range, is `(int)j = -2^31` and not `j`. -/
theorem mirror_out_copy_ramp_counterexample :
    ¬ (mirror_out_copy (2 ^ 31 + 1) 2 (fun _ => 0) (2 ^ 31) = ((2 ^ 31 : Nat) : Int))
      ∧ mirror_out_copy (2 ^ 31 + 1) 2 (fun _ => 0) (2 ^ 31) = -2 ^ 31 := by
  have h := mirror_out_copy_apply (2 ^ 31 + 1) 2 (fun _ => 0) (Or.inl (by norm_num)) (2 ^ 31)
    (by norm_num)
  rw [if_neg (by norm_num)] at h
  have hv : toInt32 (2 ^ 31) = -2 ^ 31 := by decide
  rw [hv] at h
  rw [h]
  constructor
  · norm_num
  · rfl

/-! ## The uniform values of `next()` -/

theorem roundToEven_zero (y : Nat) : roundToEven y 0 = y := by
  unfold roundToEven
  have h1 : y % 2 ^ 0 = 0 := by omega
  have h2 : y / 2 ^ 0 = y := by simp
  simp only [h1, h2]
  norm_num

/-- The conversion `(float)y` of a 32-bit word: `0` only for `y = 0`, at most `2^32 - 256` below
`2^32 - 128`, and `2^32` from there on. -/
theorem float_of_uint32_bounds (y : Nat) (hy : y < 2 ^ 32) :
    (y = 0 → float_of_uint32 y = 0)
      ∧ (0 < y → 1 ≤ float_of_uint32 y)
      ∧ (y < 2 ^ 32 - 128 → float_of_uint32 y ≤ 2 ^ 32 - 256)
      ∧ (2 ^ 32 - 128 ≤ y → float_of_uint32 y = 2 ^ 32) := by
  unfold float_of_uint32
  rcases Nat.eq_zero_or_pos y with h0 | hpos
  · subst h0
    rw [Nat.log2_zero, roundToEven_zero]
    norm_num
  · have hne : y ≠ 0 := by omega
    have h1 := Nat.log2_self_le hne
    have h2 := @Nat.lt_log2_self y
    have h3 : Nat.log2 y < 32 := (Nat.log2_lt hne).mpr hy
    generalize Nat.log2 y = L at h1 h2 h3 ⊢
    by_cases hL : L ≤ 23
    · have e : L - 23 = 0 := by omega
      rw [e, roundToEven_zero]
      have h4 : (2 : Nat) ^ (L + 1) ≤ 2 ^ 24 := Nat.pow_le_pow_right (by decide) (by omega)
      refine ⟨?_, ?_, ?_, ?_⟩ <;> intro h <;> omega
    · have hL' : 24 ≤ L := by omega
      unfold roundToEven
      interval_cases L <;> norm_num at h1 h2 ⊢ <;>
        (refine ⟨?_, ?_, ?_, ?_⟩ <;> intro h <;> split_ifs <;> omega)

/-- The value of `uniform` in the three cases of the clamps. -/
theorem uniform_cases (y : Nat) (hy : y < 2 ^ 32) :
    (y = 0 → uniform y = CLAMP_ZERO)
      ∧ (2 ^ 32 - 128 ≤ y → uniform y = CLAMP_ONE)
      ∧ (0 < y → y < 2 ^ 32 - 128 →
          uniform y = (float_of_uint32 y : ℚ) / 4294967296
            ∧ (1 : ℚ) / 4294967296 ≤ uniform y ∧ uniform y ≤ CLAMP_ONE) := by
  obtain ⟨b0, b1, b2, b3⟩ := float_of_uint32_bounds y hy
  have hz : CLAMP_ZERO ≠ 1 := by unfold CLAMP_ZERO; norm_num
  refine ⟨?_, ?_, ?_⟩
  · intro h
    unfold uniform
    rw [b0 h]
    simp [hz]
  · intro h
    unfold uniform
    rw [b3 h]
    norm_num
  · intro h1 h2
    have f1 : (1 : ℚ) ≤ (float_of_uint32 y : ℚ) := by exact_mod_cast b1 h1
    have f2 : (float_of_uint32 y : ℚ) ≤ 4294967040 := by
      have := b2 h2
      have h' : float_of_uint32 y ≤ 4294967040 := by omega
      exact_mod_cast h'
    have u1 : (1 : ℚ) / 4294967296 ≤ (float_of_uint32 y : ℚ) / 4294967296 := by
      apply div_le_div_of_nonneg_right f1 (by norm_num)
    have u2 : (float_of_uint32 y : ℚ) / 4294967296 ≤ CLAMP_ONE := by
      unfold CLAMP_ONE
      rw [div_le_iff₀ (by norm_num)]
      have e : ((2 - 1 / 2 ^ 23) / 2 : ℚ) * 4294967296 = 4294967040 := by norm_num
      rw [e]
      exact f2
    have n0 : ¬ ((float_of_uint32 y : ℚ) / 4294967296 = 0) := by
      intro h
      rw [h] at u1
      norm_num at u1
    have n1 : ¬ ((float_of_uint32 y : ℚ) / 4294967296 = 1) := by
      intro h
      rw [h] at u2
      unfold CLAMP_ONE at u2
      norm_num at u2
    have e : uniform y = (float_of_uint32 y : ℚ) / 4294967296 := by
      unfold uniform
      simp only [n0, n1, if_false]
    rw [e]
    exact ⟨rfl, u1, u2⟩

/-- C14: for every 32-bit tempered word `y`, the uniform value
`U = float(y) / 2^32` followed by the two clamps satisfies `2^-126 <= U <= 1 - 2^-24`; the value
`1.0f`, which arises exactly for `y >= 2^32 - 128`, is replaced by `0x1.fffffep-1` and the value
`0.0f`, which arises exactly for `y = 0`, by `0x1.0p-126`; so `U` lies strictly inside `(0,1)`
and its logarithm is negative. -/
theorem uniform_strictly_inside (y : Nat) (hy : y < 2 ^ 32) :
    ((1 : ℚ) / 2 ^ 126 ≤ uniform y ∧ uniform y ≤ 1 - 1 / 2 ^ 24)
      ∧ (((float_of_uint32 y : ℚ) / 4294967296 = 1 ↔ 2 ^ 32 - 128 ≤ y)
          ∧ (2 ^ 32 - 128 ≤ y → uniform y = CLAMP_ONE))
      ∧ (((float_of_uint32 y : ℚ) / 4294967296 = 0 ↔ y = 0)
          ∧ (y = 0 → uniform y = CLAMP_ZERO))
      ∧ (0 < uniform y ∧ uniform y < 1)
      ∧ Real.log ((uniform y : ℚ) : ℝ) < 0 := by
  obtain ⟨c0, c1, c2⟩ := uniform_cases y hy
  obtain ⟨b0, b1, b2, b3⟩ := float_of_uint32_bounds y hy
  have hZ : CLAMP_ZERO = 1 / 2 ^ 126 := rfl
  have hO : CLAMP_ONE = 1 - 1 / 2 ^ 24 := by unfold CLAMP_ONE; norm_num
  have range : (1 : ℚ) / 2 ^ 126 ≤ uniform y ∧ uniform y ≤ 1 - 1 / 2 ^ 24 := by
    rcases Nat.eq_zero_or_pos y with h0 | hpos
    · rw [c0 h0, hZ]
      norm_num
    · by_cases hbig : 2 ^ 32 - 128 ≤ y
      · rw [c1 hbig, hO]
        norm_num
      · obtain ⟨-, u1, u2⟩ := c2 hpos (by omega)
        rw [hO] at u2
        refine ⟨le_trans ?_ u1, u2⟩
        norm_num
  have pos : 0 < uniform y := lt_of_lt_of_le (by norm_num) range.1
  have lt1 : uniform y < 1 := lt_of_le_of_lt range.2 (by norm_num)
  refine ⟨range, ⟨?_, c1⟩, ⟨?_, c0⟩, ⟨pos, lt1⟩, ?_⟩
  · constructor
    · intro h
      by_contra hn
      have h' : float_of_uint32 y ≤ 2 ^ 32 - 256 := b2 (by omega)
      have h'' : (float_of_uint32 y : ℚ) ≤ 4294967040 := by
        have : float_of_uint32 y ≤ 4294967040 := by omega
        exact_mod_cast this
      rw [div_eq_iff (by norm_num)] at h
      linarith
    · intro h
      rw [b3 h]
      norm_num
  · constructor
    · intro h
      by_contra hn
      have h' : (1 : ℚ) ≤ (float_of_uint32 y : ℚ) := by exact_mod_cast b1 (by omega)
      rw [div_eq_iff (by norm_num)] at h
      linarith
    · intro h
      rw [b0 h]
      norm_num
  · apply Real.log_neg
    · exact_mod_cast pos
    · exact_mod_cast lt1

/-- The word `y = 2^32 - 1` rounds up to `2^32` and is clamped: its uniform value is
`1 - 2^-24`, inside `(0,1)`. -/
theorem uniform_strictly_inside_witness :
    4294967295 < 2 ^ 32 ∧ 0 < uniform 4294967295 ∧ uniform 4294967295 < 1 :=
  ⟨by decide, (uniform_strictly_inside 4294967295 (by decide)).2.2.2.1⟩

/-! ## Properties of the launch of asian_option -/

/-- C13 (the code does not do this for every `-sims`): for every 32-bit `nr_sims` the product
`total_rnds = nr_sims * 256 * 8192` does not wrap, and for `nr_sims < 2^31` it equals
`m * n * NUM_THREADS`; but for `nr_sims = 2^31` the `int m` handed to `black_scholes` is
`-2^31`, so `total_rnds = 2^52` while `m * n * NUM_THREADS = -2^52`. -/
theorem launch_total_rnds :
    (∀ nr_sims, nr_sims < 2 ^ 32 →
        (launch_asian_option_computation nr_sims).total_rnds = nr_sims * 256 * 8192
          ∧ (launch_asian_option_computation nr_sims).n = 256)
      ∧ (∀ nr_sims, nr_sims < 2 ^ 31 →
        ((launch_asian_option_computation nr_sims).total_rnds : Int)
          = (launch_asian_option_computation nr_sims).m
              * (launch_asian_option_computation nr_sims).n * NUM_THREADS)
      ∧ (launch_asian_option_computation (2 ^ 31)).m = -2 ^ 31
      ∧ (launch_asian_option_computation (2 ^ 31)).total_rnds = 2 ^ 52
      ∧ (launch_asian_option_computation (2 ^ 31)).m
            * (launch_asian_option_computation (2 ^ 31)).n * NUM_THREADS = -2 ^ 52
      ∧ ((launch_asian_option_computation (2 ^ 31)).total_rnds : Int)
          ≠ (launch_asian_option_computation (2 ^ 31)).m
              * (launch_asian_option_computation (2 ^ 31)).n * NUM_THREADS := by
  refine ⟨?_, ?_, by decide, by decide, by decide, by decide⟩
  · intro nr_sims h
    unfold launch_asian_option_computation N_TIME_STEPS NUM_THREADS
    refine ⟨?_, rfl⟩
    dsimp only
    omega
  · intro nr_sims h
    unfold launch_asian_option_computation N_TIME_STEPS NUM_THREADS
    dsimp only
    rw [toInt32_of_small nr_sims h]
    have e : (nr_sims * 256 % 2 ^ 64 * 8192) % 2 ^ 64 = nr_sims * 256 * 8192 := by omega
    rw [e]
    push_cast
    ring

/-- The default `nr_sims = 100000` needs `100000 * 256 * 8192` random numbers. -/
theorem launch_total_rnds_witness :
    (launch_asian_option_computation 100000).total_rnds = 100000 * 256 * 8192 :=
  (launch_total_rnds.1 100000 (by decide)).1

/-! ## Properties of `kernel_cpu` and of `get_result` -/

theorem forLoop_id {σ : Type} (n : Nat) (s : σ) : forLoop (fun _ s => s) n s = s := by
  induction n with
  | zero => rfl
  | succ n ih => simp only [forLoop, ih]

/-- C11 (the code does not do this): `kernel_cpu` returns the indeterminate initial value of
the uninitialised `double sum` plus the payoffs; with `nthreads = 0` or `m = 0` it returns that
value plus `0`, which in exact arithmetic is that value and not `0`. -/
theorem kernel_cpu_uninitialised_sum {F D : Type} (ops : FloatOps F D) (sum0 : D)
    (ival0 mt0 : Nat → Nat) (nthreads m n : Nat) (drift vol S_0 K : F) :
    kernel_cpu ops sum0 ival0 mt0 0 m n drift vol S_0 K = ops.addD sum0 ops.zeroD
      ∧ kernel_cpu ops sum0 ival0 mt0 nthreads 0 n drift vol S_0 K = ops.addD sum0 ops.zeroD
      ∧ kernel_cpu rationalOps 5 ival0 mt0 0 100000 256 1 1 30 29 = 5
      ∧ kernel_cpu rationalOps 5 ival0 mt0 8192 0 256 1 1 30 29 = 5 := by
  have h1 : ∀ (F D : Type) (ops : FloatOps F D) (sum0 : D) (m n : Nat) (drift vol S_0 K : F),
      kernel_cpu ops sum0 ival0 mt0 0 m n drift vol S_0 K = ops.addD sum0 ops.zeroD := by
    intro F D ops sum0 m n drift vol S_0 K
    rfl
  have h2 : ∀ (F D : Type) (ops : FloatOps F D) (sum0 : D) (nthreads n : Nat)
      (drift vol S_0 K : F),
      kernel_cpu ops sum0 ival0 mt0 nthreads 0 n drift vol S_0 K = ops.addD sum0 ops.zeroD := by
    intro F D ops sum0 nthreads n drift vol S_0 K
    unfold kernel_cpu
    simp only [forLoop, forLoop_id]
  refine ⟨h1 F D ops sum0 m n drift vol S_0 K, h2 F D ops sum0 nthreads n drift vol S_0 K, ?_, ?_⟩
  · rw [h1]
    show (5 : ℚ) + 0 = 5
    norm_num
  · rw [h2]
    show (5 : ℚ) + 0 = 5
    norm_num

/-- C15 (the code does not do this): when the non-blocking read has not completed at the
statement `double fpga_sum = X[device_id];`, `get_result` returns
`exp(-RISK_FREE_RATE*TIME_HORIZON) * X_before / (nr_sims * NUM_THREADS)`, computed from the
value `X[device_id]` held before the read was enqueued and the same for every sum `S` the read
delivers; with `X_before = 0` in exact arithmetic it returns `0` while `X[device_id]` ends up
holding the sum. -/
theorem get_result_stale_read {F D : Type} (ops : FloatOps F D) (nr_sims : Nat)
    (X_before S S' : D) :
    get_result ops nr_sims CL_SUCCESS X_before S false
        = some (ops.mulD
            (ops.toDouble (ops.exp (ops.mul (ops.neg (ops.ofRat 0.08)) (ops.ofRat 1.0))))
            (ops.divD X_before (ops.mulD (ops.ofNatD nr_sims) (ops.ofNatD NUM_THREADS))), S)
      ∧ (get_result ops nr_sims CL_SUCCESS X_before S false).map Prod.fst
          = (get_result ops nr_sims CL_SUCCESS X_before S' false).map Prod.fst
      ∧ get_result rationalOps 100000 CL_SUCCESS 0 819200000 false = some (0, 819200000) := by
  refine ⟨rfl, rfl, ?_⟩
  unfold get_result
  simp [checkErrorPasses, CL_SUCCESS, rationalOps]

/-! ## The circular buffer of `next()` -/

/-- An object with `mt_base_ = 0` starts the invariant of `next()` for the sequence grown from
its own array. -/
theorem NextInv_start (m0 : mersenne_twister) (hb : m0.mt_base_ = 0) : NextInv m0.mt 0 m0 := by
  refine ⟨hb, ?_⟩
  intro t ht
  have e : (64 * 0 + t) % 624 = t := by omega
  have e2 : 64 * 0 + t = t := by omega
  rw [e, e2, mt19937_init _ t ht]

/-- C21: let `x` be the MT19937 sequence grown from the array of an object with `mt_base_ = 0`
and 32-bit words. For every call number `k` with `64*k + 460 < 2^32`, before the call
`mt_base_` is `64*k` and slot `(64*k + t) mod 624` holds `x_{64k+t}` for every `t < 624`; for
each `i < 64` the indices of `MT_(i)`, `MT_(i+1)`, `MT_(i+MT_M)` are `(64*k + i) mod 624`,
`(64*k + i + 1) mod 624`, `(64*k + i + 397) mod 624`, the words read there are `x_{64k+i}`,
`x_{64k+i+1}`, `x_{64k+i+397}`, the word computed from the object as it is before the call is
`x_{64k+i+624}`, and after the call slot `(64*k + i) mod 624` holds it. At `k = 2^26 - 7`,
where `mt_base_ = 2^32 - 448`, the sum `mt_base_ + i + 397` reaches `2^32` exactly for
`51 <= i < 64`; `2^32 mod 624 = 256`, and for these `i` the slot read is
`(64*k + i + 397 - 256) mod 624`, which is not `(64*k + i + 397) mod 624`. -/
theorem next_circular_buffer (m0 : mersenne_twister) (hb : m0.mt_base_ = 0)
    (hx : ∀ i, i < 624 → m0.mt i < 2 ^ 32) :
    (∀ k, 64 * k + 460 < 2 ^ 32 →
        (after_calls m0 k).mt_base_ = 64 * k
        ∧ (∀ t, t < 624 →
            (after_calls m0 k).mt ((64 * k + t) % 624) = mt19937 m0.mt (64 * k + t))
        ∧ (∀ i, i < 64 →
            MT_ (after_calls m0 k) i = (64 * k + i) % 624
            ∧ MT_ (after_calls m0 k) (i + 1) = (64 * k + i + 1) % 624
            ∧ MT_ (after_calls m0 k) (i + MT_M) = (64 * k + i + 397) % 624
            ∧ (after_calls m0 k).mt (MT_ (after_calls m0 k) i) = mt19937 m0.mt (64 * k + i)
            ∧ (after_calls m0 k).mt (MT_ (after_calls m0 k) (i + 1))
                = mt19937 m0.mt (64 * k + i + 1)
            ∧ (after_calls m0 k).mt (MT_ (after_calls m0 k) (i + MT_M))
                = mt19937 m0.mt (64 * k + i + 397)
            ∧ next_twist (after_calls m0 k) i = mt19937 m0.mt (64 * k + i + 624)
            ∧ (next (after_calls m0 k)).1.mt ((64 * k + i) % 624)
                = next_twist (after_calls m0 k) i))
      ∧ (after_calls m0 67108857).mt_base_ = 2 ^ 32 - 448
      ∧ 2 ^ 32 % 624 = 256
      ∧ (∀ i, i < 64 →
          (2 ^ 32 ≤ (after_calls m0 67108857).mt_base_ + (i + MT_M) ↔ 51 ≤ i)
          ∧ (51 ≤ i →
              MT_ (after_calls m0 67108857) (i + MT_M)
                  = (64 * 67108857 + i + 397 - 256) % 624
              ∧ MT_ (after_calls m0 67108857) (i + MT_M)
                  ≠ (64 * 67108857 + i + 397) % 624)) := by
  have h0 := NextInv_start m0 hb
  refine ⟨?_, ?_, by norm_num, ?_⟩
  · intro k hk
    have hinv := after_calls_inv m0.mt hx m0 h0 k (by omega)
    have hstep := (next_step m0.mt hx k _ hinv hk).1
    generalize after_calls m0 k = m at hinv hstep ⊢
    refine ⟨hinv.1, hinv.2, ?_⟩
    intro i hi
    have a1 := MT_eq m0.mt k m hinv i (by omega)
    have a2 := MT_eq m0.mt k m hinv (i + 1) (by omega)
    have a3 : MT_ m (i + MT_M) = (64 * k + (i + 397)) % 624 :=
      MT_eq m0.mt k m hinv (i + 397) (by omega)
    have e2 : 64 * k + (i + 1) = 64 * k + i + 1 := by omega
    have e3 : 64 * k + (i + 397) = 64 * k + i + 397 := by omega
    have tw := next_twist_eq m0.mt hx k m hinv i hi hk
    refine ⟨a1, ?_, ?_, ?_, ?_, ?_, tw, ?_⟩
    · rw [a2, e2]
    · rw [a3, e3]
    · rw [a1]
      exact hinv.2 i (by omega)
    · rw [a2, hinv.2 (i + 1) (by omega), e2]
    · rw [a3, hinv.2 (i + 397) (by omega), e3]
    · have h := hstep.2 (i + 560) (by omega)
      have e4 : (64 * (k + 1) + (i + 560)) % 624 = (64 * k + i) % 624 := by omega
      have e5 : 64 * (k + 1) + (i + 560) = 64 * k + i + 624 := by omega
      rw [e4, e5] at h
      rw [h, tw]
  · have hinv := after_calls_inv m0.mt hx m0 h0 67108857 (by norm_num)
    rw [hinv.1]
    norm_num
  · intro i hi
    have hinv := after_calls_inv m0.mt hx m0 h0 67108857 (by norm_num)
    unfold MT_ MT_N MT_M
    rw [hinv.1]
    norm_num
    omega

/-- For the object that the constructor builds from the seed 777 of `kernel_cpu`: the second
call computes `x_{688}` for `i = 0` from the object as it is before the call. -/
theorem next_circular_buffer_witness :
    (mersenne_twister_ctor 777 (fun _ => 0) (fun _ => 0)).mt_base_ = 0
      ∧ (∀ i, i < 624 → (mersenne_twister_ctor 777 (fun _ => 0) (fun _ => 0)).mt i < 2 ^ 32)
      ∧ next_twist (after_calls (mersenne_twister_ctor 777 (fun _ => 0) (fun _ => 0)) 1) 0
          = mt19937 (mersenne_twister_ctor 777 (fun _ => 0) (fun _ => 0)).mt (64 * 1 + 0 + 624) :=
  ⟨rfl, mersenne_twister_ctor_lt 777 (by decide) _ _,
    (((next_circular_buffer (mersenne_twister_ctor 777 (fun _ => 0) (fun _ => 0)) rfl
      (mersenne_twister_ctor_lt 777 (by decide) _ _)).1 1 (by norm_num)).2.2 0
        (by norm_num)).2.2.2.2.2.2.1⟩

end FpgaMonitoring
